import Mathlib

/-!
# Toolset registry (pkg/toolsets/toolsets.go)

A shallow embedding of the toolset registry: the `Toolset` container, the
`ToolsetGroup` registry and the enablement operations.

Modelling conventions.

* A Go `*Toolset` is an address (`Ptr`) into a `Heap`, a total function from
  addresses to `Toolset` records, so two registry keys may name the same
  toolset object and a toolset can still be changed through its pointer after
  it has been inserted into a group.  The nil pointer is not an address.
* `map[string]*Toolset` is an association list read by first match; the order
  of the list stands for the (unspecified) iteration order of the Go map.
* A Go `error` result is an `Option`: `none` is the nil error.
* A panic is the `error` side of an `Except Panic`.
* `*bool` is `Option Bool`: `none` is the nil pointer.
* Handlers are never called by this package; a handler is an identifier.
-/

namespace toolsets

/-! ## Tool records (mcp-go types, only the fields this package reads) -/

/-- Tool annotations of mcp-go; `ReadOnlyHint` is a `*bool` there. -/
structure ToolAnnotation where
  ReadOnlyHint : Option Bool
deriving DecidableEq, Repr

/-- An mcp-go tool descriptor. -/
structure Tool where
  Name : String
  Annotations : ToolAnnotation
deriving DecidableEq, Repr

/-- A tool descriptor paired with its handler (`server.ServerTool`). -/
structure ServerTool where
  Tool : Tool
  Handler : Nat
deriving DecidableEq, Repr

/-- A resource template paired with its handler (`server.ServerResourceTemplate`). -/
structure ServerResourceTemplate where
  Template : String
  Handler : Nat
deriving DecidableEq, Repr

/-- A prompt paired with its handler (`server.ServerPrompt`). -/
structure ServerPrompt where
  Prompt : String
  Handler : Nat
deriving DecidableEq, Repr

/-- The function `NewServerTool`. -/
def NewServerTool (tool : Tool) (handler : Nat) : ServerTool :=
  { Tool := tool, Handler := handler }

/-! ## Errors and panics -/

/-- The error type `ToolsetDoesNotExistError`. -/
structure ToolsetDoesNotExistError where
  Name : String
deriving DecidableEq, Repr

/-- The function `NewToolsetDoesNotExistError`. -/
def NewToolsetDoesNotExistError (name : String) : ToolsetDoesNotExistError :=
  { Name := name }

/-- The method `ToolsetDoesNotExistError.Error`. -/
def ToolsetDoesNotExistError.Error (e : ToolsetDoesNotExistError) : String :=
  "toolset " ++ e.Name ++ " does not exist"

/-- A non-nil Go `error` value by its dynamic type: a
`*ToolsetDoesNotExistError` (`none` is the nil pointer of that type), or an
error of any other type, with its message. -/
inductive GoError where
  | toolsetDoesNotExist (e : Option ToolsetDoesNotExistError)
  | other (text : String)
deriving DecidableEq, Repr

/-- The method `ToolsetDoesNotExistError.Is`; the target is an `error`
interface value, `none` is the nil interface. The receiver is not read. -/
def ToolsetDoesNotExistError.Is (_e : ToolsetDoesNotExistError) (target : Option GoError) :
    Bool :=
  match target with
  | none => false
  | some (GoError.toolsetDoesNotExist _) => true
  | some (GoError.other _) => false

/-- A panic: either the runtime panic of dereferencing a nil pointer, or an
explicit `panic(text)`. -/
inductive Panic where
  | nilDereference
  | message (text : String)
deriving DecidableEq, Repr

/-! ## Toolset -/

/-- The struct `Toolset`. -/
structure Toolset where
  Name : String
  Description : String
  Enabled : Bool
  readOnly : Bool
  writeTools : List ServerTool
  readTools : List ServerTool
  resourceTemplates : List ServerResourceTemplate
  prompts : List ServerPrompt
deriving DecidableEq, Repr

/-- The function `NewToolset`: the slices are left at their zero value. -/
def NewToolset (name : String) (description : String) : Toolset :=
  { Name := name, Description := description, Enabled := false, readOnly := false,
    writeTools := [], readTools := [], resourceTemplates := [], prompts := [] }

/-- The method `Toolset.GetActiveTools`. -/
def Toolset.GetActiveTools (t : Toolset) : List ServerTool :=
  if t.Enabled then
    if t.readOnly then
      t.readTools
    else
      t.readTools ++ t.writeTools
  else
    []

/-- The method `Toolset.GetAvailableTools`. -/
def Toolset.GetAvailableTools (t : Toolset) : List ServerTool :=
  if t.readOnly then
    t.readTools
  else
    t.readTools ++ t.writeTools

/-- The method `Toolset.AddResourceTemplates`. -/
def Toolset.AddResourceTemplates (t : Toolset) (templates : List ServerResourceTemplate) :
    Toolset :=
  { t with resourceTemplates := t.resourceTemplates ++ templates }

/-- The method `Toolset.AddPrompts`. -/
def Toolset.AddPrompts (t : Toolset) (prompts : List ServerPrompt) : Toolset :=
  { t with prompts := t.prompts ++ prompts }

/-- The method `Toolset.GetActiveResourceTemplates`. -/
def Toolset.GetActiveResourceTemplates (t : Toolset) : List ServerResourceTemplate :=
  if !t.Enabled then [] else t.resourceTemplates

/-- The method `Toolset.GetAvailableResourceTemplates`. -/
def Toolset.GetAvailableResourceTemplates (t : Toolset) : List ServerResourceTemplate :=
  t.resourceTemplates

/-- The method `Toolset.SetReadOnly`. -/
def Toolset.SetReadOnly (t : Toolset) : Toolset :=
  { t with readOnly := true }

/-- The annotation loop of `AddWriteTools`: the first tool, in list order,
whose hint is nil or true stops the loop with a panic. -/
def AddWriteTools.check : List ServerTool → Option Panic
  | [] => none
  | tool :: rest =>
    match tool.Tool.Annotations.ReadOnlyHint with
    | none => some Panic.nilDereference
    | some true =>
      some (Panic.message ("tool (" ++ tool.Tool.Name ++ ") is incorrectly annotated as read-only"))
    | some false => AddWriteTools.check rest

/-- The method `Toolset.AddWriteTools`. -/
def Toolset.AddWriteTools (t : Toolset) (tools : List ServerTool) : Except Panic Toolset :=
  match AddWriteTools.check tools with
  | some p => Except.error p
  | none =>
    if !t.readOnly then
      Except.ok { t with writeTools := t.writeTools ++ tools }
    else
      Except.ok t

/-- The annotation loop of `AddReadTools`: the first tool, in list order,
whose hint is nil or false stops the loop with a panic. -/
def AddReadTools.check : List ServerTool → Option Panic
  | [] => none
  | tool :: rest =>
    match tool.Tool.Annotations.ReadOnlyHint with
    | none => some Panic.nilDereference
    | some false =>
      some (Panic.message ("tool (" ++ tool.Tool.Name ++ ") must be annotated as read-only"))
    | some true => AddReadTools.check rest

/-- The method `Toolset.AddReadTools`. -/
def Toolset.AddReadTools (t : Toolset) (tools : List ServerTool) : Except Panic Toolset :=
  match AddReadTools.check tools with
  | some p => Except.error p
  | none => Except.ok { t with readTools := t.readTools ++ tools }

/-- The annotation loop of `AddWriteTools` with the toolset passed along: the
panic that stops the loop, if any, and the toolset as the loop leaves it. The
loop body reads the tool and writes nothing. -/
def AddWriteTools.checkFrom (t : Toolset) : List ServerTool → Option Panic × Toolset
  | [] => (none, t)
  | tool :: rest =>
    match tool.Tool.Annotations.ReadOnlyHint with
    | none => (some Panic.nilDereference, t)
    | some true =>
      (some (Panic.message
        ("tool (" ++ tool.Tool.Name ++ ") is incorrectly annotated as read-only")), t)
    | some false => AddWriteTools.checkFrom t rest

/-- The method `Toolset.AddWriteTools` as seen by a caller that recovers the
panic: the panic, if any, and the toolset as the call leaves it. -/
def Toolset.AddWriteTools.recovered (t : Toolset) (tools : List ServerTool) :
    Option Panic × Toolset :=
  match AddWriteTools.checkFrom t tools with
  | (some p, t1) => (some p, t1)
  | (none, t1) =>
    if !t1.readOnly then
      (none, { t1 with writeTools := t1.writeTools ++ tools })
    else
      (none, t1)

/-- The annotation loop of `AddReadTools` with the toolset passed along. -/
def AddReadTools.checkFrom (t : Toolset) : List ServerTool → Option Panic × Toolset
  | [] => (none, t)
  | tool :: rest =>
    match tool.Tool.Annotations.ReadOnlyHint with
    | none => (some Panic.nilDereference, t)
    | some false =>
      (some (Panic.message ("tool (" ++ tool.Tool.Name ++ ") must be annotated as read-only")), t)
    | some true => AddReadTools.checkFrom t rest

/-- The method `Toolset.AddReadTools` as seen by a caller that recovers the
panic: the panic, if any, and the toolset as the call leaves it. -/
def Toolset.AddReadTools.recovered (t : Toolset) (tools : List ServerTool) :
    Option Panic × Toolset :=
  match AddReadTools.checkFrom t tools with
  | (some p, t1) => (some p, t1)
  | (none, t1) => (none, { t1 with readTools := t1.readTools ++ tools })

/-! ## Heap and registry map -/

/-- An address of a `Toolset` object (a non-nil `*Toolset`). -/
abbrev Ptr := Nat

/-- The toolset objects, by address. -/
abbrev Heap := Ptr → Toolset

/-- Writing a toolset object through its pointer. -/
def Heap.write (mem : Heap) (p : Ptr) (t : Toolset) : Heap :=
  fun q => if q = p then t else mem q

/-- A Go `map[string]*Toolset`. -/
abbrev ToolsetMap := List (String × Ptr)

/-- The map read `m[name]`: `none` when the key is absent. -/
def ToolsetMap.get : ToolsetMap → String → Option Ptr
  | [], _ => none
  | (k, p) :: rest, name => if k = name then some p else ToolsetMap.get rest name

/-- The map write `m[name] = p`: replaces the entry of an existing key, adds
the key otherwise. -/
def ToolsetMap.set : ToolsetMap → String → Ptr → ToolsetMap
  | [], name, p => [(name, p)]
  | (k, q) :: rest, name, p =>
    if k = name then (name, p) :: rest else (k, q) :: ToolsetMap.set rest name p

/-- The keys visited by `for name := range m`. -/
def ToolsetMap.keys (m : ToolsetMap) : List String :=
  m.map Prod.fst

/-! ## ToolsetGroup -/

/-- The struct `ToolsetGroup`. -/
structure ToolsetGroup where
  Toolsets : ToolsetMap
  everythingOn : Bool
  readOnly : Bool
deriving DecidableEq, Repr

/-- The function `NewToolsetGroup`. -/
def NewToolsetGroup (readOnly : Bool) : ToolsetGroup :=
  { Toolsets := [], everythingOn := false, readOnly := readOnly }

/-- The method `ToolsetGroup.AddToolset`, on the toolset object at `ts`. -/
def ToolsetGroup.AddToolset (tg : ToolsetGroup) (mem : Heap) (ts : Ptr) :
    ToolsetGroup × Heap :=
  let mem1 := if tg.readOnly then mem.write ts (mem ts).SetReadOnly else mem
  ({ tg with Toolsets := tg.Toolsets.set (mem1 ts).Name ts }, mem1)

/-- The method `ToolsetGroup.IsEnabled`. -/
def ToolsetGroup.IsEnabled (tg : ToolsetGroup) (mem : Heap) (name : String) : Bool :=
  if tg.everythingOn then
    true
  else
    match tg.Toolsets.get name with
    | none => false
    | some feature => (mem feature).Enabled

/-- The method `ToolsetGroup.EnableToolset`: the error result, the group and
the heap after the call. -/
def ToolsetGroup.EnableToolset (tg : ToolsetGroup) (mem : Heap) (name : String) :
    Option ToolsetDoesNotExistError × ToolsetGroup × Heap :=
  match tg.Toolsets.get name with
  | none => (some (NewToolsetDoesNotExistError name), tg, mem)
  | some toolset =>
    let mem1 := mem.write toolset { mem toolset with Enabled := true }
    (none, { tg with Toolsets := tg.Toolsets.set name toolset }, mem1)

/-- The outcome of a loop of `EnableToolsets`, and of the whole method: `err`
is the error returned (`none` when the loop ended or was left by `break`),
`tg` and `mem` the group and the heap as they are left, and `calls` lists the
names `EnableToolset` has been called with so far, in call order. -/
structure ScanResult where
  err : Option ToolsetDoesNotExistError
  tg : ToolsetGroup
  mem : Heap
  calls : List String

/-- The first loop of `EnableToolsets`, over the names in order. -/
def EnableToolsets.scan (tg : ToolsetGroup) (mem : Heap) (calls : List String) :
    List String → ScanResult
  | [] => { err := none, tg := tg, mem := mem, calls := calls }
  | name :: rest =>
    if name = "all" then
      { err := none, tg := { tg with everythingOn := true }, mem := mem, calls := calls }
    else
      match tg.EnableToolset mem name with
      | (some err, tg1, mem1) =>
        { err := some err, tg := tg1, mem := mem1, calls := calls ++ [name] }
      | (none, tg1, mem1) => EnableToolsets.scan tg1 mem1 (calls ++ [name]) rest

/-- The second loop of `EnableToolsets`, over the keys of the registry. -/
def EnableToolsets.sweep (tg : ToolsetGroup) (mem : Heap) (calls : List String) :
    List String → ScanResult
  | [] => { err := none, tg := tg, mem := mem, calls := calls }
  | name :: rest =>
    match tg.EnableToolset mem name with
    | (some err, tg1, mem1) =>
      { err := some err, tg := tg1, mem := mem1, calls := calls ++ [name] }
    | (none, tg1, mem1) => EnableToolsets.sweep tg1 mem1 (calls ++ [name]) rest

/-- The body of `ToolsetGroup.EnableToolsets`, first loop then second loop,
with the list of the `EnableToolset` calls both loops have made. -/
def EnableToolsets.run (tg : ToolsetGroup) (mem : Heap) (names : List String) : ScanResult :=
  let r := EnableToolsets.scan tg mem [] names
  match r.err with
  | some err => { err := some err, tg := r.tg, mem := r.mem, calls := r.calls }
  | none =>
    if r.tg.everythingOn then
      EnableToolsets.sweep r.tg r.mem r.calls r.tg.Toolsets.keys
    else
      { err := none, tg := r.tg, mem := r.mem, calls := r.calls }

/-- The method `ToolsetGroup.EnableToolsets`: the error result, the group and
the heap after the call. -/
def ToolsetGroup.EnableToolsets (tg : ToolsetGroup) (mem : Heap) (names : List String) :
    Option ToolsetDoesNotExistError × ToolsetGroup × Heap :=
  ((EnableToolsets.run tg mem names).err, (EnableToolsets.run tg mem names).tg,
    (EnableToolsets.run tg mem names).mem)

/-- The method `ToolsetGroup.GetToolset`. -/
def ToolsetGroup.GetToolset (tg : ToolsetGroup) (name : String) :
    Option Ptr × Option ToolsetDoesNotExistError :=
  match tg.Toolsets.get name with
  | none => (none, some (NewToolsetDoesNotExistError name))
  | some toolset => (some toolset, none)

/-! ## Call sequences -/

/-- A call made by a client of the package on the group or on a toolset
object it holds a pointer to. -/
inductive Call where
  | AddReadTools (t : Ptr) (tools : List ServerTool)
  | AddWriteTools (t : Ptr) (tools : List ServerTool)
  | AddResourceTemplates (t : Ptr) (templates : List ServerResourceTemplate)
  | AddPrompts (t : Ptr) (prompts : List ServerPrompt)
  | SetReadOnly (t : Ptr)
  | AddToolset (ts : Ptr)
  | EnableToolset (name : String)
  | EnableToolsets (names : List String)
deriving DecidableEq, Repr

/-- One call on the group and the heap; a panic ends the program. The error
result of `EnableToolset` and `EnableToolsets` is dropped here: the caller
goes on with the state the call left. -/
def Call.run (tg : ToolsetGroup) (mem : Heap) : Call → Except Panic (ToolsetGroup × Heap)
  | Call.AddReadTools t tools =>
    match (mem t).AddReadTools tools with
    | Except.error p => Except.error p
    | Except.ok t1 => Except.ok (tg, mem.write t t1)
  | Call.AddWriteTools t tools =>
    match (mem t).AddWriteTools tools with
    | Except.error p => Except.error p
    | Except.ok t1 => Except.ok (tg, mem.write t t1)
  | Call.AddResourceTemplates t templates =>
    Except.ok (tg, mem.write t ((mem t).AddResourceTemplates templates))
  | Call.AddPrompts t prompts => Except.ok (tg, mem.write t ((mem t).AddPrompts prompts))
  | Call.SetReadOnly t => Except.ok (tg, mem.write t (mem t).SetReadOnly)
  | Call.AddToolset ts => Except.ok (tg.AddToolset mem ts)
  | Call.EnableToolset name => Except.ok (tg.EnableToolset mem name).2
  | Call.EnableToolsets names => Except.ok (tg.EnableToolsets mem names).2

/-- A sequence of calls, in order, stopped by the first panic. -/
def runCalls (tg : ToolsetGroup) (mem : Heap) : List Call → Except Panic (ToolsetGroup × Heap)
  | [] => Except.ok (tg, mem)
  | c :: rest =>
    match c.run tg mem with
    | Except.error p => Except.error p
    | Except.ok (tg1, mem1) => runCalls tg1 mem1 rest

/-- The tools handed to `AddWriteTools` (on any toolset) by a sequence of calls. -/
def writeToolsPassed : List Call → List ServerTool
  | [] => []
  | Call.AddWriteTools _ tools :: rest => tools ++ writeToolsPassed rest
  | _ :: rest => writeToolsPassed rest

/-- The tools handed to `AddReadTools` on the toolset object at `t`. -/
def readToolsPassed (t : Ptr) : List Call → List ServerTool
  | [] => []
  | Call.AddReadTools q tools :: rest =>
    if q = t then tools ++ readToolsPassed t rest else readToolsPassed t rest
  | _ :: rest => readToolsPassed t rest

/-! ## Registration target -/

/-- The hosting server (`server.MCPServer` of mcp-go) as the log of the
registration calls it has received, oldest first. -/
structure MCPServer where
  addToolCalls : List (Tool × Nat)
  addResourceTemplateCalls : List (String × Nat)
  addPromptCalls : List (String × Nat)
deriving DecidableEq, Repr

/-- The call `s.AddTool(tool, handler)`. -/
def MCPServer.AddTool (s : MCPServer) (tool : Tool) (handler : Nat) : MCPServer :=
  { s with addToolCalls := s.addToolCalls ++ [(tool, handler)] }

/-- The call `s.AddResourceTemplate(template, handler)`. -/
def MCPServer.AddResourceTemplate (s : MCPServer) (template : String) (handler : Nat) :
    MCPServer :=
  { s with addResourceTemplateCalls := s.addResourceTemplateCalls ++ [(template, handler)] }

/-- The call `s.AddPrompt(prompt, handler)`. -/
def MCPServer.AddPrompt (s : MCPServer) (prompt : String) (handler : Nat) : MCPServer :=
  { s with addPromptCalls := s.addPromptCalls ++ [(prompt, handler)] }

/-- A loop `for _, tool := range tools { s.AddTool(tool.Tool, tool.Handler) }`. -/
def RegisterTools.loop (s : MCPServer) : List ServerTool → MCPServer
  | [] => s
  | tool :: rest => RegisterTools.loop (s.AddTool tool.Tool tool.Handler) rest

/-- The method `Toolset.RegisterTools`: the server after the call. -/
def Toolset.RegisterTools (t : Toolset) (s : MCPServer) : MCPServer :=
  if !t.Enabled then
    s
  else
    let s1 := RegisterTools.loop s t.readTools
    if !t.readOnly then
      RegisterTools.loop s1 t.writeTools
    else
      s1

/-- The loop of `RegisterResourcesTemplates`. -/
def RegisterResourcesTemplates.loop (s : MCPServer) : List ServerResourceTemplate → MCPServer
  | [] => s
  | resource :: rest =>
    RegisterResourcesTemplates.loop (s.AddResourceTemplate resource.Template resource.Handler) rest

/-- The method `Toolset.RegisterResourcesTemplates`: the server after the call. -/
def Toolset.RegisterResourcesTemplates (t : Toolset) (s : MCPServer) : MCPServer :=
  if !t.Enabled then
    s
  else
    RegisterResourcesTemplates.loop s t.resourceTemplates

/-- The loop of `RegisterPrompts`. -/
def RegisterPrompts.loop (s : MCPServer) : List ServerPrompt → MCPServer
  | [] => s
  | prompt :: rest => RegisterPrompts.loop (s.AddPrompt prompt.Prompt prompt.Handler) rest

/-- The method `Toolset.RegisterPrompts`: the server after the call. -/
def Toolset.RegisterPrompts (t : Toolset) (s : MCPServer) : MCPServer :=
  if !t.Enabled then
    s
  else
    RegisterPrompts.loop s t.prompts

/-- The loop of `RegisterAll`, over the entries of the registry. -/
def RegisterAll.loop (mem : Heap) (s : MCPServer) : ToolsetMap → MCPServer
  | [] => s
  | (_, toolset) :: rest =>
    RegisterAll.loop mem
      ((mem toolset).RegisterPrompts
        ((mem toolset).RegisterResourcesTemplates ((mem toolset).RegisterTools s))) rest

/-- The method `ToolsetGroup.RegisterAll`: the server after the call. -/
def ToolsetGroup.RegisterAll (tg : ToolsetGroup) (mem : Heap) (s : MCPServer) : MCPServer :=
  RegisterAll.loop mem s tg.Toolsets

/-! ## Building a toolset -/

/-- A builder call on one toolset object. -/
inductive BuildCall where
  | AddReadTools (tools : List ServerTool)
  | AddWriteTools (tools : List ServerTool)
  | AddResourceTemplates (templates : List ServerResourceTemplate)
  | AddPrompts (prompts : List ServerPrompt)
  | SetReadOnly
deriving DecidableEq, Repr

/-- One builder call on a toolset; a panic ends the program. -/
def BuildCall.run (t : Toolset) : BuildCall → Except Panic Toolset
  | BuildCall.AddReadTools tools => t.AddReadTools tools
  | BuildCall.AddWriteTools tools => t.AddWriteTools tools
  | BuildCall.AddResourceTemplates templates => Except.ok (t.AddResourceTemplates templates)
  | BuildCall.AddPrompts prompts => Except.ok (t.AddPrompts prompts)
  | BuildCall.SetReadOnly => Except.ok t.SetReadOnly

/-- A chain of builder calls on a toolset, in order, stopped by the first panic. -/
def Toolset.build (t : Toolset) : List BuildCall → Except Panic Toolset
  | [] => Except.ok t
  | c :: rest =>
    match c.run t with
    | Except.error p => Except.error p
    | Except.ok t1 => Toolset.build t1 rest

/-! ## Vocabulary for the statements -/

/-- The heap in which the toolset objects at the listed addresses have
`Enabled = true` and nothing else is changed. -/
def Heap.enableAt (mem : Heap) (ps : List Ptr) : Heap :=
  fun q => if q ∈ ps then { mem q with Enabled := true } else mem q

/-- The names of a list that stand before its first "all" (all of them when
the list has no "all"). -/
def beforeAll : List String → List String
  | [] => []
  | name :: rest => if name = "all" then [] else name :: beforeAll rest

/-- The first name of a list that is not a key of the map. -/
def firstUnknown (m : ToolsetMap) : List String → Option String
  | [] => none
  | name :: rest => if m.get name = none then some name else firstUnknown m rest

/-- The names of a list up to and including the first one that is not a key
of the map (all of them when every name is a key). -/
def throughFirstUnknown (m : ToolsetMap) : List String → List String
  | [] => []
  | name :: rest =>
    if m.get name = none then [name] else name :: throughFirstUnknown m rest

/-- The addresses stored in the map under the listed names. -/
def ToolsetMap.getAll (m : ToolsetMap) (names : List String) : List Ptr :=
  names.filterMap m.get

/-- The second heap differs from the first at most in that some toolset
objects have had `Enabled` set to true. -/
def Heap.OnlyEnables (mem mem1 : Heap) : Prop :=
  ∀ q, mem1 q = mem q ∨ mem1 q = { mem q with Enabled := true }

/-- The group is synchronized with its everythingOn flag: when the flag is
set, every toolset object stored in the registry has `Enabled = true`. -/
def ToolsetGroup.Synchronized (tg : ToolsetGroup) (mem : Heap) : Prop :=
  tg.everythingOn = true → ∀ n p, tg.Toolsets.get n = some p → (mem p).Enabled = true

/-- Along a run of the calls, every AddToolset made while everythingOn is set
hands over a toolset object that already has `Enabled = true`. -/
def addsEnabledWhenAllOn (tg : ToolsetGroup) (mem : Heap) : List Call → Bool
  | [] => true
  | c :: rest =>
    (match c with
      | Call.AddToolset ts => !tg.everythingOn || (mem ts).Enabled
      | _ => true) &&
    (match c.run tg mem with
      | Except.ok st => addsEnabledWhenAllOn st.1 st.2 rest
      | Except.error _ => true)

/-- The tools of a toolset carry the annotation of the list they are in. -/
def Toolset.Annotated (t : Toolset) : Prop :=
  (∀ tool ∈ t.readTools, tool.Tool.Annotations.ReadOnlyHint = some true) ∧
  (∀ tool ∈ t.writeTools, tool.Tool.Annotations.ReadOnlyHint = some false)

/-- The AddTool call a registration makes for a tool. -/
def ServerTool.registration (tool : ServerTool) : toolsets.Tool × Nat :=
  (tool.Tool, tool.Handler)

/-! ## Sample registry

A heap with two toolset objects, "repos" at address 0 and "issues" at every
other address, and a group that registers them under their names. -/

/-- A sample heap. -/
def sampleHeap : Heap :=
  fun p => if p = 0 then NewToolset "repos" "Repository tools" else NewToolset "issues" "Issue tools"

/-- A sample group over `sampleHeap`, not read-only, nothing enabled. -/
def sampleGroup : ToolsetGroup :=
  { Toolsets := [("repos", 0), ("issues", 1)], everythingOn := false, readOnly := false }

/-- A sample tool annotated with the given hint. -/
def sampleTool (name : String) (hint : Bool) : ServerTool :=
  NewServerTool { Name := name, Annotations := { ReadOnlyHint := some hint } } 0

/-- The calls that build the scenario group: "repos" with three read and two
write tools, "issues" with two read and one write tool, the tools added before
the toolsets are inserted into the group. -/
def scenarioCalls : List Call :=
  [Call.AddReadTools 0
     [sampleTool "search_repositories" true, sampleTool "get_file_contents" true,
      sampleTool "list_commits" true],
   Call.AddWriteTools 0
     [sampleTool "create_repository" false, sampleTool "fork_repository" false],
   Call.AddReadTools 1 [sampleTool "get_issue" true, sampleTool "search_issues" true],
   Call.AddWriteTools 1 [sampleTool "create_issue" false],
   Call.AddToolset 0, Call.AddToolset 1]

/-- A heap in which every toolset object is a fresh toolset named "repos". -/
def reposHeap : Heap :=
  fun _ => NewToolset "repos" "Repository tools"

/-- An empty registration target. -/
def emptyServer : MCPServer :=
  { addToolCalls := [], addResourceTemplateCalls := [], addPromptCalls := [] }

end toolsets

/-!
# Request parameters, pagination and path filtering (pkg/github)

Modelling conventions.

* A Go `string` is a `String`; `strings.HasSuffix` and `strings.TrimSuffix`
  work on its characters.
* A Go `int` is an `Int`; `int32(x)` wraps modulo 2^32.
* A `float64` is its IEEE 754 bit pattern; `int(x)` truncates toward zero.
* An `error` made by `fmt.Errorf` is its message; `none` is the nil error.
* A request is the map its `GetArguments()` returns, an association list read
  by first match (no arguments: the empty list).
-/

namespace strings

/-- The function `strings.HasSuffix`. -/
def HasSuffix (s suffix : String) : Bool :=
  suffix.data.isSuffixOf s.data

/-- The function `strings.TrimSuffix`. -/
def TrimSuffix (s suffix : String) : String :=
  if HasSuffix s suffix then
    String.mk (s.data.take (s.data.length - suffix.data.length))
  else
    s

end strings

namespace github

/-! ## Values of a decoded request -/

/-- A `float64`, by its IEEE 754 binary64 bit pattern (read modulo 2^64). -/
structure Float64 where
  bits : Nat
deriving DecidableEq, Repr

/-- The sign bit. -/
def Float64.sign (x : Float64) : Nat :=
  x.bits / 2 ^ 63 % 2

/-- The biased exponent field. -/
def Float64.exponent (x : Float64) : Nat :=
  x.bits / 2 ^ 52 % 2 ^ 11

/-- The fraction field. -/
def Float64.mantissa (x : Float64) : Nat :=
  x.bits % 2 ^ 52

/-- Whether the value is a NaN. -/
def Float64.isNaN (x : Float64) : Bool :=
  x.exponent == 2047 && x.mantissa != 0

/-- Whether the value is +0 or -0. -/
def Float64.isZero (x : Float64) : Bool :=
  x.exponent == 0 && x.mantissa == 0

/-- The Go comparison `x == y` on float64: a NaN equals nothing, the two zeros
are equal, other values are equal when their bit patterns are. -/
def Float64.eq (x y : Float64) : Bool :=
  !x.isNaN && !y.isNaN && ((x.isZero && y.isZero) || x.bits % 2 ^ 64 == y.bits % 2 ^ 64)

/-- The Go conversion `int(x)` to the 64-bit int: the fraction is discarded.
For a NaN, an infinity or a value outside the range of int the language leaves
the result to the implementation; the amd64 result, the least int, is taken. -/
def Float64.toInt (x : Float64) : Int :=
  if x.exponent = 2047 then
    -(2 ^ 63 : Int)
  else if x.exponent = 0 then
    0
  else
    let magnitude : Nat :=
      if x.exponent < 1075 then
        (2 ^ 52 + x.mantissa) / 2 ^ (1075 - x.exponent)
      else
        (2 ^ 52 + x.mantissa) * 2 ^ (x.exponent - 1075)
    if x.sign = 0 then
      if magnitude < 2 ^ 63 then (magnitude : Int) else -(2 ^ 63 : Int)
    else
      if magnitude ≤ 2 ^ 63 then -(magnitude : Int) else -(2 ^ 63 : Int)

/-- A value of type `any` in the arguments of a request, as JSON decoding
makes it. The elements of an array and the fields of an object are not read
by the helpers modelled here; such a value is an identifier. -/
inductive Value where
  | nil
  | bool (b : Bool)
  | float64 (x : Float64)
  | string (s : String)
  | slice (id : Nat)
  | map (id : Nat)
deriving DecidableEq, Repr

/-- What the verb `%T` of `fmt` prints for a value of type `any`. -/
def Value.typeName : Value → String
  | Value.nil => "<nil>"
  | Value.bool _ => "bool"
  | Value.float64 _ => "float64"
  | Value.string _ => "string"
  | Value.slice _ => "[]interface {}"
  | Value.map _ => "map[string]interface {}"

/-- A type argument `T` of the generic helpers: what `%T` prints for a value
of the type, its zero value, the type assertion `val.(T)` and the comparison
`==` (read only where `T` is comparable). -/
structure TypeParam (α : Type) where
  name : String
  zero : α
  assert : Value → Option α
  eq : α → α → Bool

/-- The type argument `string`. -/
def TypeParam.string : TypeParam String :=
  { name := "string", zero := "",
    assert := fun val => match val with
      | Value.string s => some s
      | _ => none,
    eq := fun a b => decide (a = b) }

/-- The type argument `bool`. -/
def TypeParam.bool : TypeParam Bool :=
  { name := "bool", zero := false,
    assert := fun val => match val with
      | Value.bool b => some b
      | _ => none,
    eq := fun a b => decide (a = b) }

/-- The type argument `float64`. -/
def TypeParam.float64 : TypeParam Float64 :=
  { name := "float64", zero := { bits := 0 },
    assert := fun val => match val with
      | Value.float64 x => some x
      | _ => none,
    eq := Float64.eq }

/-- The arguments of an `mcp.CallToolRequest`, as `GetArguments()` returns them. -/
abbrev CallToolRequest := List (String × Value)

/-- The map read `r.GetArguments()[p]`: `none` when the key is absent. -/
def CallToolRequest.get : CallToolRequest → String → Option Value
  | [], _ => none
  | (k, v) :: rest, p => if k = p then some v else CallToolRequest.get rest p

/-! ## Parameter helpers (server.go) -/

/-- The function `OptionalParamOK`: the value, `ok` and the error. -/
def OptionalParamOK {α : Type} (T : TypeParam α) (r : CallToolRequest) (p : String) :
    α × Bool × Option String :=
  match r.get p with
  | none => (T.zero, false, none)
  | some val =>
    match T.assert val with
    | none =>
      (T.zero, true,
        some ("parameter " ++ p ++ " is not of type " ++ T.name ++ ", is " ++ val.typeName))
    | some value => (value, true, none)

/-- The function `RequiredParam`: the value and the error. -/
def RequiredParam {α : Type} (T : TypeParam α) (r : CallToolRequest) (p : String) :
    α × Option String :=
  match r.get p with
  | none => (T.zero, some ("missing required parameter: " ++ p))
  | some arg =>
    match T.assert arg with
    | none => (T.zero, some ("parameter " ++ p ++ " is not of type " ++ T.name))
    | some val =>
      if T.eq val T.zero then
        (T.zero, some ("missing required parameter: " ++ p))
      else
        (val, none)

/-- The function `OptionalParam`: the value and the error. -/
def OptionalParam {α : Type} (T : TypeParam α) (r : CallToolRequest) (p : String) :
    α × Option String :=
  match r.get p with
  | none => (T.zero, none)
  | some arg =>
    match T.assert arg with
    | none =>
      (T.zero,
        some ("parameter " ++ p ++ " is not of type " ++ T.name ++ ", is " ++ arg.typeName))
    | some val => (val, none)

/-- The function `OptionalIntParam`. -/
def OptionalIntParam (r : CallToolRequest) (p : String) : Int × Option String :=
  match OptionalParam TypeParam.float64 r p with
  | (_, some err) => (0, some err)
  | (v, none) => (v.toInt, none)

/-- The function `OptionalIntParamWithDefault`. -/
def OptionalIntParamWithDefault (r : CallToolRequest) (p : String) (d : Int) :
    Int × Option String :=
  match OptionalIntParam r p with
  | (_, some err) => (0, some err)
  | (v, none) => if v = 0 then (d, none) else (v, none)

/-- The struct `PaginationParams`. -/
structure PaginationParams where
  Page : Int
  PerPage : Int
  After : String
deriving DecidableEq, Repr

/-- The function `OptionalPaginationParams`. -/
def OptionalPaginationParams (r : CallToolRequest) : PaginationParams × Option String :=
  match OptionalIntParamWithDefault r "page" 1 with
  | (_, some err) => ({ Page := 0, PerPage := 0, After := "" }, some err)
  | (page, none) =>
    match OptionalIntParamWithDefault r "perPage" 30 with
    | (_, some err) => ({ Page := 0, PerPage := 0, After := "" }, some err)
    | (perPage, none) =>
      match OptionalParam TypeParam.string r "after" with
      | (_, some err) => ({ Page := 0, PerPage := 0, After := "" }, some err)
      | (after, none) => ({ Page := page, PerPage := perPage, After := after }, none)

/-- The struct `CursorPaginationParams`. -/
structure CursorPaginationParams where
  PerPage : Int
  After : String
deriving DecidableEq, Repr

/-- The struct `GraphQLPaginationParams`; `none` is a nil pointer. -/
structure GraphQLPaginationParams where
  First : Option Int
  After : Option String
deriving DecidableEq, Repr

/-- The Go conversion `int32(x)` of an int: the low 32 bits, read as signed. -/
def toInt32 (x : Int) : Int :=
  (x + 2 ^ 31) % 2 ^ 32 - 2 ^ 31

/-- The method `CursorPaginationParams.ToGraphQLParams`: the result pointer
and the error. -/
def CursorPaginationParams.ToGraphQLParams (p : CursorPaginationParams) :
    Option GraphQLPaginationParams × Option String :=
  if p.PerPage > 100 then
    (none, some ("perPage value " ++ toString p.PerPage ++ " exceeds maximum of 100"))
  else if p.PerPage < 0 then
    (none, some ("perPage value " ++ toString p.PerPage ++ " cannot be negative"))
  else
    let first := toInt32 p.PerPage
    let after := if p.After ≠ "" then some p.After else none
    (some { First := some first, After := after }, none)

/-- The method `PaginationParams.ToGraphQLParams`. -/
def PaginationParams.ToGraphQLParams (p : PaginationParams) :
    Option GraphQLPaginationParams × Option String :=
  let cursor : CursorPaginationParams := { PerPage := p.PerPage, After := p.After }
  cursor.ToGraphQLParams

/-! ## Path filtering (repositories.go) -/

/-- A tree entry of go-github, with the two fields `filterPaths` reads, `Path`
and `Type` (here `Type_`); both are `*string` there, `none` is the nil pointer. -/
structure TreeEntry where
  Path : Option String
  Type_ : Option String
deriving DecidableEq, Repr

/-- The getter `GetPath` of go-github on a `*TreeEntry`; `none` is the nil entry. -/
def GetPath (entry : Option TreeEntry) : String :=
  match entry with
  | none => ""
  | some e => e.Path.getD ""

/-- The getter `GetType` of go-github on a `*TreeEntry`; `none` is the nil entry. -/
def GetType (entry : Option TreeEntry) : String :=
  match entry with
  | none => ""
  | some e => e.Type_.getD ""

/-- The loop of `filterPaths`, from the entries still to visit and the paths
matched so far. -/
def filterPaths.loop (dirOnly : Bool) (path : String) (maxResults : Int) :
    List (Option TreeEntry) → List String → List String
  | [], matchedPaths => matchedPaths
  | entry :: rest, matchedPaths =>
    if (matchedPaths.length : Int) = maxResults then
      matchedPaths
    else if dirOnly && GetType entry != "tree" then
      filterPaths.loop dirOnly path maxResults rest matchedPaths
    else if GetPath entry = "" then
      filterPaths.loop dirOnly path maxResults rest matchedPaths
    else if strings.HasSuffix (GetPath entry) path then
      filterPaths.loop dirOnly path maxResults rest
        (matchedPaths ++ [if GetType entry = "tree" then GetPath entry ++ "/" else GetPath entry])
    else
      filterPaths.loop dirOnly path maxResults rest matchedPaths

/-- The function `filterPaths`. -/
def filterPaths (entries : List (Option TreeEntry)) (path : String) (maxResults : Int) :
    List String :=
  if strings.HasSuffix path "/" then
    filterPaths.loop true (strings.TrimSuffix path "/") maxResults entries []
  else
    filterPaths.loop false path maxResults entries []

/-! ## Vocabulary for the statements -/

/-- What the description of `filterPaths` asks of one entry: for an entry
whose path is not empty and ends with the path, and that is a tree when only
directories are wanted, the path of the entry, followed by "/" for a tree. -/
def matchOf (dirOnly : Bool) (path : String) (entry : Option TreeEntry) : Option String :=
  if (dirOnly = true → GetType entry = "tree") ∧ GetPath entry ≠ "" ∧
      strings.HasSuffix (GetPath entry) path = true then
    some (if GetType entry = "tree" then GetPath entry ++ "/" else GetPath entry)
  else
    none

/-- Every match of the entries, in entry order, as the description of
`filterPaths` states them. -/
def allMatches (entries : List (Option TreeEntry)) (path : String) : List String :=
  entries.filterMap
    (matchOf (strings.HasSuffix path "/")
      (if strings.HasSuffix path "/" then strings.TrimSuffix path "/" else path))

end github

namespace toolsets

/-! ## Lemmas on the registry map and the heap -/

theorem Heap.write_same (mem : Heap) (p : Ptr) (t : Toolset) : mem.write p t p = t := by
  simp [Heap.write]

theorem Heap.write_other (mem : Heap) (p q : Ptr) (t : Toolset) (h : q ≠ p) :
    mem.write p t q = mem q := by
  simp [Heap.write, h]

theorem ToolsetMap.set_of_get (m : ToolsetMap) (name : String) (p : Ptr)
    (h : m.get name = some p) : m.set name p = m := by
  induction m with
  | nil => simp [ToolsetMap.get] at h
  | cons e rest ih =>
    obtain ⟨k, q⟩ := e
    by_cases hk : k = name
    · subst hk
      simp only [ToolsetMap.get, if_true] at h
      cases h
      simp [ToolsetMap.set]
    · simp only [ToolsetMap.get, hk, if_false] at h
      simp [ToolsetMap.set, hk, ih h]

theorem ToolsetMap.get_of_mem_keys (m : ToolsetMap) (name : String) (h : name ∈ m.keys) :
    ∃ p, m.get name = some p := by
  induction m with
  | nil => simp [ToolsetMap.keys] at h
  | cons e rest ih =>
    obtain ⟨k, q⟩ := e
    by_cases hk : k = name
    · exact ⟨q, by simp [ToolsetMap.get, hk]⟩
    · have hrest : name ∈ ToolsetMap.keys rest := by
        simp only [ToolsetMap.keys, List.map_cons, List.mem_cons] at h
        rcases h with h | h
        · exact absurd h.symm hk
        · exact h
      obtain ⟨p, hp⟩ := ih hrest
      exact ⟨p, by simp [ToolsetMap.get, hk, hp]⟩

theorem ToolsetMap.mem_keys_of_get (m : ToolsetMap) (name : String) (p : Ptr)
    (h : m.get name = some p) : name ∈ m.keys := by
  induction m with
  | nil => simp [ToolsetMap.get] at h
  | cons e rest ih =>
    obtain ⟨k, q⟩ := e
    by_cases hk : k = name
    · simp [ToolsetMap.keys, hk]
    · simp only [ToolsetMap.get, hk, if_false] at h
      have := ih h
      simp only [ToolsetMap.keys] at this
      simp [ToolsetMap.keys, this]

/-! ## Lemmas on EnableToolset -/

theorem EnableToolset_of_absent (tg : ToolsetGroup) (mem : Heap) (name : String)
    (h : tg.Toolsets.get name = none) :
    tg.EnableToolset mem name = (some (NewToolsetDoesNotExistError name), tg, mem) := by
  simp [ToolsetGroup.EnableToolset, h]

theorem EnableToolset_of_present (tg : ToolsetGroup) (mem : Heap) (name : String) (p : Ptr)
    (h : tg.Toolsets.get name = some p) :
    tg.EnableToolset mem name = (none, tg, mem.write p { mem p with Enabled := true }) := by
  simp [ToolsetGroup.EnableToolset, h, ToolsetMap.set_of_get _ _ _ h]

theorem EnableToolset_group (tg : ToolsetGroup) (mem : Heap) (name : String) :
    (tg.EnableToolset mem name).2.1 = tg := by
  cases h : tg.Toolsets.get name with
  | none => rw [EnableToolset_of_absent tg mem name h]
  | some p => rw [EnableToolset_of_present tg mem name p h]

/-! ## Lemmas on the annotation checks -/

theorem AddReadTools_check_eq_none_iff (tools : List ServerTool) :
    AddReadTools.check tools = none ↔
      ∀ tool ∈ tools, tool.Tool.Annotations.ReadOnlyHint = some true := by
  induction tools with
  | nil => simp [AddReadTools.check]
  | cons tool rest ih =>
    unfold AddReadTools.check
    rcases h : tool.Tool.Annotations.ReadOnlyHint with _ | b
    · simp [h]
    · cases b <;> simp [h, ih]

theorem AddWriteTools_check_eq_none_iff (tools : List ServerTool) :
    AddWriteTools.check tools = none ↔
      ∀ tool ∈ tools, tool.Tool.Annotations.ReadOnlyHint = some false := by
  induction tools with
  | nil => simp [AddWriteTools.check]
  | cons tool rest ih =>
    unfold AddWriteTools.check
    rcases h : tool.Tool.Annotations.ReadOnlyHint with _ | b
    · simp [h]
    · cases b <;> simp [h, ih]

theorem AddReadTools_check_eq_some (tools : List ServerTool) (p : Panic)
    (h : AddReadTools.check tools = some p) :
    (p = Panic.nilDereference ∧ ∃ tool ∈ tools, tool.Tool.Annotations.ReadOnlyHint = none) ∨
    ∃ tool ∈ tools, tool.Tool.Annotations.ReadOnlyHint = some false ∧
      p = Panic.message ("tool (" ++ tool.Tool.Name ++ ") must be annotated as read-only") := by
  induction tools with
  | nil => simp [AddReadTools.check] at h
  | cons tool rest ih =>
    unfold AddReadTools.check at h
    rcases hh : tool.Tool.Annotations.ReadOnlyHint with _ | b
    · rw [hh] at h
      simp only [Option.some.injEq] at h
      exact Or.inl ⟨h.symm, tool, List.mem_cons_self _ _, hh⟩
    · cases b
      · rw [hh] at h
        simp only [Option.some.injEq] at h
        exact Or.inr ⟨tool, List.mem_cons_self _ _, hh, h.symm⟩
      · rw [hh] at h
        rcases ih h with ⟨hp, tl, htl, hnil⟩ | ⟨tl, htl, hf, hp⟩
        · exact Or.inl ⟨hp, tl, List.mem_cons_of_mem _ htl, hnil⟩
        · exact Or.inr ⟨tl, List.mem_cons_of_mem _ htl, hf, hp⟩

theorem AddWriteTools_check_eq_some (tools : List ServerTool) (p : Panic)
    (h : AddWriteTools.check tools = some p) :
    (p = Panic.nilDereference ∧ ∃ tool ∈ tools, tool.Tool.Annotations.ReadOnlyHint = none) ∨
    ∃ tool ∈ tools, tool.Tool.Annotations.ReadOnlyHint = some true ∧
      p = Panic.message
        ("tool (" ++ tool.Tool.Name ++ ") is incorrectly annotated as read-only") := by
  induction tools with
  | nil => simp [AddWriteTools.check] at h
  | cons tool rest ih =>
    unfold AddWriteTools.check at h
    rcases hh : tool.Tool.Annotations.ReadOnlyHint with _ | b
    · rw [hh] at h
      simp only [Option.some.injEq] at h
      exact Or.inl ⟨h.symm, tool, List.mem_cons_self _ _, hh⟩
    · cases b
      · rw [hh] at h
        rcases ih h with ⟨hp, tl, htl, hnil⟩ | ⟨tl, htl, hf, hp⟩
        · exact Or.inl ⟨hp, tl, List.mem_cons_of_mem _ htl, hnil⟩
        · exact Or.inr ⟨tl, List.mem_cons_of_mem _ htl, hf, hp⟩
      · rw [hh] at h
        simp only [Option.some.injEq] at h
        exact Or.inr ⟨tool, List.mem_cons_self _ _, hh, h.symm⟩

theorem AddReadTools_eq_error_iff (t : Toolset) (tools : List ServerTool) (p : Panic) :
    t.AddReadTools tools = Except.error p ↔ AddReadTools.check tools = some p := by
  unfold Toolset.AddReadTools
  cases AddReadTools.check tools <;> simp

theorem AddWriteTools_eq_error_iff (t : Toolset) (tools : List ServerTool) (p : Panic) :
    t.AddWriteTools tools = Except.error p ↔ AddWriteTools.check tools = some p := by
  unfold Toolset.AddWriteTools
  cases AddWriteTools.check tools with
  | none => cases t.readOnly <;> simp
  | some q => simp

theorem AddReadTools_eq_ok (t t1 : Toolset) (tools : List ServerTool)
    (h : t.AddReadTools tools = Except.ok t1) :
    (∀ tool ∈ tools, tool.Tool.Annotations.ReadOnlyHint = some true) ∧
      t1 = { t with readTools := t.readTools ++ tools } := by
  unfold Toolset.AddReadTools at h
  cases hc : AddReadTools.check tools with
  | none =>
    rw [hc] at h
    simp only [Except.ok.injEq] at h
    exact ⟨(AddReadTools_check_eq_none_iff tools).1 hc, h.symm⟩
  | some q => rw [hc] at h; simp at h

theorem AddWriteTools_eq_ok (t t1 : Toolset) (tools : List ServerTool)
    (h : t.AddWriteTools tools = Except.ok t1) :
    (∀ tool ∈ tools, tool.Tool.Annotations.ReadOnlyHint = some false) ∧
      t1 = if t.readOnly then t else { t with writeTools := t.writeTools ++ tools } := by
  unfold Toolset.AddWriteTools at h
  cases hc : AddWriteTools.check tools with
  | none =>
    rw [hc] at h
    refine ⟨(AddWriteTools_check_eq_none_iff tools).1 hc, ?_⟩
    cases hr : t.readOnly <;> simp [hr] at h ⊢ <;> exact h.symm
  | some q => rw [hc] at h; simp at h

/-! ## Lemmas on the loops of EnableToolsets -/

theorem Heap.enableAt_nil (mem : Heap) : mem.enableAt [] = mem := by
  funext q
  simp [Heap.enableAt]

theorem Heap.enableAt_write (mem : Heap) (p : Ptr) (ps : List Ptr) :
    (mem.write p { mem p with Enabled := true }).enableAt ps = mem.enableAt (p :: ps) := by
  funext q
  by_cases hq : q = p
  · subst hq
    by_cases hm : q ∈ ps <;> simp [Heap.enableAt, Heap.write, hm]
  · by_cases hm : q ∈ ps <;> simp [Heap.enableAt, Heap.write, hm, hq]

theorem Heap.enableAt_enableAt (mem : Heap) (ps qs : List Ptr) :
    (mem.enableAt ps).enableAt qs = mem.enableAt (ps ++ qs) := by
  funext q
  by_cases h1 : q ∈ ps <;> by_cases h2 : q ∈ qs <;> simp [Heap.enableAt, h1, h2]

theorem Heap.enableAt_congr (mem : Heap) (ps qs : List Ptr) (h : ∀ q, q ∈ ps ↔ q ∈ qs) :
    mem.enableAt ps = mem.enableAt qs := by
  funext q
  by_cases h1 : q ∈ ps
  · simp [Heap.enableAt, h1, (h q).1 h1]
  · have h2 : q ∉ qs := fun hq => h1 ((h q).2 hq)
    simp [Heap.enableAt, h1, h2]

theorem sweep_of_keys (tg : ToolsetGroup) (ks : List String) :
    ∀ (mem : Heap) (calls : List String), (∀ k ∈ ks, ∃ p, tg.Toolsets.get k = some p) →
      EnableToolsets.sweep tg mem calls ks =
        { err := none, tg := tg, mem := mem.enableAt (tg.Toolsets.getAll ks),
          calls := calls ++ ks } := by
  induction ks with
  | nil =>
    intro mem calls _
    simp [EnableToolsets.sweep, ToolsetMap.getAll, Heap.enableAt_nil]
  | cons k rest ih =>
    intro mem calls hk
    obtain ⟨p, hp⟩ := hk k (List.mem_cons_self _ _)
    have hrest : ∀ k ∈ rest, ∃ p, tg.Toolsets.get k = some p :=
      fun k1 h1 => hk k1 (List.mem_cons_of_mem _ h1)
    unfold EnableToolsets.sweep
    rw [EnableToolset_of_present tg mem k p hp]
    simp only []
    rw [ih _ _ hrest, Heap.enableAt_write]
    simp [ToolsetMap.getAll, hp]

theorem scan_of_known (tg : ToolsetGroup) (names : List String) :
    ∀ (mem : Heap) (calls : List String),
      (∀ n ∈ beforeAll names, ∃ p, tg.Toolsets.get n = some p) →
      EnableToolsets.scan tg mem calls names =
        { err := none,
          tg := if "all" ∈ names then { tg with everythingOn := true } else tg,
          mem := mem.enableAt (tg.Toolsets.getAll (beforeAll names)),
          calls := calls ++ beforeAll names } := by
  induction names with
  | nil =>
    intro mem calls _
    simp [EnableToolsets.scan, beforeAll, ToolsetMap.getAll, Heap.enableAt_nil]
  | cons name rest ih =>
    intro mem calls hk
    by_cases hall : name = "all"
    · simp [EnableToolsets.scan, beforeAll, hall, ToolsetMap.getAll, Heap.enableAt_nil]
    · have hb : beforeAll (name :: rest) = name :: beforeAll rest := by simp [beforeAll, hall]
      rw [hb] at hk ⊢
      obtain ⟨p, hp⟩ := hk name (List.mem_cons_self _ _)
      have hrest : ∀ n ∈ beforeAll rest, ∃ p, tg.Toolsets.get n = some p :=
        fun n hn => hk n (List.mem_cons_of_mem _ hn)
      unfold EnableToolsets.scan
      rw [if_neg hall, EnableToolset_of_present tg mem name p hp]
      simp only []
      rw [ih _ _ hrest, Heap.enableAt_write]
      have hmem : ("all" ∈ name :: rest) = ("all" ∈ rest) := by
        simp [List.mem_cons, Ne.symm hall]
      simp [ToolsetMap.getAll, hp, hmem]

theorem ToolsetMap.mem_getAll (m : ToolsetMap) (names : List String) (p : Ptr) :
    p ∈ m.getAll names ↔ ∃ n ∈ names, m.get n = some p := by
  simp [ToolsetMap.getAll, List.mem_filterMap]

theorem ToolsetMap.mem_getAll_keys (m : ToolsetMap) (p : Ptr) :
    p ∈ m.getAll m.keys ↔ ∃ n, m.get n = some p := by
  rw [ToolsetMap.mem_getAll]
  constructor
  · rintro ⟨n, _, hn⟩
    exact ⟨n, hn⟩
  · rintro ⟨n, hn⟩
    exact ⟨n, ToolsetMap.mem_keys_of_get m n p hn, hn⟩

/-- The order in which the second loop of EnableToolsets visits the keys of
the registry does not matter: any list with the same members as the key list
gives the same result. -/
theorem sweep_order_irrelevant (tg : ToolsetGroup) (mem : Heap) (calls : List String)
    (ks : List String) (h : ∀ k, k ∈ ks ↔ k ∈ tg.Toolsets.keys) :
    (EnableToolsets.sweep tg mem calls ks).err =
        (EnableToolsets.sweep tg mem calls tg.Toolsets.keys).err ∧
    (EnableToolsets.sweep tg mem calls ks).tg =
        (EnableToolsets.sweep tg mem calls tg.Toolsets.keys).tg ∧
    (EnableToolsets.sweep tg mem calls ks).mem =
        (EnableToolsets.sweep tg mem calls tg.Toolsets.keys).mem := by
  have hks : ∀ k ∈ ks, ∃ p, tg.Toolsets.get k = some p :=
    fun k hk => ToolsetMap.get_of_mem_keys tg.Toolsets k ((h k).1 hk)
  have hkeys : ∀ k ∈ tg.Toolsets.keys, ∃ p, tg.Toolsets.get k = some p :=
    fun k hk => ToolsetMap.get_of_mem_keys tg.Toolsets k hk
  rw [sweep_of_keys tg ks mem calls hks, sweep_of_keys tg _ mem calls hkeys]
  refine ⟨rfl, rfl, ?_⟩
  apply Heap.enableAt_congr
  intro q
  rw [ToolsetMap.mem_getAll, ToolsetMap.mem_getAll]
  constructor
  · rintro ⟨n, hn, hg⟩
    exact ⟨n, (h n).1 hn, hg⟩
  · rintro ⟨n, hn, hg⟩
    exact ⟨n, (h n).2 hn, hg⟩

theorem firstUnknown_eq_none_iff (m : ToolsetMap) (names : List String) :
    firstUnknown m names = none ↔ ∀ n ∈ names, ∃ p, m.get n = some p := by
  induction names with
  | nil => simp [firstUnknown]
  | cons name rest ih =>
    unfold firstUnknown
    cases h : m.get name with
    | none => simp [h]
    | some p => simp [h, ih]

theorem firstUnknown_eq_some (m : ToolsetMap) (names : List String) (n : String)
    (h : firstUnknown m names = some n) : n ∈ names ∧ m.get n = none := by
  induction names with
  | nil => simp [firstUnknown] at h
  | cons name rest ih =>
    unfold firstUnknown at h
    by_cases hg : m.get name = none
    · rw [if_pos hg] at h
      simp only [Option.some.injEq] at h
      subst h
      exact ⟨List.mem_cons_self _ _, hg⟩
    · rw [if_neg hg] at h
      exact ⟨List.mem_cons_of_mem _ (ih h).1, (ih h).2⟩

theorem scan_err_calls (tg : ToolsetGroup) (names : List String) :
    ∀ (mem : Heap) (calls : List String),
      (EnableToolsets.scan tg mem calls names).err =
          (firstUnknown tg.Toolsets (beforeAll names)).map NewToolsetDoesNotExistError ∧
      (EnableToolsets.scan tg mem calls names).calls =
          calls ++ throughFirstUnknown tg.Toolsets (beforeAll names) := by
  induction names with
  | nil =>
    intro mem calls
    simp [EnableToolsets.scan, beforeAll, firstUnknown, throughFirstUnknown]
  | cons name rest ih =>
    intro mem calls
    by_cases hall : name = "all"
    · simp [EnableToolsets.scan, beforeAll, hall, firstUnknown, throughFirstUnknown]
    · have hb : beforeAll (name :: rest) = name :: beforeAll rest := by simp [beforeAll, hall]
      rw [hb]
      unfold EnableToolsets.scan
      rw [if_neg hall]
      cases hg : tg.Toolsets.get name with
      | none =>
        rw [EnableToolset_of_absent tg mem name hg]
        simp [firstUnknown, throughFirstUnknown, hg]
      | some p =>
        rw [EnableToolset_of_present tg mem name p hg]
        simp only []
        obtain ⟨h1, h2⟩ := ih (mem.write p { mem p with Enabled := true }) (calls ++ [name])
        rw [h1, h2]
        simp [firstUnknown, throughFirstUnknown, hg]

theorem EnableToolsets_eq (tg : ToolsetGroup) (mem : Heap) (names : List String) :
    tg.EnableToolsets mem names =
      match (EnableToolsets.scan tg mem [] names).err with
      | some err =>
        (some err, (EnableToolsets.scan tg mem [] names).tg,
          (EnableToolsets.scan tg mem [] names).mem)
      | none =>
        if (EnableToolsets.scan tg mem [] names).tg.everythingOn = true then
          ((EnableToolsets.sweep (EnableToolsets.scan tg mem [] names).tg
              (EnableToolsets.scan tg mem [] names).mem
              (EnableToolsets.scan tg mem [] names).calls
              (EnableToolsets.scan tg mem [] names).tg.Toolsets.keys).err,
            (EnableToolsets.sweep (EnableToolsets.scan tg mem [] names).tg
              (EnableToolsets.scan tg mem [] names).mem
              (EnableToolsets.scan tg mem [] names).calls
              (EnableToolsets.scan tg mem [] names).tg.Toolsets.keys).tg,
            (EnableToolsets.sweep (EnableToolsets.scan tg mem [] names).tg
              (EnableToolsets.scan tg mem [] names).mem
              (EnableToolsets.scan tg mem [] names).calls
              (EnableToolsets.scan tg mem [] names).tg.Toolsets.keys).mem)
        else
          (none, (EnableToolsets.scan tg mem [] names).tg,
            (EnableToolsets.scan tg mem [] names).mem) := by
  unfold ToolsetGroup.EnableToolsets EnableToolsets.run
  cases he : (EnableToolsets.scan tg mem [] names).err with
  | some e => simp only [he]
  | none =>
    by_cases hon : (EnableToolsets.scan tg mem [] names).tg.everythingOn = true
    · simp only [he, hon, if_true]
    · simp [he, hon]

theorem keys_known (tg : ToolsetGroup) :
    ∀ k ∈ tg.Toolsets.keys, ∃ p, tg.Toolsets.get k = some p :=
  fun k hk => ToolsetMap.get_of_mem_keys tg.Toolsets k hk

theorem EnableToolsets_err (tg : ToolsetGroup) (mem : Heap) (names : List String) :
    (tg.EnableToolsets mem names).1 =
      (firstUnknown tg.Toolsets (beforeAll names)).map NewToolsetDoesNotExistError := by
  cases hf : firstUnknown tg.Toolsets (beforeAll names) with
  | none =>
    have hk := (firstUnknown_eq_none_iff _ _).1 hf
    rw [EnableToolsets_eq]
    simp only [scan_of_known tg names mem [] hk]
    by_cases hall : "all" ∈ names
    · simp only [if_pos hall, if_true]
      rw [sweep_of_keys _ _ _ _ (keys_known { tg with everythingOn := true })]
      rfl
    · simp only [if_neg hall]
      by_cases he : tg.everythingOn = true
      · rw [if_pos he, sweep_of_keys _ _ _ _ (keys_known tg)]
        rfl
      · rw [if_neg he]
        rfl
  | some n =>
    have h1 := (scan_err_calls tg names mem []).1
    rw [hf] at h1
    rw [EnableToolsets_eq]
    simp only [h1, Option.map_some']

theorem EnableToolsets_of_all (tg : ToolsetGroup) (mem : Heap) (names : List String)
    (hall : "all" ∈ names) (hk : ∀ n ∈ beforeAll names, ∃ p, tg.Toolsets.get n = some p) :
    tg.EnableToolsets mem names =
      (none, { tg with everythingOn := true },
        mem.enableAt (tg.Toolsets.getAll tg.Toolsets.keys)) := by
  rw [EnableToolsets_eq]
  simp only [scan_of_known tg names mem [] hk, if_pos hall, if_true]
  rw [sweep_of_keys _ _ _ _ (keys_known { tg with everythingOn := true })]
  simp only [Heap.enableAt_enableAt]
  congr 2
  apply Heap.enableAt_congr
  intro q
  rw [List.mem_append, ToolsetMap.mem_getAll_keys, ToolsetMap.mem_getAll]
  constructor
  · rintro (⟨n, _, hn⟩ | h)
    · exact ⟨n, hn⟩
    · exact h
  · intro h
    exact Or.inr h

/-! ## Frame lemmas: enabling changes nothing but Enabled flags -/

theorem Heap.OnlyEnables.refl (mem : Heap) : Heap.OnlyEnables mem mem :=
  fun _ => Or.inl rfl

theorem Heap.OnlyEnables.trans (mem mem1 mem2 : Heap) (h1 : Heap.OnlyEnables mem mem1)
    (h2 : Heap.OnlyEnables mem1 mem2) : Heap.OnlyEnables mem mem2 := by
  intro q
  rcases h1 q with a | a <;> rcases h2 q with b | b <;> rw [b, a] <;> simp

theorem EnableToolset_frame (tg : ToolsetGroup) (mem : Heap) (name : String) :
    Heap.OnlyEnables mem (tg.EnableToolset mem name).2.2 := by
  intro q
  cases h : tg.Toolsets.get name with
  | none =>
    rw [EnableToolset_of_absent tg mem name h]
    exact Or.inl rfl
  | some p =>
    rw [EnableToolset_of_present tg mem name p h]
    by_cases hq : q = p
    · subst hq
      exact Or.inr (by simp [Heap.write])
    · exact Or.inl (by simp [Heap.write, hq])

theorem scan_frame (tg : ToolsetGroup) (names : List String) :
    ∀ (mem : Heap) (calls : List String),
      Heap.OnlyEnables mem (EnableToolsets.scan tg mem calls names).mem ∧
      (EnableToolsets.scan tg mem calls names).tg.Toolsets = tg.Toolsets ∧
      (EnableToolsets.scan tg mem calls names).tg.readOnly = tg.readOnly := by
  induction names with
  | nil =>
    intro mem calls
    exact ⟨Heap.OnlyEnables.refl mem, rfl, rfl⟩
  | cons name rest ih =>
    intro mem calls
    unfold EnableToolsets.scan
    by_cases hall : name = "all"
    · rw [if_pos hall]
      exact ⟨Heap.OnlyEnables.refl mem, rfl, rfl⟩
    · rw [if_neg hall]
      cases hg : tg.Toolsets.get name with
      | none =>
        rw [EnableToolset_of_absent tg mem name hg]
        exact ⟨Heap.OnlyEnables.refl mem, rfl, rfl⟩
      | some p =>
        have hf := EnableToolset_frame tg mem name
        rw [EnableToolset_of_present tg mem name p hg] at hf ⊢
        simp only []
        obtain ⟨h1, h2, h3⟩ := ih (mem.write p { mem p with Enabled := true }) (calls ++ [name])
        exact ⟨Heap.OnlyEnables.trans _ _ _ hf h1, h2, h3⟩

theorem sweep_frame (tg : ToolsetGroup) (ks : List String) :
    ∀ (mem : Heap) (calls : List String),
      Heap.OnlyEnables mem (EnableToolsets.sweep tg mem calls ks).mem ∧
      (EnableToolsets.sweep tg mem calls ks).tg = tg := by
  induction ks with
  | nil =>
    intro mem calls
    exact ⟨Heap.OnlyEnables.refl mem, rfl⟩
  | cons k rest ih =>
    intro mem calls
    unfold EnableToolsets.sweep
    cases hg : tg.Toolsets.get k with
    | none =>
      rw [EnableToolset_of_absent tg mem k hg]
      exact ⟨Heap.OnlyEnables.refl mem, rfl⟩
    | some p =>
      have hf := EnableToolset_frame tg mem k
      rw [EnableToolset_of_present tg mem k p hg] at hf ⊢
      simp only []
      obtain ⟨h1, h2⟩ := ih (mem.write p { mem p with Enabled := true }) (calls ++ [k])
      exact ⟨Heap.OnlyEnables.trans _ _ _ hf h1, h2⟩

theorem EnableToolsets_frame (tg : ToolsetGroup) (mem : Heap) (names : List String) :
    Heap.OnlyEnables mem (tg.EnableToolsets mem names).2.2 ∧
      (tg.EnableToolsets mem names).2.1.Toolsets = tg.Toolsets ∧
      (tg.EnableToolsets mem names).2.1.readOnly = tg.readOnly := by
  obtain ⟨h1, h2, h3⟩ := scan_frame tg names mem []
  rw [EnableToolsets_eq]
  cases he : (EnableToolsets.scan tg mem [] names).err with
  | some e => exact ⟨h1, h2, h3⟩
  | none =>
    simp only []
    by_cases hon : (EnableToolsets.scan tg mem [] names).tg.everythingOn = true
    · rw [if_pos hon]
      obtain ⟨h4, h5⟩ :=
        sweep_frame (EnableToolsets.scan tg mem [] names).tg
          (EnableToolsets.scan tg mem [] names).tg.Toolsets.keys
          (EnableToolsets.scan tg mem [] names).mem
          (EnableToolsets.scan tg mem [] names).calls
      simp only []
      rw [h5]
      exact ⟨Heap.OnlyEnables.trans _ _ _ h1 h4, h2, h3⟩
    · rw [if_neg hon]
      exact ⟨h1, h2, h3⟩

/-! ## Call sequences on a read-only toolset -/

theorem writeToolsPassed_cons (c : Call) (rest : List Call) :
    writeToolsPassed (c :: rest) = writeToolsPassed [c] ++ writeToolsPassed rest := by
  cases c <;> simp [writeToolsPassed]

theorem readToolsPassed_cons (t : Ptr) (c : Call) (rest : List Call) :
    readToolsPassed t (c :: rest) = readToolsPassed t [c] ++ readToolsPassed t rest := by
  cases c with
  | AddReadTools q tools => by_cases hq : q = t <;> simp [readToolsPassed, hq]
  | _ => simp [readToolsPassed]

theorem Call.run_readOnly (t : Ptr) (c : Call) (tg tg1 : ToolsetGroup) (mem mem1 : Heap)
    (h : c.run tg mem = Except.ok (tg1, mem1)) (hro : (mem t).readOnly = true) :
    (mem1 t).readOnly = true ∧ (mem1 t).writeTools = (mem t).writeTools ∧
      (mem1 t).readTools = (mem t).readTools ++ readToolsPassed t [c] ∧
      (∀ tool ∈ writeToolsPassed [c], tool.Tool.Annotations.ReadOnlyHint = some false) ∧
      (∀ tool ∈ readToolsPassed t [c], tool.Tool.Annotations.ReadOnlyHint = some true) := by
  cases c with
  | AddReadTools q tools =>
    simp only [Call.run] at h
    cases hr : (mem q).AddReadTools tools with
    | error e => rw [hr] at h; simp at h
    | ok t1 =>
      rw [hr] at h
      simp only [Except.ok.injEq, Prod.mk.injEq] at h
      obtain ⟨hh, ht1⟩ := AddReadTools_eq_ok _ _ _ hr
      rw [← h.2]
      by_cases hq : q = t
      · subst hq
        simp [Heap.write, ht1, hro, readToolsPassed, writeToolsPassed]
        exact hh
      · have hq2 : ¬ t = q := fun e => hq e.symm
        simp [Heap.write, hq, hq2, hro, readToolsPassed, writeToolsPassed]
  | AddWriteTools q tools =>
    simp only [Call.run] at h
    cases hr : (mem q).AddWriteTools tools with
    | error e => rw [hr] at h; simp at h
    | ok t1 =>
      rw [hr] at h
      simp only [Except.ok.injEq, Prod.mk.injEq] at h
      obtain ⟨hh, ht1⟩ := AddWriteTools_eq_ok _ _ _ hr
      rw [← h.2]
      by_cases hq : q = t
      · subst hq
        rw [hro] at ht1
        simp [Heap.write, ht1, hro, readToolsPassed, writeToolsPassed]
        exact hh
      · have hq2 : ¬ t = q := fun e => hq e.symm
        simp [Heap.write, hq, hq2, hro, readToolsPassed, writeToolsPassed]
        exact hh
  | AddResourceTemplates q templates =>
    simp only [Call.run, Except.ok.injEq, Prod.mk.injEq] at h
    rw [← h.2]
    rcases eq_or_ne t q with rfl | hq
    · simp [Heap.write, hro, readToolsPassed, writeToolsPassed, Toolset.AddResourceTemplates]
    · simp [Heap.write, hq, hro, readToolsPassed, writeToolsPassed]
  | AddPrompts q prompts =>
    simp only [Call.run, Except.ok.injEq, Prod.mk.injEq] at h
    rw [← h.2]
    rcases eq_or_ne t q with rfl | hq
    · simp [Heap.write, hro, readToolsPassed, writeToolsPassed, Toolset.AddPrompts]
    · simp [Heap.write, hq, hro, readToolsPassed, writeToolsPassed]
  | SetReadOnly q =>
    simp only [Call.run, Except.ok.injEq, Prod.mk.injEq] at h
    rw [← h.2]
    rcases eq_or_ne t q with rfl | hq
    · simp [Heap.write, readToolsPassed, writeToolsPassed, Toolset.SetReadOnly]
    · simp [Heap.write, hq, hro, readToolsPassed, writeToolsPassed]
  | AddToolset q =>
    simp only [Call.run, Except.ok.injEq] at h
    have h2 : mem1 = (tg.AddToolset mem q).2 := by rw [h]
    rw [h2]
    rcases eq_or_ne t q with rfl | hq <;> cases hg : tg.readOnly <;>
      simp [ToolsetGroup.AddToolset, Heap.write, *, readToolsPassed,
        writeToolsPassed, Toolset.SetReadOnly]
  | EnableToolset name =>
    simp only [Call.run, Except.ok.injEq] at h
    have h2 : mem1 = (tg.EnableToolset mem name).2.2 := by rw [h]
    rw [h2]
    rcases EnableToolset_frame tg mem name t with e | e <;>
      simp [e, hro, readToolsPassed, writeToolsPassed]
  | EnableToolsets names =>
    simp only [Call.run, Except.ok.injEq] at h
    have h2 : mem1 = (tg.EnableToolsets mem names).2.2 := by rw [h]
    rw [h2]
    rcases (EnableToolsets_frame tg mem names).1 t with e | e <;>
      simp [e, hro, readToolsPassed, writeToolsPassed]

theorem runCalls_readOnly (t : Ptr) (calls : List Call) :
    ∀ (tg tg1 : ToolsetGroup) (mem mem1 : Heap),
      runCalls tg mem calls = Except.ok (tg1, mem1) → (mem t).readOnly = true →
      (mem1 t).readOnly = true ∧ (mem1 t).writeTools = (mem t).writeTools ∧
      (mem1 t).readTools = (mem t).readTools ++ readToolsPassed t calls ∧
      (∀ tool ∈ writeToolsPassed calls, tool.Tool.Annotations.ReadOnlyHint = some false) ∧
      (∀ tool ∈ readToolsPassed t calls, tool.Tool.Annotations.ReadOnlyHint = some true) := by
  induction calls with
  | nil =>
    intro tg tg1 mem mem1 h hro
    simp only [runCalls, Except.ok.injEq, Prod.mk.injEq] at h
    rw [← h.2]
    simp [hro, readToolsPassed, writeToolsPassed]
  | cons c rest ih =>
    intro tg tg1 mem mem1 h hro
    unfold runCalls at h
    cases hc : c.run tg mem with
    | error e => rw [hc] at h; simp at h
    | ok st =>
      obtain ⟨tg2, mem2⟩ := st
      rw [hc] at h
      simp only [] at h
      obtain ⟨a1, a2, a3, a4, a5⟩ := Call.run_readOnly t c tg tg2 mem mem2 hc hro
      obtain ⟨b1, b2, b3, b4, b5⟩ := ih tg2 tg1 mem2 mem1 h a1
      rw [writeToolsPassed_cons, readToolsPassed_cons]
      refine ⟨b1, by rw [b2, a2], by rw [b3, a3, List.append_assoc], ?_, ?_⟩
      · intro tool ht
        rcases List.mem_append.1 ht with ht | ht
        · exact a4 tool ht
        · exact b4 tool ht
      · intro tool ht
        rcases List.mem_append.1 ht with ht | ht
        · exact a5 tool ht
        · exact b5 tool ht

theorem Heap.enableAt_enabled (mem : Heap) (ps : List Ptr) (p : Ptr) (h : p ∈ ps) :
    (mem.enableAt ps p).Enabled = true := by
  simp [Heap.enableAt, h]

theorem EnableToolsets_of_all_enabled (tg : ToolsetGroup) (mem : Heap) (names : List String)
    (hall : "all" ∈ names) (hk : ∀ n ∈ beforeAll names, ∃ p, tg.Toolsets.get n = some p) :
    ∀ n p, (tg.EnableToolsets mem names).2.1.Toolsets.get n = some p →
      ((tg.EnableToolsets mem names).2.2 p).Enabled = true := by
  intro n p hn
  rw [EnableToolsets_of_all tg mem names hall hk] at hn ⊢
  exact Heap.enableAt_enabled _ _ _ ((ToolsetMap.mem_getAll_keys _ _).2 ⟨n, hn⟩)

/-! ## Lemmas on map writes, registration and building -/

theorem ToolsetMap.get_set_self (m : ToolsetMap) (name : String) (p : Ptr) :
    (m.set name p).get name = some p := by
  induction m with
  | nil => simp [ToolsetMap.set, ToolsetMap.get]
  | cons e rest ih =>
    obtain ⟨k, q⟩ := e
    by_cases hk : k = name
    · simp [ToolsetMap.set, ToolsetMap.get, hk]
    · simp [ToolsetMap.set, ToolsetMap.get, hk, ih]

theorem ToolsetMap.get_set_other (m : ToolsetMap) (name other : String) (p : Ptr)
    (h : other ≠ name) : (m.set name p).get other = m.get other := by
  induction m with
  | nil =>
    have h2 : ¬ name = other := fun e => h e.symm
    simp [ToolsetMap.set, ToolsetMap.get, h2]
  | cons e rest ih =>
    obtain ⟨k, q⟩ := e
    by_cases hk : k = name
    · have h2 : ¬ name = other := fun e => h e.symm
      subst hk
      simp [ToolsetMap.set, ToolsetMap.get, h2]
    · by_cases ho : k = other
      · subst ho
        simp [ToolsetMap.set, ToolsetMap.get, hk]
      · simp [ToolsetMap.set, ToolsetMap.get, hk, ho, ih]

theorem RegisterTools_loop_eq (tools : List ServerTool) :
    ∀ s : MCPServer, RegisterTools.loop s tools =
      { s with addToolCalls := s.addToolCalls ++ tools.map ServerTool.registration } := by
  induction tools with
  | nil =>
    intro s
    simp [RegisterTools.loop]
  | cons tool rest ih =>
    intro s
    unfold RegisterTools.loop
    rw [ih]
    simp [MCPServer.AddTool, ServerTool.registration]

theorem RegisterTools_eq (t : Toolset) (s : MCPServer) :
    t.RegisterTools s =
      { s with addToolCalls := s.addToolCalls ++ t.GetActiveTools.map ServerTool.registration } := by
  unfold Toolset.RegisterTools Toolset.GetActiveTools
  cases he : t.Enabled <;> cases hr : t.readOnly <;>
    simp [RegisterTools_loop_eq, List.append_assoc]

theorem BuildCall.run_annotated (t t1 : Toolset) (c : BuildCall) (ha : t.Annotated)
    (h : c.run t = Except.ok t1) : t1.Annotated := by
  obtain ⟨hread, hwrite⟩ := ha
  cases c with
  | AddReadTools tools =>
    obtain ⟨hh, e⟩ := AddReadTools_eq_ok t t1 tools h
    rw [e]
    refine ⟨?_, hwrite⟩
    intro tool hm
    rcases List.mem_append.1 hm with hm | hm
    · exact hread tool hm
    · exact hh tool hm
  | AddWriteTools tools =>
    obtain ⟨hh, e⟩ := AddWriteTools_eq_ok t t1 tools h
    rw [e]
    by_cases hr : t.readOnly = true
    · rw [if_pos hr]
      exact ⟨hread, hwrite⟩
    · rw [if_neg hr]
      refine ⟨hread, ?_⟩
      intro tool hm
      rcases List.mem_append.1 hm with hm | hm
      · exact hwrite tool hm
      · exact hh tool hm
  | AddResourceTemplates templates =>
    simp only [BuildCall.run, Except.ok.injEq] at h
    rw [← h]
    exact ⟨hread, hwrite⟩
  | AddPrompts prompts =>
    simp only [BuildCall.run, Except.ok.injEq] at h
    rw [← h]
    exact ⟨hread, hwrite⟩
  | SetReadOnly =>
    simp only [BuildCall.run, Except.ok.injEq] at h
    rw [← h]
    exact ⟨hread, hwrite⟩

theorem build_annotated (calls : List BuildCall) :
    ∀ t t1 : Toolset, t.Annotated → t.build calls = Except.ok t1 → t1.Annotated := by
  induction calls with
  | nil =>
    intro t t1 ha h
    simp only [Toolset.build, Except.ok.injEq] at h
    rw [← h]
    exact ha
  | cons c rest ih =>
    intro t t1 ha h
    unfold Toolset.build at h
    cases hc : c.run t with
    | error e => rw [hc] at h; simp at h
    | ok t2 =>
      rw [hc] at h
      exact ih t2 t1 (BuildCall.run_annotated t t2 c ha hc) h

theorem NewToolset_annotated (name description : String) :
    (NewToolset name description).Annotated := by
  simp [Toolset.Annotated, NewToolset]

/-! ## Lemmas on what a call leaves in place -/

theorem AddWriteTools_flags (t t1 : Toolset) (tools : List ServerTool)
    (h : t.AddWriteTools tools = Except.ok t1) :
    t1.Enabled = t.Enabled ∧ t1.readOnly = t.readOnly := by
  obtain ⟨_, e⟩ := AddWriteTools_eq_ok t t1 tools h
  rw [e]
  by_cases hr : t.readOnly = true <;> simp [hr]

theorem Call.run_frame (c : Call) (tg tg1 : ToolsetGroup) (mem mem1 : Heap)
    (h : c.run tg mem = Except.ok (tg1, mem1)) :
    (∀ p, (mem p).Enabled = true → (mem1 p).Enabled = true) ∧
    (∀ p, (mem p).readOnly = true → (mem1 p).readOnly = true) ∧
    tg1.readOnly = tg.readOnly ∧
    ((∀ ts, c ≠ Call.AddToolset ts) → tg1.Toolsets = tg.Toolsets) ∧
    ((∀ names, c ≠ Call.EnableToolsets names) → tg1.everythingOn = tg.everythingOn) := by
  cases c with
  | AddReadTools q tools =>
    simp only [Call.run] at h
    cases hr : (mem q).AddReadTools tools with
    | error e => rw [hr] at h; simp at h
    | ok t1 =>
      rw [hr] at h
      simp only [Except.ok.injEq, Prod.mk.injEq] at h
      obtain ⟨_, ht1⟩ := AddReadTools_eq_ok _ _ _ hr
      rw [← h.1, ← h.2, ht1]
      refine ⟨?_, ?_, rfl, fun _ => rfl, fun _ => rfl⟩ <;> intro p hp <;>
        rcases eq_or_ne p q with rfl | hq <;> simp [Heap.write, *]
  | AddWriteTools q tools =>
    simp only [Call.run] at h
    cases hr : (mem q).AddWriteTools tools with
    | error e => rw [hr] at h; simp at h
    | ok t1 =>
      rw [hr] at h
      simp only [Except.ok.injEq, Prod.mk.injEq] at h
      obtain ⟨e1, e2⟩ := AddWriteTools_flags _ _ _ hr
      rw [← h.1, ← h.2]
      refine ⟨?_, ?_, rfl, fun _ => rfl, fun _ => rfl⟩ <;> intro p hp <;>
        rcases eq_or_ne p q with rfl | hq <;> simp [Heap.write, *]
  | AddResourceTemplates q templates =>
    simp only [Call.run, Except.ok.injEq, Prod.mk.injEq] at h
    rw [← h.1, ← h.2]
    refine ⟨?_, ?_, rfl, fun _ => rfl, fun _ => rfl⟩ <;> intro p hp <;>
      rcases eq_or_ne p q with rfl | hq <;>
      simp [Heap.write, Toolset.AddResourceTemplates, *]
  | AddPrompts q prompts =>
    simp only [Call.run, Except.ok.injEq, Prod.mk.injEq] at h
    rw [← h.1, ← h.2]
    refine ⟨?_, ?_, rfl, fun _ => rfl, fun _ => rfl⟩ <;> intro p hp <;>
      rcases eq_or_ne p q with rfl | hq <;> simp [Heap.write, Toolset.AddPrompts, *]
  | SetReadOnly q =>
    simp only [Call.run, Except.ok.injEq, Prod.mk.injEq] at h
    rw [← h.1, ← h.2]
    refine ⟨?_, ?_, rfl, fun _ => rfl, fun _ => rfl⟩ <;> intro p hp <;>
      rcases eq_or_ne p q with rfl | hq <;> simp [Heap.write, Toolset.SetReadOnly, *]
  | AddToolset q =>
    simp only [Call.run, Except.ok.injEq] at h
    have h1 : tg1 = (tg.AddToolset mem q).1 := by rw [h]
    have h2 : mem1 = (tg.AddToolset mem q).2 := by rw [h]
    rw [h1, h2]
    refine ⟨?_, ?_, rfl, ?_, fun _ => rfl⟩
    · intro p hp
      rcases eq_or_ne p q with rfl | hq <;> cases hg : tg.readOnly <;>
        simp [ToolsetGroup.AddToolset, Heap.write, Toolset.SetReadOnly, *]
    · intro p hp
      rcases eq_or_ne p q with rfl | hq <;> cases hg : tg.readOnly <;>
        simp [ToolsetGroup.AddToolset, Heap.write, Toolset.SetReadOnly, *]
    · intro hne
      exact absurd rfl (hne q)
  | EnableToolset name =>
    simp only [Call.run, Except.ok.injEq] at h
    have h1 : tg1 = (tg.EnableToolset mem name).2.1 := by rw [h]
    have h2 : mem1 = (tg.EnableToolset mem name).2.2 := by rw [h]
    rw [h1, h2, EnableToolset_group]
    refine ⟨?_, ?_, rfl, fun _ => rfl, fun _ => rfl⟩ <;> intro p hp <;>
      rcases EnableToolset_frame tg mem name p with e | e <;> simp [e, hp]
  | EnableToolsets names =>
    simp only [Call.run, Except.ok.injEq] at h
    have h1 : tg1 = (tg.EnableToolsets mem names).2.1 := by rw [h]
    have h2 : mem1 = (tg.EnableToolsets mem names).2.2 := by rw [h]
    rw [h1, h2]
    obtain ⟨f1, f2, f3⟩ := EnableToolsets_frame tg mem names
    refine ⟨?_, ?_, f3, fun _ => f2, ?_⟩
    · intro p hp
      rcases f1 p with e | e <;> simp [e, hp]
    · intro p hp
      rcases f1 p with e | e <;> simp [e, hp]
    · intro hne
      exact absurd rfl (hne names)

theorem runCalls_frame (calls : List Call) :
    ∀ (tg tg1 : ToolsetGroup) (mem mem1 : Heap),
      runCalls tg mem calls = Except.ok (tg1, mem1) →
      (∀ p, (mem p).Enabled = true → (mem1 p).Enabled = true) ∧
      (∀ p, (mem p).readOnly = true → (mem1 p).readOnly = true) ∧
      tg1.readOnly = tg.readOnly := by
  induction calls with
  | nil =>
    intro tg tg1 mem mem1 h
    simp only [runCalls, Except.ok.injEq, Prod.mk.injEq] at h
    rw [← h.1, ← h.2]
    exact ⟨fun _ hp => hp, fun _ hp => hp, rfl⟩
  | cons c rest ih =>
    intro tg tg1 mem mem1 h
    unfold runCalls at h
    cases hc : c.run tg mem with
    | error e => rw [hc] at h; simp at h
    | ok st =>
      obtain ⟨tg2, mem2⟩ := st
      rw [hc] at h
      simp only [] at h
      obtain ⟨a1, a2, a3, _, _⟩ := Call.run_frame c tg tg2 mem mem2 hc
      obtain ⟨b1, b2, b3⟩ := ih tg2 tg1 mem2 mem1 h
      exact ⟨fun p hp => b1 p (a1 p hp), fun p hp => b2 p (a2 p hp), by rw [b3, a3]⟩

/-! ## Lemmas on the everythingOn flag -/

theorem scan_group_of_err (tg : ToolsetGroup) (names : List String) :
    ∀ (mem : Heap) (calls : List String) (e : ToolsetDoesNotExistError),
      (EnableToolsets.scan tg mem calls names).err = some e →
      (EnableToolsets.scan tg mem calls names).tg = tg := by
  induction names with
  | nil =>
    intro mem calls e h
    simp [EnableToolsets.scan] at h
  | cons name rest ih =>
    intro mem calls e h
    unfold EnableToolsets.scan at h ⊢
    by_cases hall : name = "all"
    · rw [if_pos hall] at h
      simp at h
    · rw [if_neg hall] at h ⊢
      cases hg : tg.Toolsets.get name with
      | none =>
        rw [EnableToolset_of_absent tg mem name hg]
      | some p =>
        rw [EnableToolset_of_present tg mem name p hg] at h ⊢
        exact ih _ _ e h

theorem EnableToolsets_group_of_err (tg : ToolsetGroup) (mem : Heap) (names : List String)
    (e : ToolsetDoesNotExistError) (h : (tg.EnableToolsets mem names).1 = some e) :
    (tg.EnableToolsets mem names).2.1 = tg := by
  have herr := EnableToolsets_err tg mem names
  have hscan := (scan_err_calls tg names mem []).1
  rw [h] at herr
  rw [← herr] at hscan
  rw [EnableToolsets_eq]
  simp only [hscan]
  exact scan_group_of_err tg names mem [] e hscan

theorem beforeAll_of_not_mem (names : List String) (h : "all" ∉ names) :
    beforeAll names = names := by
  induction names with
  | nil => rfl
  | cons name rest ih =>
    have h1 : name ≠ "all" := fun e => h (by simp [e])
    have h2 : "all" ∉ rest := fun e => h (List.mem_cons_of_mem _ e)
    simp [beforeAll, h1, ih h2]

theorem EnableToolsets_of_names (tg : ToolsetGroup) (mem : Heap) (names : List String)
    (hoff : tg.everythingOn = false) (hno : "all" ∉ names)
    (hk : ∀ n ∈ names, ∃ p, tg.Toolsets.get n = some p) :
    tg.EnableToolsets mem names = (none, tg, mem.enableAt (tg.Toolsets.getAll names)) := by
  have hb := beforeAll_of_not_mem names hno
  have hk1 : ∀ n ∈ beforeAll names, ∃ p, tg.Toolsets.get n = some p := by
    rw [hb]
    exact hk
  rw [EnableToolsets_eq]
  simp only [scan_of_known tg names mem [] hk1, if_neg hno, hoff, hb]
  rfl

theorem EnableToolsets_sync (tg : ToolsetGroup) (mem : Heap) (names : List String)
    (hs : tg.Synchronized mem) :
    (tg.EnableToolsets mem names).2.1.Synchronized (tg.EnableToolsets mem names).2.2 := by
  obtain ⟨f1, f2, _⟩ := EnableToolsets_frame tg mem names
  by_cases hon : tg.everythingOn = true
  · intro _ n p hn
    rw [f2] at hn
    have := hs hon n p hn
    rcases f1 p with e | e <;> simp [e, this]
  · cases hf : firstUnknown tg.Toolsets (beforeAll names) with
    | some n =>
      have herr := EnableToolsets_err tg mem names
      rw [hf] at herr
      have hg := EnableToolsets_group_of_err tg mem names _ herr
      intro h
      rw [hg] at h
      exact absurd h hon
    | none =>
      have hk := (firstUnknown_eq_none_iff _ _).1 hf
      by_cases hall : "all" ∈ names
      · intro _
        exact EnableToolsets_of_all_enabled tg mem names hall hk
      · intro h
        have hoff : tg.everythingOn = false := by simpa using hon
        have hk1 : ∀ n ∈ names, ∃ p, tg.Toolsets.get n = some p := by
          rw [beforeAll_of_not_mem names hall] at hk
          exact hk
        rw [EnableToolsets_of_names tg mem names hoff hall hk1] at h
        exact absurd h hon

theorem Call.run_sync (c : Call) (tg tg1 : ToolsetGroup) (mem mem1 : Heap)
    (hs : tg.Synchronized mem)
    (hadd : ∀ ts, c = Call.AddToolset ts → tg.everythingOn = true → (mem ts).Enabled = true)
    (h : c.run tg mem = Except.ok (tg1, mem1)) : tg1.Synchronized mem1 := by
  obtain ⟨f1, _, _, f4, f5⟩ := Call.run_frame c tg tg1 mem mem1 h
  have hkeep : (∀ ts, c ≠ Call.AddToolset ts) → (∀ names, c ≠ Call.EnableToolsets names) →
      tg1.Synchronized mem1 := by
    intro h1 h2 hon n p hn
    rw [f4 h1] at hn
    rw [f5 h2] at hon
    exact f1 p (hs hon n p hn)
  cases c with
  | AddToolset ts =>
    have hon1 := f5 (by intro names; simp)
    simp only [Call.run, Except.ok.injEq] at h
    have h1 : tg1 = (tg.AddToolset mem ts).1 := by rw [h]
    intro hon n p hn
    rw [hon1] at hon
    rw [h1] at hn
    simp only [ToolsetGroup.AddToolset] at hn
    by_cases hname :
        n = ((if tg.readOnly = true then mem.write ts (mem ts).SetReadOnly else mem) ts).Name
    · rw [hname, ToolsetMap.get_set_self] at hn
      simp only [Option.some.injEq] at hn
      rw [← hn]
      exact f1 ts (hadd ts rfl hon)
    · rw [ToolsetMap.get_set_other _ _ _ _ hname] at hn
      exact f1 p (hs hon n p hn)
  | EnableToolsets names =>
    simp only [Call.run, Except.ok.injEq] at h
    have h1 : tg1 = (tg.EnableToolsets mem names).2.1 := by rw [h]
    have h2 : mem1 = (tg.EnableToolsets mem names).2.2 := by rw [h]
    rw [h1, h2]
    exact EnableToolsets_sync tg mem names hs
  | AddReadTools q tools => exact hkeep (by intro ts; simp) (by intro ns; simp)
  | AddWriteTools q tools => exact hkeep (by intro ts; simp) (by intro ns; simp)
  | AddResourceTemplates q templates => exact hkeep (by intro ts; simp) (by intro ns; simp)
  | AddPrompts q prompts => exact hkeep (by intro ts; simp) (by intro ns; simp)
  | SetReadOnly q => exact hkeep (by intro ts; simp) (by intro ns; simp)
  | EnableToolset name => exact hkeep (by intro ts; simp) (by intro ns; simp)

theorem runCalls_sync (calls : List Call) :
    ∀ (tg tg1 : ToolsetGroup) (mem mem1 : Heap), tg.Synchronized mem →
      addsEnabledWhenAllOn tg mem calls = true →
      runCalls tg mem calls = Except.ok (tg1, mem1) → tg1.Synchronized mem1 := by
  induction calls with
  | nil =>
    intro tg tg1 mem mem1 hs _ h
    simp only [runCalls, Except.ok.injEq, Prod.mk.injEq] at h
    rw [← h.1, ← h.2]
    exact hs
  | cons c rest ih =>
    intro tg tg1 mem mem1 hs hadd h
    unfold runCalls at h
    unfold addsEnabledWhenAllOn at hadd
    cases hc : c.run tg mem with
    | error e => rw [hc] at h; simp at h
    | ok st =>
      obtain ⟨tg2, mem2⟩ := st
      rw [hc] at h hadd
      simp only [Bool.and_eq_true] at hadd h
      have hstep : ∀ ts, c = Call.AddToolset ts → tg.everythingOn = true →
          (mem ts).Enabled = true := by
        intro ts hts hon
        have := hadd.1
        rw [hts] at this
        simpa [hon] using this
      exact ih tg2 tg1 mem2 mem1 (Call.run_sync c tg tg2 mem mem2 hs hstep hc) hadd.2 h

theorem AddToolset_get (tg : ToolsetGroup) (mem : Heap) (ts : Ptr) :
    (tg.AddToolset mem ts).1.Toolsets.get (mem ts).Name = some ts ∧
    (∀ n, n ≠ (mem ts).Name → (tg.AddToolset mem ts).1.Toolsets.get n = tg.Toolsets.get n) ∧
    (∀ q, q ≠ ts → (tg.AddToolset mem ts).2 q = mem q) := by
  have hname : ((if tg.readOnly = true then mem.write ts (mem ts).SetReadOnly else mem) ts).Name
      = (mem ts).Name := by
    cases tg.readOnly <;> simp [Heap.write, Toolset.SetReadOnly]
  refine ⟨?_, ?_, ?_⟩
  · simp only [ToolsetGroup.AddToolset]
    rw [hname]
    exact ToolsetMap.get_set_self _ _ _
  · intro n hn
    simp only [ToolsetGroup.AddToolset]
    rw [hname]
    exact ToolsetMap.get_set_other _ _ _ _ hn
  · intro q hq
    cases hro : tg.readOnly <;> simp [ToolsetGroup.AddToolset, Heap.write, hro, hq]

/-! ## Lemmas on runs, recovered panics and failing scans -/

theorem runCalls_append (a : List Call) :
    ∀ (tg : ToolsetGroup) (mem : Heap) (b : List Call),
      runCalls tg mem (a ++ b) =
        match runCalls tg mem a with
        | Except.error e => Except.error e
        | Except.ok st => runCalls st.1 st.2 b := by
  induction a with
  | nil =>
    intro tg mem b
    simp [runCalls]
  | cons c rest ih =>
    intro tg mem b
    simp only [List.cons_append, runCalls]
    cases hc : c.run tg mem with
    | error e => simp
    | ok st =>
      obtain ⟨tg1, mem1⟩ := st
      simp only []
      exact ih tg1 mem1 b

theorem AddReadTools_checkFrom_eq (t : Toolset) (tools : List ServerTool) :
    AddReadTools.checkFrom t tools = (AddReadTools.check tools, t) := by
  induction tools with
  | nil => rfl
  | cons tool rest ih =>
    unfold AddReadTools.checkFrom AddReadTools.check
    rcases h : tool.Tool.Annotations.ReadOnlyHint with _ | b
    · rfl
    · cases b
      · rfl
      · exact ih

theorem AddWriteTools_checkFrom_eq (t : Toolset) (tools : List ServerTool) :
    AddWriteTools.checkFrom t tools = (AddWriteTools.check tools, t) := by
  induction tools with
  | nil => rfl
  | cons tool rest ih =>
    unfold AddWriteTools.checkFrom AddWriteTools.check
    rcases h : tool.Tool.Annotations.ReadOnlyHint with _ | b
    · rfl
    · cases b
      · exact ih
      · rfl

theorem scan_upTo_unknown (tg : ToolsetGroup) (before after : List String) (n : String)
    (hn : n ≠ "all") (hg : tg.Toolsets.get n = none) :
    ∀ (mem : Heap) (calls : List String),
      (∀ x ∈ before, x ≠ "all" ∧ ∃ p, tg.Toolsets.get x = some p) →
      EnableToolsets.scan tg mem calls (before ++ n :: after) =
        { err := some (NewToolsetDoesNotExistError n), tg := tg,
          mem := mem.enableAt (tg.Toolsets.getAll before),
          calls := calls ++ before ++ [n] } := by
  induction before with
  | nil =>
    intro mem calls _
    simp only [List.nil_append]
    unfold EnableToolsets.scan
    rw [if_neg hn, EnableToolset_of_absent tg mem n hg]
    simp [ToolsetMap.getAll, Heap.enableAt_nil]
  | cons x rest ih =>
    intro mem calls hb
    obtain ⟨hx, p, hp⟩ := hb x (List.mem_cons_self _ _)
    have hrest : ∀ y ∈ rest, y ≠ "all" ∧ ∃ p, tg.Toolsets.get y = some p :=
      fun y hy => hb y (List.mem_cons_of_mem _ hy)
    simp only [List.cons_append]
    unfold EnableToolsets.scan
    rw [if_neg hx, EnableToolset_of_present tg mem x p hp]
    simp only []
    rw [ih _ _ hrest, Heap.enableAt_write]
    simp [ToolsetMap.getAll, hp]

theorem EnableToolsets_upTo_unknown (tg : ToolsetGroup) (mem : Heap) (before after : List String)
    (n : String) (hn : n ≠ "all") (hg : tg.Toolsets.get n = none)
    (hb : ∀ x ∈ before, x ≠ "all" ∧ ∃ p, tg.Toolsets.get x = some p) :
    tg.EnableToolsets mem (before ++ n :: after) =
      (some (NewToolsetDoesNotExistError n), tg,
        mem.enableAt (tg.Toolsets.getAll before)) := by
  rw [EnableToolsets_eq]
  simp only [scan_upTo_unknown tg before after n hn hg mem [] hb]

theorem EnableToolsets_nil (tg : ToolsetGroup) (mem : Heap) (hoff : tg.everythingOn = false) :
    tg.EnableToolsets mem [] = (none, tg, mem) := by
  simp [EnableToolsets_eq, EnableToolsets.scan, hoff]

/-! ## Lemmas on the calls EnableToolsets makes -/

theorem throughFirstUnknown_of_known (m : ToolsetMap) (names : List String)
    (h : ∀ n ∈ names, ∃ p, m.get n = some p) : throughFirstUnknown m names = names := by
  induction names with
  | nil => rfl
  | cons name rest ih =>
    obtain ⟨p, hp⟩ := h name (List.mem_cons_self _ _)
    have hrest : ∀ n ∈ rest, ∃ p, m.get n = some p :=
      fun n hn => h n (List.mem_cons_of_mem _ hn)
    simp [throughFirstUnknown, hp, ih hrest]

theorem throughFirstUnknown_subset (m : ToolsetMap) (names : List String) :
    ∀ x ∈ throughFirstUnknown m names, x ∈ names := by
  induction names with
  | nil => simp [throughFirstUnknown]
  | cons name rest ih =>
    intro x hx
    unfold throughFirstUnknown at hx
    by_cases hg : m.get name = none
    · rw [if_pos hg] at hx
      simp only [List.mem_singleton] at hx
      rw [hx]
      exact List.mem_cons_self _ _
    · rw [if_neg hg] at hx
      rcases List.mem_cons.1 hx with e | e
      · rw [e]
        exact List.mem_cons_self _ _
      · exact List.mem_cons_of_mem _ (ih x e)

theorem run_calls (tg : ToolsetGroup) (mem : Heap) (names : List String) :
    (EnableToolsets.run tg mem names).calls =
      throughFirstUnknown tg.Toolsets (beforeAll names) ++
        if firstUnknown tg.Toolsets (beforeAll names) = none ∧
            ("all" ∈ names ∨ tg.everythingOn = true) then
          tg.Toolsets.keys
        else
          [] := by
  cases hf : firstUnknown tg.Toolsets (beforeAll names) with
  | none =>
    have hk := (firstUnknown_eq_none_iff _ _).1 hf
    rw [throughFirstUnknown_of_known _ _ hk]
    unfold EnableToolsets.run
    simp only [scan_of_known tg names mem [] hk]
    by_cases hall : "all" ∈ names
    · simp only [if_pos hall, if_true]
      rw [sweep_of_keys _ _ _ _ (keys_known { tg with everythingOn := true })]
      simp [hall]
    · simp only [if_neg hall]
      by_cases he : tg.everythingOn = true
      · rw [if_pos he, sweep_of_keys _ _ _ _ (keys_known tg)]
        simp [he]
      · rw [if_neg he]
        simp [hall, he]
  | some n =>
    obtain ⟨h1, h2⟩ := scan_err_calls tg names mem []
    rw [hf] at h1
    unfold EnableToolsets.run
    simp only [h1, Option.map_some', h2]
    simp

/-! ## The claims -/

/-- C1. In a group with readOnly = true, a toolset object passed to AddToolset
has readOnly = true afterwards. After any later sequence of calls that runs
to its end, the object is still read-only, its write list is the one it had
at insertion (so an empty one stays empty: tools passed to AddWriteTools
after the insertion are not stored), its read list is the one it had at
insertion followed by the tools passed to AddReadTools on it, and
GetActiveTools returns nothing or exactly the read list. For a toolset whose
read list held only tools annotated read-only at insertion (every toolset
built from NewToolset through AddReadTools), every tool GetActiveTools
returns is annotated read-only and GetActiveTools contains no tool that was
passed to AddWriteTools. -/
theorem readOnly_group_hides_write_tools (tg : ToolsetGroup) (mem : Heap) (ts : Ptr)
    (calls : List Call) (st : ToolsetGroup × Heap) (hro : tg.readOnly = true)
    (hrun : runCalls (tg.AddToolset mem ts).1 (tg.AddToolset mem ts).2 calls = Except.ok st) :
    ((tg.AddToolset mem ts).2 ts).readOnly = true ∧
    (st.2 ts).readOnly = true ∧
    (st.2 ts).writeTools = (mem ts).writeTools ∧
    ((mem ts).writeTools = [] → (st.2 ts).writeTools = []) ∧
    (st.2 ts).readTools = (mem ts).readTools ++ readToolsPassed ts calls ∧
    ((st.2 ts).GetActiveTools = [] ∨ (st.2 ts).GetActiveTools = (st.2 ts).readTools) ∧
    ((∀ tool ∈ (mem ts).readTools, tool.Tool.Annotations.ReadOnlyHint = some true) →
      (∀ tool ∈ (st.2 ts).GetActiveTools, tool.Tool.Annotations.ReadOnlyHint = some true) ∧
      ∀ tool ∈ writeToolsPassed calls, tool ∉ (st.2 ts).GetActiveTools) := by
  obtain ⟨tg2, mem2⟩ := st
  have h0 : ((tg.AddToolset mem ts).2 ts).readOnly = true := by
    simp [ToolsetGroup.AddToolset, hro, Heap.write, Toolset.SetReadOnly]
  have hw0 : ((tg.AddToolset mem ts).2 ts).writeTools = (mem ts).writeTools := by
    simp [ToolsetGroup.AddToolset, hro, Heap.write, Toolset.SetReadOnly]
  have hr0 : ((tg.AddToolset mem ts).2 ts).readTools = (mem ts).readTools := by
    simp [ToolsetGroup.AddToolset, hro, Heap.write, Toolset.SetReadOnly]
  obtain ⟨a1, a2, a3, a4, a5⟩ := runCalls_readOnly ts calls _ _ _ _ hrun h0
  rw [hw0] at a2
  rw [hr0] at a3
  have hact : (mem2 ts).GetActiveTools = [] ∨ (mem2 ts).GetActiveTools = (mem2 ts).readTools := by
    unfold Toolset.GetActiveTools
    cases (mem2 ts).Enabled
    · exact Or.inl rfl
    · exact Or.inr (by simp [a1])
  refine ⟨h0, a1, a2, fun he => by rw [a2, he], a3, hact, ?_⟩
  intro hread
  have hactive : ∀ tool ∈ (mem2 ts).GetActiveTools,
      tool.Tool.Annotations.ReadOnlyHint = some true := by
    intro tool hin
    have hmem : tool ∈ (mem2 ts).readTools := by
      rcases hact with e | e
      · rw [e] at hin
        simp at hin
      · rw [e] at hin
        exact hin
    rw [a3] at hmem
    rcases List.mem_append.1 hmem with h | h
    · exact hread tool h
    · exact a5 tool h
  refine ⟨hactive, ?_⟩
  intro tool htool hin
  have hfalse := a4 tool htool
  have htrue := hactive tool hin
  rw [hfalse] at htrue
  simp at htrue

/-- Witness for C1: a read-only group, the "repos" object built by NewToolset,
then AddWriteTools, AddReadTools, EnableToolset and EnableToolsets on it. -/
theorem readOnly_group_hides_write_tools_witness :
    ∃ st : ToolsetGroup × Heap,
      runCalls ((NewToolsetGroup true).AddToolset sampleHeap 0).1
          ((NewToolsetGroup true).AddToolset sampleHeap 0).2
          [Call.AddWriteTools 0 [sampleTool "create_branch" false],
           Call.AddReadTools 0 [sampleTool "list_branches" true],
           Call.EnableToolset "repos", Call.EnableToolsets ["all"]] = Except.ok st ∧
      (st.2 0).GetActiveTools = [sampleTool "list_branches" true] ∧
      (st.2 0).writeTools = [] ∧
      sampleTool "create_branch" false ∉ (st.2 0).GetActiveTools :=
  ⟨_, rfl, by decide, by decide,
    ((readOnly_group_hides_write_tools (NewToolsetGroup true) sampleHeap 0
      [Call.AddWriteTools 0 [sampleTool "create_branch" false],
       Call.AddReadTools 0 [sampleTool "list_branches" true],
       Call.EnableToolset "repos", Call.EnableToolsets ["all"]] _ rfl rfl).2.2.2.2.2.2
      (by decide)).2 (sampleTool "create_branch" false) (by decide)⟩

/-- C2. For a list of tools whose ReadOnlyHint is never nil, AddReadTools
panics exactly when some tool of the list has ReadOnlyHint = false, and the
panic text names such a tool; AddWriteTools panics exactly when some tool of
the list has ReadOnlyHint = true, and the panic text names such a tool. -/
theorem AddTools_panics_iff_misannotated (t : Toolset) (tools : List ServerTool)
    (hnil : ∀ tool ∈ tools, tool.Tool.Annotations.ReadOnlyHint ≠ none) :
    ((∃ p, t.AddReadTools tools = Except.error p) ↔
      ∃ tool ∈ tools, tool.Tool.Annotations.ReadOnlyHint = some false) ∧
    (∀ p, t.AddReadTools tools = Except.error p →
      ∃ tool ∈ tools, tool.Tool.Annotations.ReadOnlyHint = some false ∧
        p = Panic.message ("tool (" ++ tool.Tool.Name ++ ") must be annotated as read-only")) ∧
    ((∃ p, t.AddWriteTools tools = Except.error p) ↔
      ∃ tool ∈ tools, tool.Tool.Annotations.ReadOnlyHint = some true) ∧
    (∀ p, t.AddWriteTools tools = Except.error p →
      ∃ tool ∈ tools, tool.Tool.Annotations.ReadOnlyHint = some true ∧
        p = Panic.message
          ("tool (" ++ tool.Tool.Name ++ ") is incorrectly annotated as read-only")) := by
  have hr : ∀ p, t.AddReadTools tools = Except.error p →
      ∃ tool ∈ tools, tool.Tool.Annotations.ReadOnlyHint = some false ∧
        p = Panic.message
          ("tool (" ++ tool.Tool.Name ++ ") must be annotated as read-only") := by
    intro p hp
    rcases AddReadTools_check_eq_some tools p ((AddReadTools_eq_error_iff t tools p).1 hp) with
      ⟨_, tool, hm, hn⟩ | h
    · exact absurd hn (hnil tool hm)
    · exact h
  have hw : ∀ p, t.AddWriteTools tools = Except.error p →
      ∃ tool ∈ tools, tool.Tool.Annotations.ReadOnlyHint = some true ∧
        p = Panic.message
          ("tool (" ++ tool.Tool.Name ++ ") is incorrectly annotated as read-only") := by
    intro p hp
    rcases AddWriteTools_check_eq_some tools p ((AddWriteTools_eq_error_iff t tools p).1 hp) with
      ⟨_, tool, hm, hn⟩ | h
    · exact absurd hn (hnil tool hm)
    · exact h
  refine ⟨⟨?_, ?_⟩, hr, ⟨?_, ?_⟩, hw⟩
  · rintro ⟨p, hp⟩
    obtain ⟨tool, hm, hf, _⟩ := hr p hp
    exact ⟨tool, hm, hf⟩
  · rintro ⟨tool, hm, hf⟩
    cases hc : AddReadTools.check tools with
    | none =>
      have := (AddReadTools_check_eq_none_iff tools).1 hc tool hm
      rw [hf] at this
      simp at this
    | some p => exact ⟨p, (AddReadTools_eq_error_iff t tools p).2 hc⟩
  · rintro ⟨p, hp⟩
    obtain ⟨tool, hm, hf, _⟩ := hw p hp
    exact ⟨tool, hm, hf⟩
  · rintro ⟨tool, hm, hf⟩
    cases hc : AddWriteTools.check tools with
    | none =>
      have := (AddWriteTools_check_eq_none_iff tools).1 hc tool hm
      rw [hf] at this
      simp at this
    | some p => exact ⟨p, (AddWriteTools_eq_error_iff t tools p).2 hc⟩

/-- Witness for C2: a list holding a read tool and then a write tool makes
both AddReadTools and AddWriteTools panic, each naming the offending tool. -/
theorem AddTools_panics_iff_misannotated_witness :
    (NewToolset "repos" "").AddReadTools
        [sampleTool "get_commit" true, sampleTool "push_files" false] =
      Except.error (Panic.message "tool (push_files) must be annotated as read-only") ∧
    (NewToolset "repos" "").AddWriteTools
        [sampleTool "get_commit" true, sampleTool "push_files" false] =
      Except.error (Panic.message "tool (get_commit) is incorrectly annotated as read-only") ∧
    ((∃ p, (NewToolset "repos" "").AddReadTools
        [sampleTool "get_commit" true, sampleTool "push_files" false] = Except.error p) ↔
      ∃ tool ∈ [sampleTool "get_commit" true, sampleTool "push_files" false],
        tool.Tool.Annotations.ReadOnlyHint = some false) :=
  ⟨rfl, rfl,
    (AddTools_panics_iff_misannotated (NewToolset "repos" "")
      [sampleTool "get_commit" true, sampleTool "push_files" false] (by decide)).1⟩

/-- C3. The code at the failing input, a name "x" that is not a key of the
sample registry: EnableToolsets of "all" then "x" succeeds, sets everythingOn
and enables "repos", while EnableToolsets of "x" then "all" returns the
not-found error for "x" before it reads "all", leaves everythingOn false and
leaves "repos" disabled. The comment above the second loop states that all
toolsets are enabled if "all" is present anywhere in the list. -/
theorem EnableToolsets_order_failing_input :
    (sampleGroup.EnableToolsets sampleHeap ["all", "x"]).1 = none ∧
    (sampleGroup.EnableToolsets sampleHeap ["all", "x"]).2.1.everythingOn = true ∧
    ((sampleGroup.EnableToolsets sampleHeap ["all", "x"]).2.2 0).Enabled = true ∧
    (sampleGroup.EnableToolsets sampleHeap ["x", "all"]).1 =
      some (NewToolsetDoesNotExistError "x") ∧
    (sampleGroup.EnableToolsets sampleHeap ["x", "all"]).2.1.everythingOn = false ∧
    sampleGroup.Toolsets.get "repos" = some 0 ∧
    ((sampleGroup.EnableToolsets sampleHeap ["x", "all"]).2.2 0).Enabled = false := by
  decide

/-- Where the order of "all" does not matter (the inputs on which the code
does what C3 states). For a name x that is a key of the registry or is "all",
EnableToolsets of "all" then x and EnableToolsets of x then "all" return the
same result and leave the same group and heap: success, everythingOn = true,
and every toolset of the registry has Enabled = true. -/
theorem EnableToolsets_all_order_irrelevant (tg : ToolsetGroup) (mem : Heap) (x : String)
    (hx : x = "all" ∨ tg.Toolsets.get x ≠ none) :
    tg.EnableToolsets mem ["all", x] = tg.EnableToolsets mem [x, "all"] ∧
    (tg.EnableToolsets mem [x, "all"]).1 = none ∧
    (tg.EnableToolsets mem [x, "all"]).2.1.everythingOn = true ∧
    (tg.EnableToolsets mem [x, "all"]).2.1.Toolsets = tg.Toolsets ∧
    (∀ n p, tg.Toolsets.get n = some p →
      ((tg.EnableToolsets mem [x, "all"]).2.2 p).Enabled = true) := by
  have h1 : ∀ n ∈ beforeAll ["all", x], ∃ p, tg.Toolsets.get n = some p := by
    simp [beforeAll]
  have h2 : ∀ n ∈ beforeAll [x, "all"], ∃ p, tg.Toolsets.get n = some p := by
    rcases hx with rfl | hx
    · simp [beforeAll]
    · by_cases hall : x = "all"
      · simp [beforeAll, hall]
      · simpa [beforeAll, hall] using Option.ne_none_iff_exists'.1 hx
  have e1 := EnableToolsets_of_all tg mem ["all", x] (by simp) h1
  have e2 := EnableToolsets_of_all tg mem [x, "all"] (by simp) h2
  refine ⟨by rw [e1, e2], by rw [e2], by rw [e2], by rw [e2], ?_⟩
  intro n p hn
  rw [e2]
  exact Heap.enableAt_enabled _ _ _ ((ToolsetMap.mem_getAll_keys _ _).2 ⟨n, hn⟩)

/-- An instance of EnableToolsets_all_order_irrelevant: the sample group with
x = "issues". -/
theorem EnableToolsets_all_order_irrelevant_witness :
    sampleGroup.EnableToolsets sampleHeap ["all", "issues"] =
      sampleGroup.EnableToolsets sampleHeap ["issues", "all"] ∧
    (sampleGroup.EnableToolsets sampleHeap ["issues", "all"]).2.1.everythingOn = true :=
  ⟨(EnableToolsets_all_order_irrelevant sampleGroup sampleHeap "issues"
      (Or.inr (by decide))).1, by decide⟩

/-- C4. The code at the failing input, a name that is not a key standing
before "all": on the sample group, EnableToolsets of "nonexistent", "all"
returns the not-found error before it reads "all", leaves everythingOn false
and leaves "issues" disabled, although "all" is in the list. The comment above
the second loop states that all toolsets are enabled if "all" is present
anywhere in the list. -/
theorem EnableToolsets_all_anywhere_failing_input :
    "all" ∈ ["nonexistent", "all"] ∧
    (sampleGroup.EnableToolsets sampleHeap ["nonexistent", "all"]).1 =
      some (NewToolsetDoesNotExistError "nonexistent") ∧
    (sampleGroup.EnableToolsets sampleHeap ["nonexistent", "all"]).2.1.everythingOn = false ∧
    (sampleGroup.EnableToolsets sampleHeap ["nonexistent", "all"]).2.1.Toolsets.get "issues" =
      some 1 ∧
    ((sampleGroup.EnableToolsets sampleHeap ["nonexistent", "all"]).2.2 1).Enabled = false := by
  decide

/-- Where "all" enables everything (the inputs on which the code does what C4
states). For a name list that contains "all" and in which every name
before the first "all" is a key of the registry, EnableToolsets returns
success, sets everythingOn = true, keeps the registry map and the group
readOnly flag, and leaves every toolset of the registry with Enabled = true. -/
theorem EnableToolsets_all_enables_everything (tg : ToolsetGroup) (mem : Heap)
    (names : List String) (hall : "all" ∈ names)
    (hk : ∀ n ∈ beforeAll names, tg.Toolsets.get n ≠ none) :
    (tg.EnableToolsets mem names).1 = none ∧
    (tg.EnableToolsets mem names).2.1.everythingOn = true ∧
    (tg.EnableToolsets mem names).2.1.Toolsets = tg.Toolsets ∧
    (tg.EnableToolsets mem names).2.1.readOnly = tg.readOnly ∧
    (∀ n p, (tg.EnableToolsets mem names).2.1.Toolsets.get n = some p →
      ((tg.EnableToolsets mem names).2.2 p).Enabled = true) := by
  have hk1 : ∀ n ∈ beforeAll names, ∃ p, tg.Toolsets.get n = some p :=
    fun n hn => Option.ne_none_iff_exists'.1 (hk n hn)
  refine ⟨?_, ?_, ?_, ?_, EnableToolsets_of_all_enabled tg mem names hall hk1⟩ <;>
    rw [EnableToolsets_of_all tg mem names hall hk1]

/-- An instance of EnableToolsets_all_enables_everything: the sample group,
"repos" then "all". -/
theorem EnableToolsets_all_enables_everything_witness :
    (sampleGroup.EnableToolsets sampleHeap ["repos", "all", "nonexistent"]).1 = none ∧
    (sampleGroup.EnableToolsets sampleHeap ["repos", "all", "nonexistent"]).2.1.everythingOn
      = true ∧
    ((sampleGroup.EnableToolsets sampleHeap ["repos", "all", "nonexistent"]).2.2 1).Enabled
      = true :=
  ⟨(EnableToolsets_all_enables_everything sampleGroup sampleHeap
      ["repos", "all", "nonexistent"] (by decide) (by decide)).1,
    (EnableToolsets_all_enables_everything sampleGroup sampleHeap
      ["repos", "all", "nonexistent"] (by decide) (by decide)).2.1,
    (EnableToolsets_all_enables_everything sampleGroup sampleHeap
      ["repos", "all", "nonexistent"] (by decide) (by decide)).2.2.2.2 "issues" 1 (by decide)⟩

/-- C5, as stated, fails for a name after "all": on the sample group,
EnableToolsets of "all", "nonexistent" returns success although "nonexistent"
is not "all" and not a key, and over both loops EnableToolset is called with
the two keys of the registry and never with "nonexistent". -/
theorem EnableToolsets_unknown_after_all_counterexample :
    "nonexistent" ∈ ["all", "nonexistent"] ∧
    sampleGroup.Toolsets.get "nonexistent" = none ∧
    (sampleGroup.EnableToolsets sampleHeap ["all", "nonexistent"]).1 = none ∧
    (EnableToolsets.run sampleGroup sampleHeap ["all", "nonexistent"]).calls =
      ["repos", "issues"] ∧
    "nonexistent" ∉ (EnableToolsets.run sampleGroup sampleHeap ["all", "nonexistent"]).calls := by
  decide

/-- C5, amended. Over its two loops, EnableToolsets calls EnableToolset, in
order, with the names that stand before the first "all", up to and including
the first of them that is not a key of the registry (the first loop), and
then, when none of them is unknown and everythingOn is set (the list holds
"all", or the flag was set before the call), once with every key of the
registry (the second loop, in the iteration order of the map). It calls
EnableToolset with nothing else: a name after the first "all" is passed to
EnableToolset only if it is a key of the registry. EnableToolsets returns the
not-found error, carrying the first unknown name, exactly when some name
before the first "all" is not a key. -/
theorem EnableToolsets_calls_and_error (tg : ToolsetGroup) (mem : Heap)
    (names : List String) :
    (EnableToolsets.run tg mem names).calls =
      throughFirstUnknown tg.Toolsets (beforeAll names) ++
        (if firstUnknown tg.Toolsets (beforeAll names) = none ∧
            ("all" ∈ names ∨ tg.everythingOn = true) then
          tg.Toolsets.keys
        else
          []) ∧
    (EnableToolsets.scan tg mem [] names).calls =
      throughFirstUnknown tg.Toolsets (beforeAll names) ∧
    (∀ x ∈ (EnableToolsets.run tg mem names).calls,
      x ∈ beforeAll names ∨ tg.Toolsets.get x ≠ none) ∧
    (∀ x ∈ throughFirstUnknown tg.Toolsets (beforeAll names),
      x ∈ (EnableToolsets.run tg mem names).calls) ∧
    ((EnableToolsets.run tg mem names).err, (EnableToolsets.run tg mem names).tg,
      (EnableToolsets.run tg mem names).mem) = tg.EnableToolsets mem names ∧
    (tg.EnableToolsets mem names).1 =
      (firstUnknown tg.Toolsets (beforeAll names)).map NewToolsetDoesNotExistError ∧
    ((∃ e, (tg.EnableToolsets mem names).1 = some e) ↔
      ∃ n ∈ beforeAll names, tg.Toolsets.get n = none) ∧
    (∀ e, (tg.EnableToolsets mem names).1 = some e →
      e.Name ∈ beforeAll names ∧ tg.Toolsets.get e.Name = none) := by
  have hcalls := (scan_err_calls tg names mem []).2
  have herr := EnableToolsets_err tg mem names
  have hrun := run_calls tg mem names
  refine ⟨hrun, by simpa using hcalls, ?_, ?_, rfl, herr, ⟨?_, ?_⟩, ?_⟩
  · intro x hx
    rw [hrun] at hx
    rcases List.mem_append.1 hx with h | h
    · exact Or.inl (throughFirstUnknown_subset _ _ x h)
    · by_cases hc : firstUnknown tg.Toolsets (beforeAll names) = none ∧
          ("all" ∈ names ∨ tg.everythingOn = true)
      · rw [if_pos hc] at h
        obtain ⟨p, hp⟩ := keys_known tg x h
        exact Or.inr (by rw [hp]; simp)
      · rw [if_neg hc] at h
        simp at h
  · intro x hx
    rw [hrun]
    exact List.mem_append_left _ hx
  · rintro ⟨e, he⟩
    rw [herr] at he
    cases hf : firstUnknown tg.Toolsets (beforeAll names) with
    | none => rw [hf] at he; simp at he
    | some n =>
      obtain ⟨h1, h2⟩ := firstUnknown_eq_some _ _ _ hf
      exact ⟨n, h1, h2⟩
  · rintro ⟨n, hn, hg⟩
    cases hf : firstUnknown tg.Toolsets (beforeAll names) with
    | none =>
      obtain ⟨p, hp⟩ := (firstUnknown_eq_none_iff _ _).1 hf n hn
      rw [hg] at hp
      simp at hp
    | some m => exact ⟨NewToolsetDoesNotExistError m, by rw [herr, hf]; rfl⟩
  · intro e he
    rw [herr] at he
    cases hf : firstUnknown tg.Toolsets (beforeAll names) with
    | none => rw [hf] at he; simp at he
    | some n =>
      rw [hf] at he
      simp only [Option.map_some', Option.some.injEq] at he
      rw [← he]
      exact firstUnknown_eq_some _ _ _ hf

/-- C6. For a name that is not a key of the registry, EnableToolset returns a
ToolsetDoesNotExistError carrying that name and leaves the group and every
toolset object unchanged: same registry map, same everythingOn and readOnly,
same heap. -/
theorem EnableToolset_unknown_name (tg : ToolsetGroup) (mem : Heap) (name : String)
    (h : tg.Toolsets.get name = none) :
    (tg.EnableToolset mem name).1 = some (NewToolsetDoesNotExistError name) ∧
    (∀ e, (tg.EnableToolset mem name).1 = some e → e.Name = name) ∧
    (tg.EnableToolset mem name).2.1 = tg ∧
    (tg.EnableToolset mem name).2.1.Toolsets.keys = tg.Toolsets.keys ∧
    (tg.EnableToolset mem name).2.1.everythingOn = tg.everythingOn ∧
    (tg.EnableToolset mem name).2.1.readOnly = tg.readOnly ∧
    (tg.EnableToolset mem name).2.2 = mem := by
  rw [EnableToolset_of_absent tg mem name h]
  refine ⟨rfl, ?_, rfl, rfl, rfl, rfl, rfl⟩
  intro e he
  simp only [Option.some.injEq] at he
  rw [← he]
  rfl

/-- Witness for C6: "nonexistent" on the sample group. -/
theorem EnableToolset_unknown_name_witness :
    (sampleGroup.EnableToolset sampleHeap "nonexistent").1 =
      some (NewToolsetDoesNotExistError "nonexistent") ∧
    (sampleGroup.EnableToolset sampleHeap "nonexistent").2.1 = sampleGroup ∧
    (sampleGroup.EnableToolset sampleHeap "nonexistent").2.2 = sampleHeap :=
  ⟨(EnableToolset_unknown_name sampleGroup sampleHeap "nonexistent" (by decide)).1,
    (EnableToolset_unknown_name sampleGroup sampleHeap "nonexistent" (by decide)).2.2.1,
    (EnableToolset_unknown_name sampleGroup sampleHeap "nonexistent" (by decide)).2.2.2.2.2.2⟩

/-- C7. For a name that is a key of the registry, stored with the toolset
object at p, EnableToolset returns success and sets Enabled of that object to
true, and changes nothing else: the group (registry map, everythingOn,
readOnly) is the same, every other toolset object is the same, and the
object at p keeps its name, description, readOnly flag and its tool,
resource template and prompt lists. -/
theorem EnableToolset_known_name (tg : ToolsetGroup) (mem : Heap) (name : String) (p : Ptr)
    (h : tg.Toolsets.get name = some p) :
    (tg.EnableToolset mem name).1 = none ∧
    ((tg.EnableToolset mem name).2.2 p).Enabled = true ∧
    (tg.EnableToolset mem name).2.1 = tg ∧
    (∀ q, q ≠ p → (tg.EnableToolset mem name).2.2 q = mem q) ∧
    ((tg.EnableToolset mem name).2.2 p).Name = (mem p).Name ∧
    ((tg.EnableToolset mem name).2.2 p).Description = (mem p).Description ∧
    ((tg.EnableToolset mem name).2.2 p).readOnly = (mem p).readOnly ∧
    ((tg.EnableToolset mem name).2.2 p).writeTools = (mem p).writeTools ∧
    ((tg.EnableToolset mem name).2.2 p).readTools = (mem p).readTools ∧
    ((tg.EnableToolset mem name).2.2 p).resourceTemplates = (mem p).resourceTemplates ∧
    ((tg.EnableToolset mem name).2.2 p).prompts = (mem p).prompts := by
  rw [EnableToolset_of_present tg mem name p h]
  refine ⟨rfl, by simp [Heap.write], rfl, ?_, ?_, ?_, ?_, ?_, ?_, ?_, ?_⟩
  · intro q hq
    simp [Heap.write, hq]
  all_goals simp [Heap.write]

/-- Witness for C7: "repos" on the sample group. -/
theorem EnableToolset_known_name_witness :
    (sampleGroup.EnableToolset sampleHeap "repos").1 = none ∧
    ((sampleGroup.EnableToolset sampleHeap "repos").2.2 0).Enabled = true ∧
    (sampleGroup.EnableToolset sampleHeap "repos").2.1 = sampleGroup ∧
    ((sampleGroup.EnableToolset sampleHeap "repos").2.2 1).Enabled = false :=
  ⟨(EnableToolset_known_name sampleGroup sampleHeap "repos" 0 (by decide)).1,
    (EnableToolset_known_name sampleGroup sampleHeap "repos" 0 (by decide)).2.1,
    (EnableToolset_known_name sampleGroup sampleHeap "repos" 0 (by decide)).2.2.1,
    by decide⟩

/-- C8. EnableToolset is idempotent: for every group, heap and name, a second
EnableToolset of the same name returns the same result as the first and
leaves the same group and heap as the first. -/
theorem EnableToolset_idempotent (tg : ToolsetGroup) (mem : Heap) (name : String) :
    (tg.EnableToolset mem name).2.1.EnableToolset (tg.EnableToolset mem name).2.2 name =
      tg.EnableToolset mem name := by
  cases h : tg.Toolsets.get name with
  | none =>
    rw [EnableToolset_of_absent tg mem name h]
    exact EnableToolset_of_absent tg mem name h
  | some p =>
    rw [EnableToolset_of_present tg mem name p h]
    simp only []
    rw [EnableToolset_of_present tg _ name p h]
    congr 2
    funext q
    by_cases hq : q = p <;> simp [Heap.write, hq]

/-- C9. IsEnabled is a total function of the group, the heap and the name, and
returns no new state. It is true when everythingOn is true, whatever the name;
when everythingOn is false it is the Enabled flag of the toolset object stored
under the name, and false when the name is not a key of the registry. -/
theorem IsEnabled_spec (tg : ToolsetGroup) (mem : Heap) (name : String) :
    (tg.everythingOn = true → tg.IsEnabled mem name = true) ∧
    (tg.everythingOn = false →
      ∀ p, tg.Toolsets.get name = some p → tg.IsEnabled mem name = (mem p).Enabled) ∧
    (tg.everythingOn = false → tg.Toolsets.get name = none → tg.IsEnabled mem name = false) := by
  refine ⟨?_, ?_, ?_⟩
  · intro h
    simp [ToolsetGroup.IsEnabled, h]
  · intro h p hp
    simp [ToolsetGroup.IsEnabled, h, hp]
  · intro h hn
    simp [ToolsetGroup.IsEnabled, h, hn]

/-- Witness for C9: on the sample group nothing is enabled; with everythingOn
set, a name that is not in the registry is enabled. -/
theorem IsEnabled_spec_witness :
    sampleGroup.IsEnabled sampleHeap "repos" = false ∧
    sampleGroup.IsEnabled sampleHeap "nonexistent" = false ∧
    ({ sampleGroup with everythingOn := true }).IsEnabled sampleHeap "nonexistent" = true :=
  ⟨(IsEnabled_spec sampleGroup sampleHeap "repos").2.1 (by decide) 0 (by decide),
    (IsEnabled_spec sampleGroup sampleHeap "nonexistent").2.2 (by decide) (by decide),
    (IsEnabled_spec { sampleGroup with everythingOn := true } sampleHeap "nonexistent").1
      (by decide)⟩

/-- C10. GetActiveTools returns the empty list when Enabled is false; when
Enabled is true it returns exactly readTools if readOnly is true, and
readTools followed by writeTools, each in its own order, if readOnly is
false. -/
theorem GetActiveTools_spec (t : Toolset) :
    (t.Enabled = false → t.GetActiveTools = []) ∧
    (t.Enabled = true → t.readOnly = true → t.GetActiveTools = t.readTools) ∧
    (t.Enabled = true → t.readOnly = false →
      t.GetActiveTools = t.readTools ++ t.writeTools) := by
  refine ⟨?_, ?_, ?_⟩
  · intro h
    simp [Toolset.GetActiveTools, h]
  · intro h hr
    simp [Toolset.GetActiveTools, h, hr]
  · intro h hr
    simp [Toolset.GetActiveTools, h, hr]

/-- Witness for C10: a toolset with one read and one write tool, disabled,
enabled read-only, and enabled read-write. -/
theorem GetActiveTools_spec_witness :
    ({ NewToolset "repos" "" with
        readTools := [sampleTool "get_commit" true],
        writeTools := [sampleTool "push_files" false] } : Toolset).GetActiveTools = [] ∧
    ({ NewToolset "repos" "" with
        Enabled := true, readOnly := true,
        readTools := [sampleTool "get_commit" true],
        writeTools := [sampleTool "push_files" false] } : Toolset).GetActiveTools =
      [sampleTool "get_commit" true] ∧
    ({ NewToolset "repos" "" with
        Enabled := true,
        readTools := [sampleTool "get_commit" true],
        writeTools := [sampleTool "push_files" false] } : Toolset).GetActiveTools =
      [sampleTool "get_commit" true, sampleTool "push_files" false] :=
  ⟨(GetActiveTools_spec _).1 rfl, (GetActiveTools_spec _).2.1 rfl rfl,
    (GetActiveTools_spec _).2.2 rfl rfl⟩

/-- C11. GetAvailableTools does not depend on Enabled: it returns readTools
when readOnly is true and readTools followed by writeTools otherwise. For an
enabled toolset it equals GetActiveTools, and for every toolset
GetActiveTools is empty or equal to GetAvailableTools. -/
theorem GetAvailableTools_spec (t : Toolset) :
    (∀ enabled, ({ t with Enabled := enabled } : Toolset).GetAvailableTools =
      t.GetAvailableTools) ∧
    (t.readOnly = true → t.GetAvailableTools = t.readTools) ∧
    (t.readOnly = false → t.GetAvailableTools = t.readTools ++ t.writeTools) ∧
    (t.Enabled = true → t.GetAvailableTools = t.GetActiveTools) ∧
    (t.GetActiveTools = [] ∨ t.GetActiveTools = t.GetAvailableTools) := by
  refine ⟨fun _ => rfl, ?_, ?_, ?_, ?_⟩
  · intro h
    simp [Toolset.GetAvailableTools, h]
  · intro h
    simp [Toolset.GetAvailableTools, h]
  · intro h
    simp [Toolset.GetAvailableTools, Toolset.GetActiveTools, h]
  · cases h : t.Enabled
    · exact Or.inl (by simp [Toolset.GetActiveTools, h])
    · exact Or.inr (by simp [Toolset.GetAvailableTools, Toolset.GetActiveTools, h])

/-- Witness for C11: a disabled toolset with one read and one write tool has
both tools available and none active. -/
theorem GetAvailableTools_spec_witness :
    ({ NewToolset "repos" "" with
        readTools := [sampleTool "get_commit" true],
        writeTools := [sampleTool "push_files" false] } : Toolset).GetAvailableTools =
      [sampleTool "get_commit" true, sampleTool "push_files" false] ∧
    ({ NewToolset "repos" "" with
        readOnly := true,
        readTools := [sampleTool "get_commit" true],
        writeTools := [sampleTool "push_files" false] } : Toolset).GetAvailableTools =
      [sampleTool "get_commit" true] :=
  ⟨(GetAvailableTools_spec _).2.2.1 rfl, (GetAvailableTools_spec _).2.1 rfl⟩

/-- C12. GetToolset returns the toolset stored under the name when the name is
a key of the registry, and otherwise no toolset and the ToolsetDoesNotExistError
carrying the name. Its error result is the error result of EnableToolset for
the same name, so one fails exactly when the other does. GetToolset is a
function of the group and the name and returns no new state. -/
theorem GetToolset_spec (tg : ToolsetGroup) (mem : Heap) (name : String) :
    (∀ p, tg.Toolsets.get name = some p → tg.GetToolset name = (some p, none)) ∧
    (tg.Toolsets.get name = none →
      tg.GetToolset name = (none, some (NewToolsetDoesNotExistError name))) ∧
    (tg.GetToolset name).2 = (tg.EnableToolset mem name).1 ∧
    ((∃ e, (tg.GetToolset name).2 = some e) ↔ ∃ e, (tg.EnableToolset mem name).1 = some e) ∧
    (∀ e, (tg.GetToolset name).2 = some e → e.Name = name) := by
  have hsame : (tg.GetToolset name).2 = (tg.EnableToolset mem name).1 := by
    cases h : tg.Toolsets.get name with
    | none => rw [EnableToolset_of_absent tg mem name h]; simp [ToolsetGroup.GetToolset, h]
    | some p => rw [EnableToolset_of_present tg mem name p h]; simp [ToolsetGroup.GetToolset, h]
  refine ⟨?_, ?_, hsame, by rw [hsame], ?_⟩
  · intro p h
    simp [ToolsetGroup.GetToolset, h]
  · intro h
    simp [ToolsetGroup.GetToolset, h]
  · intro e he
    cases h : tg.Toolsets.get name with
    | none =>
      simp only [ToolsetGroup.GetToolset, h, Option.some.injEq] at he
      rw [← he]
      rfl
    | some p => simp [ToolsetGroup.GetToolset, h] at he

/-- Witness for C12: on the sample group "repos" is found and "nonexistent" is
not. -/
theorem GetToolset_spec_witness :
    sampleGroup.GetToolset "repos" = (some 0, none) ∧
    sampleGroup.GetToolset "nonexistent" =
      (none, some (NewToolsetDoesNotExistError "nonexistent")) :=
  ⟨(GetToolset_spec sampleGroup sampleHeap "repos").1 0 (by decide),
    (GetToolset_spec sampleGroup sampleHeap "nonexistent").2.1 (by decide)⟩

/-- C13. After AddToolset of the toolset object at ts, the registry maps the
name of that object to ts, whatever was stored under that name before; every
other name maps to what it mapped to before; the readOnly flag of the object
is its previous readOnly flag or the group readOnly flag; its Enabled flag,
its name, description and its four lists are unchanged; every other toolset
object and the group flags are unchanged. -/
theorem AddToolset_spec (tg : ToolsetGroup) (mem : Heap) (ts : Ptr) :
    (tg.AddToolset mem ts).1.Toolsets.get (mem ts).Name = some ts ∧
    (∀ n, n ≠ (mem ts).Name → (tg.AddToolset mem ts).1.Toolsets.get n = tg.Toolsets.get n) ∧
    ((tg.AddToolset mem ts).2 ts).readOnly = ((mem ts).readOnly || tg.readOnly) ∧
    ((tg.AddToolset mem ts).2 ts).Enabled = (mem ts).Enabled ∧
    ((tg.AddToolset mem ts).2 ts).readTools = (mem ts).readTools ∧
    ((tg.AddToolset mem ts).2 ts).writeTools = (mem ts).writeTools ∧
    ((tg.AddToolset mem ts).2 ts).resourceTemplates = (mem ts).resourceTemplates ∧
    ((tg.AddToolset mem ts).2 ts).prompts = (mem ts).prompts ∧
    ((tg.AddToolset mem ts).2 ts).Name = (mem ts).Name ∧
    ((tg.AddToolset mem ts).2 ts).Description = (mem ts).Description ∧
    (∀ q, q ≠ ts → (tg.AddToolset mem ts).2 q = mem q) ∧
    (tg.AddToolset mem ts).1.everythingOn = tg.everythingOn ∧
    (tg.AddToolset mem ts).1.readOnly = tg.readOnly := by
  have hname : ((if tg.readOnly = true then mem.write ts (mem ts).SetReadOnly else mem) ts).Name
      = (mem ts).Name := by
    cases tg.readOnly <;> simp [Heap.write, Toolset.SetReadOnly]
  refine ⟨?_, ?_, ?_, ?_, ?_, ?_, ?_, ?_, ?_, ?_, ?_, rfl, rfl⟩
  · simp only [ToolsetGroup.AddToolset]
    rw [hname]
    exact ToolsetMap.get_set_self _ _ _
  · intro n hn
    simp only [ToolsetGroup.AddToolset]
    rw [hname]
    exact ToolsetMap.get_set_other _ _ _ _ hn
  all_goals
    cases hro : tg.readOnly <;>
      simp [ToolsetGroup.AddToolset, Heap.write, Toolset.SetReadOnly, hro]
  all_goals
    intro q hq
    simp [hq]

/-- C14, as stated, fails when a toolset is added after "all" was processed:
from NewToolsetGroup, EnableToolsets of "all" and then AddToolset of the
disabled "repos" object leave everythingOn true and IsEnabled of "repos"
true, while the toolset stored under "repos" has Enabled false. -/
theorem everythingOn_after_AddToolset_counterexample :
    ∃ st : ToolsetGroup × Heap,
      runCalls (NewToolsetGroup false) sampleHeap
          [Call.EnableToolsets ["all"], Call.AddToolset 0] = Except.ok st ∧
      st.1.everythingOn = true ∧
      st.1.Toolsets.get "repos" = some 0 ∧
      st.1.IsEnabled st.2 "repos" = true ∧
      (st.2 0).Enabled = false :=
  ⟨_, rfl, by decide, by decide, by decide, by decide⟩

/-- C14, amended. In every state reached from NewToolsetGroup by a sequence of
calls in which every AddToolset made while everythingOn is true hands over a
toolset that already has Enabled = true, if everythingOn is true then every
toolset in the registry has Enabled = true; so IsEnabled of a name being true
implies that the toolset stored under the name, if any, has Enabled = true. -/
theorem everythingOn_synchronized (readOnly : Bool) (mem : Heap) (calls : List Call)
    (st : ToolsetGroup × Heap)
    (hadd : addsEnabledWhenAllOn (NewToolsetGroup readOnly) mem calls = true)
    (hrun : runCalls (NewToolsetGroup readOnly) mem calls = Except.ok st) :
    (st.1.everythingOn = true →
      ∀ n p, st.1.Toolsets.get n = some p → (st.2 p).Enabled = true) ∧
    (∀ n p, st.1.IsEnabled st.2 n = true → st.1.Toolsets.get n = some p →
      (st.2 p).Enabled = true) := by
  obtain ⟨tg1, mem1⟩ := st
  have h0 : (NewToolsetGroup readOnly).Synchronized mem := by
    intro h
    simp [NewToolsetGroup] at h
  have hs := runCalls_sync calls _ _ _ _ h0 hadd hrun
  refine ⟨hs, ?_⟩
  intro n p hen hn
  cases hon : tg1.everythingOn with
  | true => exact hs hon n p hn
  | false => simpa [ToolsetGroup.IsEnabled, hon, hn] using hen

/-- Witness for amended C14: both sample toolsets are added, then "all" is
enabled, then a toolset that is already enabled is added again. -/
theorem everythingOn_synchronized_witness :
    ∃ st : ToolsetGroup × Heap,
      runCalls (NewToolsetGroup false) sampleHeap
          [Call.AddToolset 0, Call.AddToolset 1, Call.EnableToolsets ["all"],
           Call.AddToolset 1] = Except.ok st ∧
      st.1.everythingOn = true ∧
      st.1.Toolsets.get "issues" = some 1 ∧
      (st.2 1).Enabled = true :=
  ⟨_, rfl, by decide, by decide,
    (everythingOn_synchronized false sampleHeap
      [Call.AddToolset 0, Call.AddToolset 1, Call.EnableToolsets ["all"],
       Call.AddToolset 1] _ (by decide) rfl).1 (by decide) "issues" 1 (by decide)⟩

/-- C15. A toolset built from NewToolset by a chain of AddReadTools,
AddWriteTools, AddResourceTemplates, AddPrompts and SetReadOnly calls that
does not panic has only tools with ReadOnlyHint = true in readTools and only
tools with ReadOnlyHint = false in writeTools. When it is read-only, every
tool of GetAvailableTools, and every tool of GetActiveTools whatever its
Enabled flag is set to, has ReadOnlyHint = true. -/
theorem built_toolset_annotated (name description : String) (calls : List BuildCall)
    (t : Toolset) (h : (NewToolset name description).build calls = Except.ok t) :
    (∀ tool ∈ t.readTools, tool.Tool.Annotations.ReadOnlyHint = some true) ∧
    (∀ tool ∈ t.writeTools, tool.Tool.Annotations.ReadOnlyHint = some false) ∧
    (t.readOnly = true →
      (∀ tool ∈ t.GetAvailableTools, tool.Tool.Annotations.ReadOnlyHint = some true) ∧
      (∀ tool ∈ t.GetActiveTools, tool.Tool.Annotations.ReadOnlyHint = some true) ∧
      ∀ enabled, ∀ tool ∈ ({ t with Enabled := enabled } : Toolset).GetActiveTools,
        tool.Tool.Annotations.ReadOnlyHint = some true) := by
  obtain ⟨hread, hwrite⟩ := build_annotated calls _ t (NewToolset_annotated name description) h
  refine ⟨hread, hwrite, ?_⟩
  intro hro
  refine ⟨?_, ?_, ?_⟩
  · intro tool hm
    simp only [Toolset.GetAvailableTools, hro, if_true] at hm
    exact hread tool hm
  · intro tool hm
    cases he : t.Enabled
    · simp [Toolset.GetActiveTools, he] at hm
    · simp only [Toolset.GetActiveTools, he, hro, if_true] at hm
      exact hread tool hm
  · intro enabled tool hm
    cases enabled
    · simp [Toolset.GetActiveTools] at hm
    · simp only [Toolset.GetActiveTools, hro, if_true] at hm
      exact hread tool hm

/-- Witness for C15: a toolset built with a read tool, a write tool and then
SetReadOnly. -/
theorem built_toolset_annotated_witness :
    ∃ t : Toolset,
      (NewToolset "repos" "").build
          [BuildCall.AddReadTools [sampleTool "get_commit" true],
           BuildCall.AddWriteTools [sampleTool "push_files" false],
           BuildCall.SetReadOnly] = Except.ok t ∧
      t.readTools = [sampleTool "get_commit" true] ∧
      t.writeTools = [sampleTool "push_files" false] ∧
      ∀ tool ∈ t.GetAvailableTools, tool.Tool.Annotations.ReadOnlyHint = some true :=
  ⟨_, rfl, by decide, by decide,
    ((built_toolset_annotated "repos" ""
      [BuildCall.AddReadTools [sampleTool "get_commit" true],
       BuildCall.AddWriteTools [sampleTool "push_files" false],
       BuildCall.SetReadOnly] _ rfl).2.2 (by decide)).1⟩

/-- C16. For tools all annotated ReadOnlyHint = false, AddWriteTools does not
panic. On a toolset whose readOnly flag is true it returns the toolset as it
was: writeTools, readTools, Enabled, readOnly and every other field are
unchanged. On a toolset that is not read-only it returns the toolset with the
tools appended to writeTools, in order, and nothing else changed. -/
theorem AddWriteTools_on_readOnly (t : Toolset) (tools : List ServerTool)
    (h : ∀ tool ∈ tools, tool.Tool.Annotations.ReadOnlyHint = some false) :
    (t.readOnly = true → t.AddWriteTools tools = Except.ok t) ∧
    (t.readOnly = false →
      t.AddWriteTools tools = Except.ok { t with writeTools := t.writeTools ++ tools }) := by
  have hc := (AddWriteTools_check_eq_none_iff tools).2 h
  constructor
  · intro hro
    simp [Toolset.AddWriteTools, hc, hro]
  · intro hro
    simp [Toolset.AddWriteTools, hc, hro]

/-- Witness for C16: one write tool handed to a read-only and to a read-write
toolset. -/
theorem AddWriteTools_on_readOnly_witness :
    ((NewToolset "repos" "").SetReadOnly).AddWriteTools [sampleTool "push_files" false] =
      Except.ok (NewToolset "repos" "").SetReadOnly ∧
    (NewToolset "repos" "").AddWriteTools [sampleTool "push_files" false] =
      Except.ok { NewToolset "repos" "" with writeTools := [sampleTool "push_files" false] } :=
  ⟨(AddWriteTools_on_readOnly (NewToolset "repos" "").SetReadOnly
      [sampleTool "push_files" false] (by decide)).1 rfl,
    (AddWriteTools_on_readOnly (NewToolset "repos" "")
      [sampleTool "push_files" false] (by decide)).2 rfl⟩

/-- C17. With the registration target taken as the list of AddTool calls it
has received: RegisterTools makes no call when Enabled is false, and
otherwise makes exactly one AddTool call for each tool of GetActiveTools, in
that order (every read tool, then every write tool unless the toolset is
read-only). It makes no other registration call, and it is a function of the
toolset that returns only the server. -/
theorem RegisterTools_registers_active_tools (t : Toolset) (s : MCPServer) :
    (t.Enabled = false → t.RegisterTools s = s) ∧
    (t.RegisterTools s).addToolCalls =
      s.addToolCalls ++ t.GetActiveTools.map ServerTool.registration ∧
    (t.Enabled = true → t.readOnly = true →
      (t.RegisterTools s).addToolCalls =
        s.addToolCalls ++ t.readTools.map ServerTool.registration) ∧
    (t.Enabled = true → t.readOnly = false →
      (t.RegisterTools s).addToolCalls =
        s.addToolCalls ++ t.readTools.map ServerTool.registration ++
          t.writeTools.map ServerTool.registration) ∧
    (t.RegisterTools s).addResourceTemplateCalls = s.addResourceTemplateCalls ∧
    (t.RegisterTools s).addPromptCalls = s.addPromptCalls := by
  rw [RegisterTools_eq]
  refine ⟨?_, rfl, ?_, ?_, rfl, rfl⟩
  · intro h
    simp [Toolset.GetActiveTools, h]
  · intro h hr
    simp [Toolset.GetActiveTools, h, hr]
  · intro h hr
    simp [Toolset.GetActiveTools, h, hr]

/-- Witness for C17: an enabled read-write toolset with one read and one write
tool registers the read tool and then the write tool. -/
theorem RegisterTools_registers_active_tools_witness :
    (({ NewToolset "repos" "" with
        Enabled := true,
        readTools := [sampleTool "get_commit" true],
        writeTools := [sampleTool "push_files" false] } : Toolset).RegisterTools
      emptyServer).addToolCalls =
      [] ++ [(sampleTool "get_commit" true).registration] ++
        [(sampleTool "push_files" false).registration] :=
  (RegisterTools_registers_active_tools _ emptyServer).2.2.2.1 rfl rfl

/-- C18. For a toolset stored under the name n that is disabled: EnableToolset
of n succeeds, after which IsEnabled of n is true, and once RegisterTools of
that toolset has run on the registration target, every tool of its
GetAvailableTools has been added to the target. -/
theorem enable_then_register (tg : ToolsetGroup) (mem : Heap) (s : MCPServer) (n : String)
    (p : Ptr) (hn : tg.Toolsets.get n = some p) (hoff : (mem p).Enabled = false) :
    (tg.EnableToolset mem n).1 = none ∧
    (tg.EnableToolset mem n).2.1.IsEnabled (tg.EnableToolset mem n).2.2 n = true ∧
    (((tg.EnableToolset mem n).2.2 p).RegisterTools s).addToolCalls =
      s.addToolCalls ++
        ((tg.EnableToolset mem n).2.2 p).GetAvailableTools.map ServerTool.registration ∧
    (∀ tool ∈ ((tg.EnableToolset mem n).2.2 p).GetAvailableTools,
      tool.registration ∈ (((tg.EnableToolset mem n).2.2 p).RegisterTools s).addToolCalls) ∧
    ((mem p).RegisterTools s = s) := by
  rw [EnableToolset_of_present tg mem n p hn]
  have hcalls : ((mem.write p { mem p with Enabled := true } p).RegisterTools s).addToolCalls =
      s.addToolCalls ++
        (mem.write p { mem p with Enabled := true } p).GetAvailableTools.map
          ServerTool.registration := by
    rw [RegisterTools_eq]
    simp [Heap.write, Toolset.GetActiveTools, Toolset.GetAvailableTools]
  refine ⟨rfl, ?_, hcalls, ?_, ?_⟩
  · cases hon : tg.everythingOn <;> simp [ToolsetGroup.IsEnabled, hon, hn, Heap.write]
  · intro tool hm
    simp only [] at hcalls ⊢
    rw [hcalls]
    exact List.mem_append_right _ (List.mem_map_of_mem _ hm)
  · simp [Toolset.RegisterTools, hoff]

/-- Witness for C18: "repos", holding one read and one write tool and first
disabled, is enabled and registered on an empty target; its write tool is
then among the AddTool calls. -/
theorem enable_then_register_witness :
    (sampleGroup.EnableToolset
        (sampleHeap.write 0 { NewToolset "repos" "" with
          readTools := [sampleTool "get_commit" true],
          writeTools := [sampleTool "push_files" false] }) "repos").2.1.IsEnabled
      (sampleGroup.EnableToolset
        (sampleHeap.write 0 { NewToolset "repos" "" with
          readTools := [sampleTool "get_commit" true],
          writeTools := [sampleTool "push_files" false] }) "repos").2.2 "repos" = true ∧
    (sampleTool "push_files" false).registration ∈
      (((sampleGroup.EnableToolset
        (sampleHeap.write 0 { NewToolset "repos" "" with
          readTools := [sampleTool "get_commit" true],
          writeTools := [sampleTool "push_files" false] }) "repos").2.2 0).RegisterTools
        emptyServer).addToolCalls :=
  ⟨(enable_then_register sampleGroup _ emptyServer "repos" 0 (by decide) (by decide)).2.1,
    (enable_then_register sampleGroup _ emptyServer "repos" 0 (by decide)
      (by decide)).2.2.2.1 (sampleTool "push_files" false) (by decide)⟩

/-- C19, as stated, fails in its general part for a group whose everythingOn
is already true: after EnableToolsets of "all" on the empty group and
AddToolset of both sample toolsets, "issues" is stored disabled, and
EnableToolsets of the one existing name "repos" enables "issues" as well. -/
theorem EnableToolsets_names_counterexample :
    ∃ st : ToolsetGroup × Heap,
      runCalls (NewToolsetGroup false) sampleHeap
          [Call.EnableToolsets ["all"], Call.AddToolset 0, Call.AddToolset 1] =
        Except.ok st ∧
      st.1.Toolsets.get "repos" = some 0 ∧
      st.1.Toolsets.get "issues" = some 1 ∧
      (st.2 1).Enabled = false ∧
      "all" ∉ ["repos"] ∧
      (st.1.EnableToolsets st.2 ["repos"]).1 = none ∧
      ((st.1.EnableToolsets st.2 ["repos"]).2.2 1).Enabled = true :=
  ⟨_, rfl, by decide, by decide, by decide, by decide, by decide, by decide⟩

/-- C19, amended. For every group whose everythingOn is false, EnableToolsets
of a list of existing names without "all" succeeds, leaves the group as it
was, sets Enabled on the toolsets stored under the listed names and changes
no other toolset and no other field. In the scenario (read-only group,
"repos" built with 3 read and 2 write tools, "issues" with 2 read and 1 write
tool, tools added before insertion) EnableToolsets of "repos" succeeds, after
which GetActiveTools of repos is its 3 read tools in order, issues has
Enabled = false, IsEnabled of "issues" is false and GetActiveTools of issues
is empty. -/
theorem EnableToolsets_names_only (tg : ToolsetGroup) (mem : Heap) (names : List String)
    (hoff : tg.everythingOn = false) (hno : "all" ∉ names)
    (hk : ∀ n ∈ names, tg.Toolsets.get n ≠ none) :
    ((tg.EnableToolsets mem names).1 = none ∧
      (tg.EnableToolsets mem names).2.1 = tg ∧
      (∀ n ∈ names, ∀ p, tg.Toolsets.get n = some p →
        ((tg.EnableToolsets mem names).2.2 p).Enabled = true) ∧
      (∀ q, (∀ n ∈ names, tg.Toolsets.get n ≠ some q) →
        (tg.EnableToolsets mem names).2.2 q = mem q) ∧
      (∀ q, (tg.EnableToolsets mem names).2.2 q = mem q ∨
        (tg.EnableToolsets mem names).2.2 q = { mem q with Enabled := true })) ∧
    (∃ st : ToolsetGroup × Heap,
      runCalls (NewToolsetGroup true) sampleHeap scenarioCalls = Except.ok st ∧
      st.1.readOnly = true ∧
      st.1.Toolsets.get "repos" = some 0 ∧
      st.1.Toolsets.get "issues" = some 1 ∧
      (st.2 0).writeTools.length = 2 ∧ (st.2 1).readTools.length = 2 ∧
      (st.2 1).writeTools.length = 1 ∧
      (st.1.EnableToolsets st.2 ["repos"]).1 = none ∧
      ((st.1.EnableToolsets st.2 ["repos"]).2.2 0).GetActiveTools =
        [sampleTool "search_repositories" true, sampleTool "get_file_contents" true,
         sampleTool "list_commits" true] ∧
      ((st.1.EnableToolsets st.2 ["repos"]).2.2 1).Enabled = false ∧
      (st.1.EnableToolsets st.2 ["repos"]).2.1.IsEnabled
        (st.1.EnableToolsets st.2 ["repos"]).2.2 "issues" = false ∧
      ((st.1.EnableToolsets st.2 ["repos"]).2.2 1).GetActiveTools = []) := by
  have hk1 : ∀ n ∈ names, ∃ p, tg.Toolsets.get n = some p :=
    fun n hn => Option.ne_none_iff_exists'.1 (hk n hn)
  constructor
  · rw [EnableToolsets_of_names tg mem names hoff hno hk1]
    refine ⟨rfl, rfl, ?_, ?_, ?_⟩
    · intro n hn p hp
      exact Heap.enableAt_enabled _ _ _ ((ToolsetMap.mem_getAll _ _ _).2 ⟨n, hn, hp⟩)
    · intro q hq
      have hnot : q ∉ tg.Toolsets.getAll names := by
        intro hm
        obtain ⟨n, hn, hp⟩ := (ToolsetMap.mem_getAll _ _ _).1 hm
        exact hq n hn hp
      simp [Heap.enableAt, hnot]
    · intro q
      by_cases hm : q ∈ tg.Toolsets.getAll names
      · exact Or.inr (by simp [Heap.enableAt, hm])
      · exact Or.inl (by simp [Heap.enableAt, hm])
  · exact ⟨_, rfl, by decide, by decide, by decide, by decide, by decide, by decide,
      by decide, by decide, by decide, by decide, by decide⟩

/-- Witness for amended C19: on the sample group, EnableToolsets of "repos"
enables the object at 0 and leaves the object at 1 as it was. -/
theorem EnableToolsets_names_only_witness :
    (sampleGroup.EnableToolsets sampleHeap ["repos"]).1 = none ∧
    ((sampleGroup.EnableToolsets sampleHeap ["repos"]).2.2 0).Enabled = true ∧
    (sampleGroup.EnableToolsets sampleHeap ["repos"]).2.2 1 = sampleHeap 1 :=
  ⟨(EnableToolsets_names_only sampleGroup sampleHeap ["repos"] (by decide) (by decide)
      (by decide)).1.1,
    (EnableToolsets_names_only sampleGroup sampleHeap ["repos"] (by decide) (by decide)
      (by decide)).1.2.2.1 "repos" (by decide) 0 (by decide),
    (EnableToolsets_names_only sampleGroup sampleHeap ["repos"] (by decide) (by decide)
      (by decide)).1.2.2.2.1 1 (by decide)⟩

/-- C20, as stated, fails for AddToolset: with "repos" stored and enabled,
AddToolset of another, disabled toolset object whose name is also "repos"
replaces the entry, and the toolset stored under "repos" then has
Enabled = false. -/
theorem AddToolset_overwrite_counterexample :
    ∃ st : ToolsetGroup × Heap,
      runCalls (NewToolsetGroup false) reposHeap
          [Call.AddToolset 0, Call.EnableToolset "repos"] = Except.ok st ∧
      st.1.Toolsets.get "repos" = some 0 ∧
      (st.2 0).Enabled = true ∧
      (st.1.AddToolset st.2 1).1.Toolsets.get "repos" = some 1 ∧
      ((st.1.AddToolset st.2 1).2 1).Enabled = false :=
  ⟨_, rfl, by decide, by decide, by decide, by decide⟩

/-- C20, amended. No call disables a toolset object: after every call that
changes the group or a toolset (AddReadTools, AddWriteTools,
AddResourceTemplates, AddPrompts, SetReadOnly, AddToolset, EnableToolset,
EnableToolsets), every toolset object that had Enabled = true still has it.
If the toolset stored under a name had Enabled = true before the call, the
toolset stored under that name after the call has Enabled = true, unless the
call is an AddToolset that stores a disabled toolset under that very name.
NewToolset creates a toolset with Enabled = false. The remaining operations
(IsEnabled, GetToolset, Get*, Register*) are functions that return no group
and no toolset. -/
theorem no_disable_transition (c : Call) (tg tg1 : ToolsetGroup) (mem mem1 : Heap)
    (h : c.run tg mem = Except.ok (tg1, mem1)) :
    (∀ p, (mem p).Enabled = true → (mem1 p).Enabled = true) ∧
    (∀ n p, tg.Toolsets.get n = some p → (mem p).Enabled = true →
      (∀ ts, c = Call.AddToolset ts → n ≠ (mem ts).Name ∨ (mem ts).Enabled = true) →
      ∃ p1, tg1.Toolsets.get n = some p1 ∧ (mem1 p1).Enabled = true) ∧
    (∀ name description, (NewToolset name description).Enabled = false) := by
  obtain ⟨f1, _, _, f4, _⟩ := Call.run_frame c tg tg1 mem mem1 h
  refine ⟨f1, ?_, fun _ _ => rfl⟩
  intro n p hn hp hadd
  have hkeep : (∀ ts, c ≠ Call.AddToolset ts) →
      ∃ p1, tg1.Toolsets.get n = some p1 ∧ (mem1 p1).Enabled = true := by
    intro hne
    rw [f4 hne]
    exact ⟨p, hn, f1 p hp⟩
  cases c with
  | AddToolset ts =>
    simp only [Call.run, Except.ok.injEq] at h
    have h1 : tg1 = (tg.AddToolset mem ts).1 := by rw [h]
    obtain ⟨a1, a2, _⟩ := AddToolset_get tg mem ts
    rw [h1]
    by_cases hname : n = (mem ts).Name
    · rcases hadd ts rfl with hne | hen
      · exact absurd hname hne
      · rw [hname]
        exact ⟨ts, a1, f1 ts hen⟩
    · rw [a2 n hname]
      exact ⟨p, hn, f1 p hp⟩
  | AddReadTools q tools => exact hkeep (by intro ts; simp)
  | AddWriteTools q tools => exact hkeep (by intro ts; simp)
  | AddResourceTemplates q templates => exact hkeep (by intro ts; simp)
  | AddPrompts q prompts => exact hkeep (by intro ts; simp)
  | SetReadOnly q => exact hkeep (by intro ts; simp)
  | EnableToolset name => exact hkeep (by intro ts; simp)
  | EnableToolsets names => exact hkeep (by intro ts; simp)

/-- Witness for amended C20: AddToolset of "issues" on the sample group with
"repos" enabled keeps "repos" stored and enabled. -/
theorem no_disable_transition_witness :
    ∃ p1, (sampleGroup.AddToolset (sampleHeap.write 0
        { NewToolset "repos" "" with Enabled := true }) 1).1.Toolsets.get "repos" = some p1 ∧
      ((sampleGroup.AddToolset (sampleHeap.write 0
        { NewToolset "repos" "" with Enabled := true }) 1).2 p1).Enabled = true :=
  (no_disable_transition (Call.AddToolset 1) sampleGroup _
    (sampleHeap.write 0 { NewToolset "repos" "" with Enabled := true }) _ rfl).2.1
    "repos" 0 (by decide) (by decide) (fun ts hts => Or.inl (by cases hts; decide))

/-- C21. The read-only flag is never unset: after any sequence of calls that
runs to its end, every toolset object whose readOnly was true still has
readOnly = true, and the readOnly flag of the group is the one it had (the one
NewToolsetGroup was given). Hence, in a read-only group, a toolset inserted
through AddToolset at any point of the sequence has readOnly = true at its
end. -/
theorem readOnly_never_unset (tg : ToolsetGroup) (mem : Heap) (calls : List Call)
    (st : ToolsetGroup × Heap) (hrun : runCalls tg mem calls = Except.ok st) :
    (∀ p, (mem p).readOnly = true → (st.2 p).readOnly = true) ∧
    st.1.readOnly = tg.readOnly ∧
    (∀ readOnly, (NewToolsetGroup readOnly).readOnly = readOnly) ∧
    (tg.readOnly = true → ∀ before ts after, calls = before ++ Call.AddToolset ts :: after →
      (st.2 ts).readOnly = true) := by
  obtain ⟨tg2, mem2⟩ := st
  obtain ⟨_, f2, f3⟩ := runCalls_frame calls tg tg2 mem mem2 hrun
  refine ⟨f2, f3, fun _ => rfl, ?_⟩
  intro hro before ts after hcalls
  rw [hcalls, runCalls_append] at hrun
  cases hb : runCalls tg mem before with
  | error e => rw [hb] at hrun; simp at hrun
  | ok st1 =>
    obtain ⟨tg1, mem1⟩ := st1
    rw [hb] at hrun
    simp only [runCalls, Call.run] at hrun
    obtain ⟨_, _, g3⟩ := runCalls_frame before tg tg1 mem mem1 hb
    have hts : ((tg1.AddToolset mem1 ts).2 ts).readOnly = true := by
      rw [hro] at g3
      simp [ToolsetGroup.AddToolset, g3, Heap.write, Toolset.SetReadOnly]
    obtain ⟨_, k2, _⟩ := runCalls_frame after _ tg2 _ mem2 hrun
    exact k2 ts hts

/-- Witness for C21: in a read-only group, "repos" is inserted after an
EnableToolsets call and is read-only after two further calls. -/
theorem readOnly_never_unset_witness :
    ∃ st : ToolsetGroup × Heap,
      runCalls (NewToolsetGroup true) sampleHeap
          [Call.EnableToolsets ["all"], Call.AddToolset 0, Call.EnableToolset "repos",
           Call.AddWriteTools 0 [sampleTool "push_files" false]] = Except.ok st ∧
      st.1.readOnly = true ∧ (st.2 0).readOnly = true :=
  ⟨_, rfl, by decide,
    (readOnly_never_unset (NewToolsetGroup true) sampleHeap
      [Call.EnableToolsets ["all"], Call.AddToolset 0, Call.EnableToolset "repos",
       Call.AddWriteTools 0 [sampleTool "push_files" false]] _ rfl).2.2.2 rfl
      [Call.EnableToolsets ["all"]] 0
      [Call.EnableToolset "repos", Call.AddWriteTools 0 [sampleTool "push_files" false]] rfl⟩

/-- C22. For a name that is not a key of the registry, EnableToolset and
GetToolset return the ToolsetDoesNotExistError carrying the name; its message
is "toolset <name> does not exist"; its Is is true exactly for a target that
is a non-nil error of type ToolsetDoesNotExistError, whatever that target
carries, and false for the nil target and for an error of any other type. -/
theorem not_found_error_kind (tg : ToolsetGroup) (mem : Heap) (name : String)
    (h : tg.Toolsets.get name = none) :
    (tg.EnableToolset mem name).1 = some (NewToolsetDoesNotExistError name) ∧
    (tg.GetToolset name).2 = some (NewToolsetDoesNotExistError name) ∧
    (NewToolsetDoesNotExistError name).Error = "toolset " ++ name ++ " does not exist" ∧
    (∀ target, (NewToolsetDoesNotExistError name).Is target = true ↔
      ∃ e, target = some (GoError.toolsetDoesNotExist e)) ∧
    (NewToolsetDoesNotExistError name).Is none = false ∧
    (∀ other, (NewToolsetDoesNotExistError name).Is
      (some (GoError.toolsetDoesNotExist (some (NewToolsetDoesNotExistError other)))) = true) ∧
    (∀ text, (NewToolsetDoesNotExistError name).Is (some (GoError.other text)) = false) := by
  refine ⟨?_, ?_, rfl, ?_, rfl, fun _ => rfl, fun _ => rfl⟩
  · rw [EnableToolset_of_absent tg mem name h]
  · simp [ToolsetGroup.GetToolset, h]
  · intro target
    cases target with
    | none => simp [ToolsetDoesNotExistError.Is]
    | some g =>
      cases g with
      | toolsetDoesNotExist e => simp [ToolsetDoesNotExistError.Is]
      | other text => simp [ToolsetDoesNotExistError.Is]

/-- Witness for C22: "nonexistent" on the sample group. -/
theorem not_found_error_kind_witness :
    (sampleGroup.EnableToolset sampleHeap "nonexistent").1 =
      some (NewToolsetDoesNotExistError "nonexistent") ∧
    (NewToolsetDoesNotExistError "nonexistent").Error = "toolset nonexistent does not exist" ∧
    (NewToolsetDoesNotExistError "nonexistent").Is
      (some (GoError.toolsetDoesNotExist (some (NewToolsetDoesNotExistError "repos")))) = true :=
  ⟨(not_found_error_kind sampleGroup sampleHeap "nonexistent" (by decide)).1,
    (not_found_error_kind sampleGroup sampleHeap "nonexistent" (by decide)).2.2.1,
    (not_found_error_kind sampleGroup sampleHeap "nonexistent" (by decide)).2.2.2.2.2.1 "repos"⟩

/-- C29. AddReadTools and AddWriteTools fail before they append: when some
tool of the list does not pass the annotation check (for AddReadTools a hint
other than true, for AddWriteTools a hint other than false), the call panics
and leaves the toolset exactly as it was, so readTools and writeTools are
unchanged even when correctly annotated tools stand before the offending one.
This holds for every toolset, read-only or not: AddWriteTools panics on a
tool annotated read-only even when the toolset is read-only. -/
theorem AddTools_fail_before_append (t : Toolset) (tools : List ServerTool) :
    ((∃ tool ∈ tools, tool.Tool.Annotations.ReadOnlyHint ≠ some true) →
      ∃ p, Toolset.AddReadTools.recovered t tools = (some p, t) ∧
        t.AddReadTools tools = Except.error p) ∧
    ((∃ tool ∈ tools, tool.Tool.Annotations.ReadOnlyHint ≠ some false) →
      ∃ p, Toolset.AddWriteTools.recovered t tools = (some p, t) ∧
        t.AddWriteTools tools = Except.error p) := by
  constructor
  · rintro ⟨tool, hm, hh⟩
    cases hc : AddReadTools.check tools with
    | none => exact absurd ((AddReadTools_check_eq_none_iff tools).1 hc tool hm) hh
    | some p =>
      refine ⟨p, ?_, (AddReadTools_eq_error_iff t tools p).2 hc⟩
      simp [Toolset.AddReadTools.recovered, AddReadTools_checkFrom_eq, hc]
  · rintro ⟨tool, hm, hh⟩
    cases hc : AddWriteTools.check tools with
    | none => exact absurd ((AddWriteTools_check_eq_none_iff tools).1 hc tool hm) hh
    | some p =>
      refine ⟨p, ?_, (AddWriteTools_eq_error_iff t tools p).2 hc⟩
      simp [Toolset.AddWriteTools.recovered, AddWriteTools_checkFrom_eq, hc]

/-- Witness for C29: a write tool followed by a read tool, handed to
AddWriteTools of a read-only toolset: the call panics on the read tool and the
toolset is as it was. -/
theorem AddTools_fail_before_append_witness :
    Toolset.AddWriteTools.recovered (NewToolset "repos" "").SetReadOnly
        [sampleTool "push_files" false, sampleTool "get_commit" true] =
      (some (Panic.message "tool (get_commit) is incorrectly annotated as read-only"),
        (NewToolset "repos" "").SetReadOnly) ∧
    ∃ p, Toolset.AddReadTools.recovered (NewToolset "repos" "")
        [sampleTool "get_commit" true, sampleTool "push_files" false] =
      (some p, NewToolset "repos" "") ∧
      (NewToolset "repos" "").AddReadTools
        [sampleTool "get_commit" true, sampleTool "push_files" false] = Except.error p :=
  ⟨by decide,
    (AddTools_fail_before_append (NewToolset "repos" "")
      [sampleTool "get_commit" true, sampleTool "push_files" false]).1
      ⟨sampleTool "push_files" false, by decide, by decide⟩⟩

/-- C30, as stated, fails in its part on the empty list for a group whose
everythingOn is already true: after EnableToolsets of "all" on the empty group
and AddToolset of the disabled "issues" object, EnableToolsets of the empty
list returns success and sets Enabled on that object. -/
theorem EnableToolsets_empty_list_counterexample :
    ∃ st : ToolsetGroup × Heap,
      runCalls (NewToolsetGroup false) sampleHeap
          [Call.EnableToolsets ["all"], Call.AddToolset 1] = Except.ok st ∧
      st.1.Toolsets.get "issues" = some 1 ∧
      (st.2 1).Enabled = false ∧
      (st.1.EnableToolsets st.2 []).1 = none ∧
      ((st.1.EnableToolsets st.2 []).2.2 1).Enabled = true :=
  ⟨_, rfl, by decide, by decide, by decide, by decide⟩

/-- C30, amended. EnableToolsets is not atomic on failure: for a name list
whose first element that is not a registry key and not "all" is n, with only
registry keys other than "all" before it, EnableToolsets returns the
ToolsetDoesNotExistError for n; every toolset named before n has
Enabled = true afterwards; a toolset object that is not stored under a name
before n is unchanged, so no toolset named only after n is newly enabled; no
toolset is changed in anything but Enabled; the group, everythingOn included,
is unchanged. For the empty list and a group whose everythingOn is false,
EnableToolsets returns success and changes nothing. -/
theorem EnableToolsets_not_atomic (tg : ToolsetGroup) (mem : Heap)
    (before after : List String) (n : String)
    (hb : ∀ x ∈ before, x ≠ "all" ∧ tg.Toolsets.get x ≠ none)
    (hn : n ≠ "all") (hg : tg.Toolsets.get n = none) :
    (tg.EnableToolsets mem (before ++ n :: after)).1 = some (NewToolsetDoesNotExistError n) ∧
    (∀ x ∈ before, ∀ p, tg.Toolsets.get x = some p →
      ((tg.EnableToolsets mem (before ++ n :: after)).2.2 p).Enabled = true) ∧
    (∀ q, (∀ x ∈ before, tg.Toolsets.get x ≠ some q) →
      (tg.EnableToolsets mem (before ++ n :: after)).2.2 q = mem q) ∧
    (∀ q, (tg.EnableToolsets mem (before ++ n :: after)).2.2 q = mem q ∨
      (tg.EnableToolsets mem (before ++ n :: after)).2.2 q = { mem q with Enabled := true }) ∧
    (tg.EnableToolsets mem (before ++ n :: after)).2.1 = tg ∧
    (tg.EnableToolsets mem (before ++ n :: after)).2.1.everythingOn = tg.everythingOn ∧
    (tg.everythingOn = false → tg.EnableToolsets mem [] = (none, tg, mem)) := by
  have hb1 : ∀ x ∈ before, x ≠ "all" ∧ ∃ p, tg.Toolsets.get x = some p :=
    fun x hx => ⟨(hb x hx).1, Option.ne_none_iff_exists'.1 (hb x hx).2⟩
  rw [EnableToolsets_upTo_unknown tg mem before after n hn hg hb1]
  refine ⟨rfl, ?_, ?_, ?_, rfl, rfl, EnableToolsets_nil tg mem⟩
  · intro x hx p hp
    exact Heap.enableAt_enabled _ _ _ ((ToolsetMap.mem_getAll _ _ _).2 ⟨x, hx, hp⟩)
  · intro q hq
    have hnot : q ∉ tg.Toolsets.getAll before := by
      intro hm
      obtain ⟨x, hx, hp⟩ := (ToolsetMap.mem_getAll _ _ _).1 hm
      exact hq x hx hp
    simp [Heap.enableAt, hnot]
  · intro q
    by_cases hm : q ∈ tg.Toolsets.getAll before
    · exact Or.inr (by simp [Heap.enableAt, hm])
    · exact Or.inl (by simp [Heap.enableAt, hm])

/-- Witness for amended C30: on the sample group, "repos", "nonexistent",
"issues": the error names "nonexistent", "repos" is enabled and "issues" is
not. -/
theorem EnableToolsets_not_atomic_witness :
    (sampleGroup.EnableToolsets sampleHeap (["repos"] ++ "nonexistent" :: ["issues"])).1 =
      some (NewToolsetDoesNotExistError "nonexistent") ∧
    ((sampleGroup.EnableToolsets sampleHeap
      (["repos"] ++ "nonexistent" :: ["issues"])).2.2 0).Enabled = true ∧
    (sampleGroup.EnableToolsets sampleHeap (["repos"] ++ "nonexistent" :: ["issues"])).2.2 1 =
      sampleHeap 1 ∧
    (sampleHeap 1).Enabled = false :=
  ⟨(EnableToolsets_not_atomic sampleGroup sampleHeap ["repos"] ["issues"] "nonexistent"
      (by decide) (by decide) (by decide)).1,
    (EnableToolsets_not_atomic sampleGroup sampleHeap ["repos"] ["issues"] "nonexistent"
      (by decide) (by decide) (by decide)).2.1 "repos" (by decide) 0 (by decide),
    (EnableToolsets_not_atomic sampleGroup sampleHeap ["repos"] ["issues"] "nonexistent"
      (by decide) (by decide) (by decide)).2.2.1 1 (by decide),
    by decide⟩

end toolsets

namespace github

/-! ## Lemmas on the parameter helpers -/

theorem OptionalIntParamWithDefault_absent (r : CallToolRequest) (p : String) (d : Int)
    (h : r.get p = none) : OptionalIntParamWithDefault r p d = (d, none) := by
  simp [OptionalIntParamWithDefault, OptionalIntParam, OptionalParam, h, TypeParam.float64,
    Float64.toInt, Float64.exponent]

theorem OptionalIntParamWithDefault_number (r : CallToolRequest) (p : String) (d : Int)
    (x : Float64) (h : r.get p = some (Value.float64 x)) :
    OptionalIntParamWithDefault r p d = (if x.toInt = 0 then d else x.toInt, none) := by
  by_cases hz : x.toInt = 0 <;>
    simp [OptionalIntParamWithDefault, OptionalIntParam, OptionalParam, h, TypeParam.float64, hz]

theorem OptionalIntParamWithDefault_other (r : CallToolRequest) (p : String) (d : Int)
    (val : Value) (h : r.get p = some val) (hv : ∀ x, val ≠ Value.float64 x) :
    OptionalIntParamWithDefault r p d =
      (0, some ("parameter " ++ p ++ " is not of type " ++ TypeParam.float64.name ++ ", is " ++
        val.typeName)) := by
  cases val with
  | float64 x => exact absurd rfl (hv x)
  | _ =>
    simp [OptionalIntParamWithDefault, OptionalIntParam, OptionalParam, h, TypeParam.float64]

theorem OptionalParam_string_absent (r : CallToolRequest) (p : String) (h : r.get p = none) :
    OptionalParam TypeParam.string r p = ("", none) := by
  simp [OptionalParam, h, TypeParam.string]

theorem OptionalParam_string_present (r : CallToolRequest) (p s : String)
    (h : r.get p = some (Value.string s)) : OptionalParam TypeParam.string r p = (s, none) := by
  simp [OptionalParam, h, TypeParam.string]

theorem OptionalParam_string_other (r : CallToolRequest) (p : String) (val : Value)
    (h : r.get p = some val) (hv : ∀ s, val ≠ Value.string s) :
    OptionalParam TypeParam.string r p =
      ("", some ("parameter " ++ p ++ " is not of type " ++ TypeParam.string.name ++ ", is " ++
        val.typeName)) := by
  cases val with
  | string s => exact absurd rfl (hv s)
  | _ => simp [OptionalParam, h, TypeParam.string]

/-! ## Lemmas on filterPaths -/

theorem filterPaths_loop_step (dirOnly : Bool) (path : String) (maxResults : Int)
    (entry : Option TreeEntry) (rest : List (Option TreeEntry)) (matched : List String)
    (h : (matched.length : Int) ≠ maxResults) :
    filterPaths.loop dirOnly path maxResults (entry :: rest) matched =
      filterPaths.loop dirOnly path maxResults rest
        (matched ++ (matchOf dirOnly path entry).toList) := by
  rw [filterPaths.loop, if_neg h]
  by_cases hd : dirOnly = true <;> by_cases ht : GetType entry = "tree" <;>
    by_cases hp : GetPath entry = "" <;>
    by_cases hs : strings.HasSuffix (GetPath entry) path = true <;>
    simp [matchOf, hd, ht, hp, hs]

theorem filterPaths_loop_neg (dirOnly : Bool) (path : String) (maxResults : Int)
    (hneg : maxResults < 0) (entries : List (Option TreeEntry)) :
    ∀ matched : List String,
      filterPaths.loop dirOnly path maxResults entries matched =
        matched ++ entries.filterMap (matchOf dirOnly path) := by
  induction entries with
  | nil =>
    intro matched
    simp [filterPaths.loop]
  | cons entry rest ih =>
    intro matched
    have hne : (matched.length : Int) ≠ maxResults := by omega
    rw [filterPaths_loop_step _ _ _ _ _ _ hne, ih]
    cases hm : matchOf dirOnly path entry <;> simp [List.filterMap_cons, hm]

theorem filterPaths_loop_nonneg (dirOnly : Bool) (path : String) (n : Nat)
    (entries : List (Option TreeEntry)) :
    ∀ matched : List String, matched.length ≤ n →
      filterPaths.loop dirOnly path (n : Int) entries matched =
        matched ++ (entries.filterMap (matchOf dirOnly path)).take (n - matched.length) := by
  induction entries with
  | nil =>
    intro matched _
    simp [filterPaths.loop]
  | cons entry rest ih =>
    intro matched hlen
    by_cases hfull : matched.length = n
    · unfold filterPaths.loop
      rw [if_pos (by omega)]
      simp [hfull]
    · have hne : (matched.length : Int) ≠ (n : Int) := by omega
      rw [filterPaths_loop_step _ _ _ _ _ _ hne]
      cases hm : matchOf dirOnly path entry with
      | none =>
        rw [ih _ (by simpa using hlen)]
        simp [List.filterMap_cons, hm]
      | some out =>
        have hlen1 : (matched ++ (some out).toList).length ≤ n := by
          simp only [Option.toList, List.length_append, List.length_singleton]
          omega
        rw [ih _ hlen1]
        have hsub : n - matched.length = (n - (matched.length + 1)) + 1 := by omega
        simp only [Option.toList, List.length_append, List.length_singleton,
          List.filterMap_cons, hm]
        rw [hsub, List.take_succ_cons]
        simp

theorem matchOf_eq_some_iff (dirOnly : Bool) (path : String) (entry : Option TreeEntry)
    (out : String) :
    matchOf dirOnly path entry = some out ↔
      (dirOnly = true → GetType entry = "tree") ∧ GetPath entry ≠ "" ∧
      strings.HasSuffix (GetPath entry) path = true ∧
      out = if GetType entry = "tree" then GetPath entry ++ "/" else GetPath entry := by
  unfold matchOf
  by_cases hc : (dirOnly = true → GetType entry = "tree") ∧ GetPath entry ≠ "" ∧
      strings.HasSuffix (GetPath entry) path = true
  · rw [if_pos hc]
    constructor
    · intro h
      simp only [Option.some.injEq] at h
      exact ⟨hc.1, hc.2.1, hc.2.2, h.symm⟩
    · rintro ⟨_, _, _, h4⟩
      rw [h4]
  · rw [if_neg hc]
    constructor
    · intro h
      simp at h
    · rintro ⟨h1, h2, h3, _⟩
      exact absurd ⟨h1, h2, h3⟩ hc

/-! ## The claims on pkg/github -/

/-- C23. OptionalParamOK returns the zero value, ok = false and no error when
the parameter is absent; the value, ok = true and no error when it is present
with a value of type T; and the zero value, ok = true and the error
"parameter <p> is not of type <T>, is <actual type>" when it is present with a
value of another type. For the type arguments string, bool and float64 the
value has type T exactly when it is a string, a bool or a number. -/
theorem OptionalParamOK_spec {α : Type} (T : TypeParam α) (r : CallToolRequest) (p : String) :
    (r.get p = none → OptionalParamOK T r p = (T.zero, false, none)) ∧
    (∀ val value, r.get p = some val → T.assert val = some value →
      OptionalParamOK T r p = (value, true, none)) ∧
    (∀ val, r.get p = some val → T.assert val = none →
      OptionalParamOK T r p =
        (T.zero, true,
          some ("parameter " ++ p ++ " is not of type " ++ T.name ++ ", is " ++ val.typeName))) ∧
    (∀ val s, TypeParam.string.assert val = some s ↔ val = Value.string s) ∧
    (∀ val b, TypeParam.bool.assert val = some b ↔ val = Value.bool b) ∧
    (∀ val x, TypeParam.float64.assert val = some x ↔ val = Value.float64 x) ∧
    (TypeParam.string.name = "string" ∧ TypeParam.bool.name = "bool" ∧
      TypeParam.float64.name = "float64") := by
  refine ⟨?_, ?_, ?_, ?_, ?_, ?_, rfl, rfl, rfl⟩
  · intro h
    simp [OptionalParamOK, h]
  · intro val value h ha
    simp [OptionalParamOK, h, ha]
  · intro val h ha
    simp [OptionalParamOK, h, ha]
  · intro val s
    cases val <;> simp [TypeParam.string]
  · intro val b
    cases val <;> simp [TypeParam.bool]
  · intro val x
    cases val <;> simp [TypeParam.float64]

/-- Witness for C23: the cases of TestOptionalParamOK. -/
theorem OptionalParamOK_spec_witness :
    OptionalParamOK TypeParam.string [("myParam", Value.string "hello")] "myParam" =
      ("hello", true, none) ∧
    OptionalParamOK TypeParam.string [("myParam", Value.bool true)] "myParam" =
      ("", true, some "parameter myParam is not of type string, is bool") ∧
    OptionalParamOK TypeParam.bool [("myParam", Value.string "true")] "myParam" =
      (false, true, some "parameter myParam is not of type bool, is string") ∧
    OptionalParamOK TypeParam.string [("anotherParam", Value.string "value")] "myParam" =
      ("", false, none) :=
  ⟨(OptionalParamOK_spec TypeParam.string [("myParam", Value.string "hello")] "myParam").2.1
      (Value.string "hello") "hello" (by decide) rfl,
    (OptionalParamOK_spec TypeParam.string [("myParam", Value.bool true)] "myParam").2.2.1
      (Value.bool true) (by decide) rfl,
    (OptionalParamOK_spec TypeParam.bool [("myParam", Value.string "true")] "myParam").2.2.1
      (Value.string "true") (by decide) rfl,
    (OptionalParamOK_spec TypeParam.string [("anotherParam", Value.string "value")]
      "myParam").1 (by decide)⟩

/-- C24. RequiredParam succeeds, returning the value of the argument, exactly
when the parameter is present, its value has type T and the value is not equal
to the zero value of T. It returns the zero value with the error
"missing required parameter: <p>" when the parameter is absent or equal to the
zero value, and the zero value with the error
"parameter <p> is not of type <T>" when the value has another type. -/
theorem RequiredParam_spec {α : Type} (T : TypeParam α) (r : CallToolRequest) (p : String) :
    (r.get p = none →
      RequiredParam T r p = (T.zero, some ("missing required parameter: " ++ p))) ∧
    (∀ arg, r.get p = some arg → T.assert arg = none →
      RequiredParam T r p =
        (T.zero, some ("parameter " ++ p ++ " is not of type " ++ T.name))) ∧
    (∀ arg val, r.get p = some arg → T.assert arg = some val → T.eq val T.zero = true →
      RequiredParam T r p = (T.zero, some ("missing required parameter: " ++ p))) ∧
    (∀ arg val, r.get p = some arg → T.assert arg = some val → T.eq val T.zero = false →
      RequiredParam T r p = (val, none)) ∧
    ((RequiredParam T r p).2 = none ↔
      ∃ arg val, r.get p = some arg ∧ T.assert arg = some val ∧ T.eq val T.zero = false) ∧
    (∀ s, TypeParam.string.eq s TypeParam.string.zero = true ↔ s = "") := by
  refine ⟨?_, ?_, ?_, ?_, ?_, ?_⟩
  · intro h
    simp [RequiredParam, h]
  · intro arg h ha
    simp [RequiredParam, h, ha]
  · intro arg val h ha he
    simp [RequiredParam, h, ha, he]
  · intro arg val h ha he
    simp [RequiredParam, h, ha, he]
  · cases h : r.get p with
    | none => simp [RequiredParam, h]
    | some arg =>
      cases ha : T.assert arg with
      | none => simp [RequiredParam, h, ha]
      | some val => cases he : T.eq val T.zero <;> simp [RequiredParam, h, ha, he]
  · intro s
    simp [TypeParam.string]

/-- Witness for C24: a present string, an empty string, a missing parameter
and a number where a string is required. -/
theorem RequiredParam_spec_witness :
    RequiredParam TypeParam.string [("owner", Value.string "octocat")] "owner" =
      ("octocat", none) ∧
    RequiredParam TypeParam.string [("owner", Value.string "")] "owner" =
      ("", some "missing required parameter: owner") ∧
    RequiredParam TypeParam.string [("repo", Value.string "x")] "owner" =
      ("", some "missing required parameter: owner") ∧
    RequiredParam TypeParam.string [("owner", Value.float64 { bits := 0 })] "owner" =
      ("", some "parameter owner is not of type string") :=
  ⟨(RequiredParam_spec TypeParam.string [("owner", Value.string "octocat")] "owner").2.2.2.1
      (Value.string "octocat") "octocat" (by decide) rfl (by decide),
    (RequiredParam_spec TypeParam.string [("owner", Value.string "")] "owner").2.2.1
      (Value.string "") "" (by decide) rfl (by decide),
    (RequiredParam_spec TypeParam.string [("repo", Value.string "x")] "owner").1 (by decide),
    (RequiredParam_spec TypeParam.string [("owner", Value.float64 { bits := 0 })]
      "owner").2.1 (Value.float64 { bits := 0 }) (by decide) rfl⟩

/-- C25. The code at the failing input, present numbers that convert to 0:
with "page" present and 0, and "perPage" present and 0.5 (bit pattern
0x3FE0000000000000), both convert to the int 0, yet OptionalPaginationParams
returns Page = 1 and PerPage = 30, the defaults its documentation gives for
parameters that are not present. -/
theorem OptionalPaginationParams_zero_failing_input :
    CallToolRequest.get
        [("page", Value.float64 { bits := 0 }),
         ("perPage", Value.float64 { bits := 0x3FE0000000000000 })] "page" =
      some (Value.float64 { bits := 0 }) ∧
    CallToolRequest.get
        [("page", Value.float64 { bits := 0 }),
         ("perPage", Value.float64 { bits := 0x3FE0000000000000 })] "perPage" =
      some (Value.float64 { bits := 0x3FE0000000000000 }) ∧
    ({ bits := 0 } : Float64).toInt = 0 ∧
    ({ bits := 0x3FE0000000000000 } : Float64).toInt = 0 ∧
    ({ bits := 0x3FE0000000000000 } : Float64).isZero = false ∧
    OptionalPaginationParams
        [("page", Value.float64 { bits := 0 }),
         ("perPage", Value.float64 { bits := 0x3FE0000000000000 })] =
      ({ Page := 1, PerPage := 30, After := "" }, none) := by
  decide

/-- What OptionalPaginationParams computes on every request. It fails exactly
when "page" or "perPage" is present and not a number or "after" is present and
not a string, and then returns the empty PaginationParams. Otherwise Page is 1
when "page" is absent, PerPage is 30 when "perPage" is absent and After is ""
when "after" is absent; a present numeric "page" or "perPage" gives that
number converted to int when the converted value is not 0, and 1 or 30 when
the converted value is 0; a present string "after" is returned as it is. -/
theorem OptionalPaginationParams_spec (r : CallToolRequest) :
    ((∃ e, (OptionalPaginationParams r).2 = some e) ↔
      (∃ val, r.get "page" = some val ∧ ∀ x, val ≠ Value.float64 x) ∨
      (∃ val, r.get "perPage" = some val ∧ ∀ x, val ≠ Value.float64 x) ∨
      (∃ val, r.get "after" = some val ∧ ∀ s, val ≠ Value.string s)) ∧
    (∀ e, (OptionalPaginationParams r).2 = some e →
      (OptionalPaginationParams r).1 = { Page := 0, PerPage := 0, After := "" }) ∧
    ((OptionalPaginationParams r).2 = none →
      (r.get "page" = none → (OptionalPaginationParams r).1.Page = 1) ∧
      (∀ x, r.get "page" = some (Value.float64 x) →
        (OptionalPaginationParams r).1.Page = if x.toInt = 0 then 1 else x.toInt) ∧
      (r.get "perPage" = none → (OptionalPaginationParams r).1.PerPage = 30) ∧
      (∀ x, r.get "perPage" = some (Value.float64 x) →
        (OptionalPaginationParams r).1.PerPage = if x.toInt = 0 then 30 else x.toInt) ∧
      (r.get "after" = none → (OptionalPaginationParams r).1.After = "") ∧
      (∀ s, r.get "after" = some (Value.string s) →
        (OptionalPaginationParams r).1.After = s)) := by
  have hpage : (∃ d, OptionalIntParamWithDefault r "page" 1 = (d, none) ∧
        (r.get "page" = none → d = 1) ∧
        (∀ x, r.get "page" = some (Value.float64 x) → d = if x.toInt = 0 then 1 else x.toInt) ∧
        ¬ ∃ val, r.get "page" = some val ∧ ∀ x, val ≠ Value.float64 x) ∨
      (∃ e, OptionalIntParamWithDefault r "page" 1 = (0, some e) ∧
        ∃ val, r.get "page" = some val ∧ ∀ x, val ≠ Value.float64 x) := by
    cases h : r.get "page" with
    | none =>
      exact Or.inl ⟨1, OptionalIntParamWithDefault_absent r "page" 1 h, fun _ => rfl,
        by simp, by simp⟩
    | some val =>
      by_cases hv : ∃ x, val = Value.float64 x
      · obtain ⟨x, rfl⟩ := hv
        refine Or.inl ⟨_, OptionalIntParamWithDefault_number r "page" 1 x h, by simp, ?_, ?_⟩
        · intro y hy
          simp only [Option.some.injEq, Value.float64.injEq] at hy
          rw [hy]
        · rintro ⟨val, hval, hne⟩
          simp only [Option.some.injEq] at hval
          exact hne x hval.symm
      · have hv1 : ∀ x, val ≠ Value.float64 x := fun x e => hv ⟨x, e⟩
        exact Or.inr ⟨_, OptionalIntParamWithDefault_other r "page" 1 val h hv1, val, rfl, hv1⟩
  have hper : (∃ d, OptionalIntParamWithDefault r "perPage" 30 = (d, none) ∧
        (r.get "perPage" = none → d = 30) ∧
        (∀ x, r.get "perPage" = some (Value.float64 x) →
          d = if x.toInt = 0 then 30 else x.toInt) ∧
        ¬ ∃ val, r.get "perPage" = some val ∧ ∀ x, val ≠ Value.float64 x) ∨
      (∃ e, OptionalIntParamWithDefault r "perPage" 30 = (0, some e) ∧
        ∃ val, r.get "perPage" = some val ∧ ∀ x, val ≠ Value.float64 x) := by
    cases h : r.get "perPage" with
    | none =>
      exact Or.inl ⟨30, OptionalIntParamWithDefault_absent r "perPage" 30 h, fun _ => rfl,
        by simp, by simp⟩
    | some val =>
      by_cases hv : ∃ x, val = Value.float64 x
      · obtain ⟨x, rfl⟩ := hv
        refine Or.inl ⟨_, OptionalIntParamWithDefault_number r "perPage" 30 x h, by simp, ?_, ?_⟩
        · intro y hy
          simp only [Option.some.injEq, Value.float64.injEq] at hy
          rw [hy]
        · rintro ⟨val, hval, hne⟩
          simp only [Option.some.injEq] at hval
          exact hne x hval.symm
      · have hv1 : ∀ x, val ≠ Value.float64 x := fun x e => hv ⟨x, e⟩
        exact Or.inr
          ⟨_, OptionalIntParamWithDefault_other r "perPage" 30 val h hv1, val, rfl, hv1⟩
  have hafter : (∃ a, OptionalParam TypeParam.string r "after" = (a, none) ∧
        (r.get "after" = none → a = "") ∧
        (∀ s, r.get "after" = some (Value.string s) → a = s) ∧
        ¬ ∃ val, r.get "after" = some val ∧ ∀ s, val ≠ Value.string s) ∨
      (∃ e, OptionalParam TypeParam.string r "after" = ("", some e) ∧
        ∃ val, r.get "after" = some val ∧ ∀ s, val ≠ Value.string s) := by
    cases h : r.get "after" with
    | none =>
      exact Or.inl ⟨"", OptionalParam_string_absent r "after" h, fun _ => rfl, by simp, by simp⟩
    | some val =>
      by_cases hv : ∃ s, val = Value.string s
      · obtain ⟨s, rfl⟩ := hv
        refine Or.inl ⟨_, OptionalParam_string_present r "after" s h, by simp, ?_, ?_⟩
        · intro y hy
          simp only [Option.some.injEq, Value.string.injEq] at hy
          rw [hy]
        · rintro ⟨val, hval, hne⟩
          simp only [Option.some.injEq] at hval
          exact hne s hval.symm
      · have hv1 : ∀ s, val ≠ Value.string s := fun s e => hv ⟨s, e⟩
        exact Or.inr ⟨_, OptionalParam_string_other r "after" val h hv1, val, rfl, hv1⟩
  rcases hpage with ⟨d1, e1, a1, b1, c1⟩ | ⟨m1, e1, w1⟩
  · rcases hper with ⟨d2, e2, a2, b2, c2⟩ | ⟨m2, e2, w2⟩
    · rcases hafter with ⟨d3, e3, a3, b3, c3⟩ | ⟨m3, e3, w3⟩
      · have hres : OptionalPaginationParams r =
            ({ Page := d1, PerPage := d2, After := d3 }, none) := by
          simp [OptionalPaginationParams, e1, e2, e3]
        rw [hres]
        refine ⟨⟨?_, ?_⟩, ?_, ?_⟩
        · rintro ⟨e, he⟩
          simp at he
        · rintro (h | h | h)
          · exact absurd h c1
          · exact absurd h c2
          · exact absurd h c3
        · intro e he
          simp at he
        · intro _
          exact ⟨a1, b1, a2, b2, a3, b3⟩
      · have hres : OptionalPaginationParams r =
            ({ Page := 0, PerPage := 0, After := "" }, some m3) := by
          simp [OptionalPaginationParams, e1, e2, e3]
        rw [hres]
        refine ⟨⟨fun _ => Or.inr (Or.inr w3), fun _ => ⟨m3, rfl⟩⟩, fun _ _ => rfl, ?_⟩
        intro h
        simp at h
    · have hres : OptionalPaginationParams r =
          ({ Page := 0, PerPage := 0, After := "" }, some m2) := by
        simp [OptionalPaginationParams, e1, e2]
      rw [hres]
      refine ⟨⟨fun _ => Or.inr (Or.inl w2), fun _ => ⟨m2, rfl⟩⟩, fun _ _ => rfl, ?_⟩
      intro h
      simp at h
  · have hres : OptionalPaginationParams r =
        ({ Page := 0, PerPage := 0, After := "" }, some m1) := by
      simp [OptionalPaginationParams, e1]
    rw [hres]
    refine ⟨⟨fun _ => Or.inl w1, fun _ => ⟨m1, rfl⟩⟩, fun _ _ => rfl, ?_⟩
    intro h
    simp at h

/-- An instance of OptionalPaginationParams_spec: no pagination argument gives
page 1 and 30 per page (the default pagination of the repository search
test); page 2.0 with the cursor "c" gives page 2. -/
theorem OptionalPaginationParams_spec_witness :
    (OptionalPaginationParams [("query", Value.string "golang test")]).1.Page = 1 ∧
    (OptionalPaginationParams [("query", Value.string "golang test")]).1.PerPage = 30 ∧
    (OptionalPaginationParams
      [("page", Value.float64 { bits := 0x4000000000000000 }),
       ("after", Value.string "c")]).1.Page = 2 :=
  ⟨((OptionalPaginationParams_spec [("query", Value.string "golang test")]).2.2
      (by decide)).1 (by decide),
    ((OptionalPaginationParams_spec [("query", Value.string "golang test")]).2.2
      (by decide)).2.2.1 (by decide),
    ((OptionalPaginationParams_spec
      [("page", Value.float64 { bits := 0x4000000000000000 }),
       ("after", Value.string "c")]).2.2 (by decide)).2.1
      { bits := 0x4000000000000000 } (by decide)⟩

/-- C26. CursorPaginationParams.ToGraphQLParams fails, returning no result,
exactly when PerPage is above 100 or below 0. Otherwise it returns First equal
to PerPage (the conversion to int32 loses nothing between 0 and 100) and After
absent when After is the empty string, After itself otherwise.
PaginationParams.ToGraphQLParams is ToGraphQLParams of the cursor parameters
with the same PerPage and After, whatever Page is. -/
theorem ToGraphQLParams_spec (p : CursorPaginationParams) (q : PaginationParams) :
    ((∃ e, p.ToGraphQLParams.2 = some e) ↔ (p.PerPage > 100 ∨ p.PerPage < 0)) ∧
    (∀ e, p.ToGraphQLParams.2 = some e → p.ToGraphQLParams.1 = none) ∧
    (0 ≤ p.PerPage → p.PerPage ≤ 100 →
      p.ToGraphQLParams =
        (some { First := some p.PerPage,
                After := if p.After = "" then none else some p.After }, none)) ∧
    (0 ≤ p.PerPage → p.PerPage ≤ 100 → toInt32 p.PerPage = p.PerPage) ∧
    q.ToGraphQLParams =
      ({ PerPage := q.PerPage, After := q.After } : CursorPaginationParams).ToGraphQLParams ∧
    (∀ page, ({ q with Page := page } : PaginationParams).ToGraphQLParams =
      q.ToGraphQLParams) := by
  have h32 : 0 ≤ p.PerPage → p.PerPage ≤ 100 → toInt32 p.PerPage = p.PerPage := by
    intro h0 h1
    unfold toInt32
    omega
  refine ⟨?_, ?_, ?_, h32, rfl, fun _ => rfl⟩
  · unfold CursorPaginationParams.ToGraphQLParams
    by_cases h1 : p.PerPage > 100
    · simp [h1]
    · by_cases h2 : p.PerPage < 0
      · simp [h1, h2]
      · simp [h1, h2]
  · intro e he
    unfold CursorPaginationParams.ToGraphQLParams at he ⊢
    by_cases h1 : p.PerPage > 100
    · simp [h1]
    · by_cases h2 : p.PerPage < 0
      · simp [h1, h2]
      · simp [h1, h2] at he
  · intro h0 h1
    have a1 : ¬ p.PerPage > 100 := by omega
    have a2 : ¬ p.PerPage < 0 := by omega
    unfold CursorPaginationParams.ToGraphQLParams
    rw [if_neg a1, if_neg a2]
    simp only [h32 h0 h1]
    by_cases ha : p.After = "" <;> simp [ha]

/-- Witness for C26: 50 per page with a cursor, and 101 per page. -/
theorem ToGraphQLParams_spec_witness :
    ({ PerPage := 50, After := "abc" } : CursorPaginationParams).ToGraphQLParams =
      (some { First := some 50, After := some "abc" }, none) ∧
    ∃ e, ({ PerPage := 101, After := "" } : CursorPaginationParams).ToGraphQLParams.2 =
      some e :=
  ⟨(ToGraphQLParams_spec { PerPage := 50, After := "abc" }
      { Page := 1, PerPage := 50, After := "abc" }).2.2.1 (by decide) (by decide),
    (ToGraphQLParams_spec { PerPage := 101, After := "" }
      { Page := 1, PerPage := 101, After := "" }).1.2 (Or.inl (by decide))⟩

/-- C28. filterPaths returns the matches of the entries in entry order: the
paths of the entries whose path is not empty and ends with the path (one
trailing "/" of the path removed), only entries of type "tree" when the path
ended with "/", the path of a tree entry followed by "/". For maxResults at
least 0 the result is the first maxResults matches, so its length is at most
maxResults; for a negative maxResults, -1 among them, it is every match. -/
theorem filterPaths_spec (entries : List (Option TreeEntry)) (path : String)
    (maxResults : Int) :
    (0 ≤ maxResults →
      filterPaths entries path maxResults =
        (allMatches entries path).take maxResults.toNat) ∧
    (0 ≤ maxResults → ((filterPaths entries path maxResults).length : Int) ≤ maxResults) ∧
    (maxResults < 0 → filterPaths entries path maxResults = allMatches entries path) ∧
    filterPaths entries path (-1) = allMatches entries path ∧
    (∀ entry ∈ entries, ∀ out,
      matchOf (strings.HasSuffix path "/")
          (if strings.HasSuffix path "/" then strings.TrimSuffix path "/" else path) entry =
        some out ↔
      (strings.HasSuffix path "/" = true → GetType entry = "tree") ∧ GetPath entry ≠ "" ∧
      strings.HasSuffix (GetPath entry)
        (if strings.HasSuffix path "/" then strings.TrimSuffix path "/" else path) = true ∧
      out = if GetType entry = "tree" then GetPath entry ++ "/" else GetPath entry) := by
  have hneg : ∀ m : Int, m < 0 → filterPaths entries path m = allMatches entries path := by
    intro m hm
    unfold filterPaths allMatches
    by_cases hs : strings.HasSuffix path "/" = true
    · simp [hs, filterPaths_loop_neg _ _ _ hm]
    · simp [hs, filterPaths_loop_neg _ _ _ hm]
  have hpos : 0 ≤ maxResults →
      filterPaths entries path maxResults =
        (allMatches entries path).take maxResults.toNat := by
    intro h0
    obtain ⟨n, rfl⟩ := Int.eq_ofNat_of_zero_le h0
    unfold filterPaths allMatches
    by_cases hs : strings.HasSuffix path "/" = true
    · simp [hs, filterPaths_loop_nonneg]
    · simp [hs, filterPaths_loop_nonneg]
  refine ⟨hpos, ?_, hneg maxResults, hneg (-1) (by decide), ?_⟩
  · intro h0
    rw [hpos h0, List.length_take]
    omega
  · intro entry _ out
    exact matchOf_eq_some_iff _ _ entry out

/-- Witness for C28: three entries ending with "main.go", a limit of two. -/
theorem filterPaths_spec_witness :
    filterPaths
        [some { Path := some "cmd/main.go", Type_ := some "blob" },
         some { Path := some "pkg/main.go", Type_ := some "tree" },
         some { Path := some "main.go", Type_ := some "blob" }] "main.go" 2 =
      ["cmd/main.go", "pkg/main.go/"] ∧
    filterPaths
        [some { Path := some "cmd/main.go", Type_ := some "blob" },
         some { Path := some "pkg/main.go", Type_ := some "tree" },
         some { Path := some "main.go", Type_ := some "blob" }] "main.go/" (-1) =
      ["pkg/main.go/"] :=
  ⟨(filterPaths_spec _ "main.go" 2).1 (by decide),
    (filterPaths_spec _ "main.go/" (-1)).2.2.1 (by decide)⟩

end github
